import Mathlib

/-!
# Process table and scheduler core of Extended-XV6 (kernel/proc.c, kernel/sysproc.c)

A shallow embedding of the process table operations of `kernel/proc.c` and of the
system-call thunks of `kernel/sysproc.c`.

Conventions of the embedding.

* The process table `proc[NPROC]` is a `List Proc`; `NPROC` (param.h) is the length of
  the list.  A pointer to a slot is the index of the slot (`Ptr.slot i`), the null
  pointer is `Ptr.null`, any other kernel address used as a sleep channel is
  `Ptr.addr a`.
* `struct proc` is declared in `kernel/proc.h`.  The fields xv6 already has keep their
  xv6 meaning (`pid`, `killed`, `xstate` are C ints).  The counters this kernel adds
  (`creationTime`, `endTime`, `cpuRunTime`, `noOfTimesGotCpu`, `staticPriority`,
  `sleepStartTime`, `sleepTime`, `currentQ`, `entryTimeInCurrentQ`, `qTicks[5]`) are
  integer tick counters; arithmetic on them is done in `Int`, which is what the C code
  computes as long as no counter leaves the range of its machine type.  Where the
  source itself fixes a machine type (the `uint64` parameters of `set_priority`, the
  `uint` out-parameters of `waitx`) the conversion is explicit.  The tick counter
  `ticks` is xv6's `uint ticks` (sysproc.c copies it into a `uint ticks0`), so the
  elapsed-time test of the MLFQ aging pass, `ticks - p->entryTimeInCurrentQ >
  WAITING_LIMIT`, is computed mod 2^32.
* The scheduling policy is selected at build time (`#ifdef DEFAULT/FCFS/PBS/MLFQ`);
  it is the parameter `Policy`.
* Every operation is one atomic step on the table and the locks are not modelled,
  except in the two-CPU model of `sleep` and `wakeup`, which steps through the source
  lines of both and keeps the holder of the sleeper's `p->lock` and of the guard lock.
* `copyout` (kernel/vm.c) is an external collaborator: whether a copy to a user
  address succeeds is given by `copyok pagetable addr`, and every successful copy is
  appended to the log of user-memory writes.
* The other collaborators of process creation are parameters as well: what `kalloc`
  and `proc_pagetable` return (`tf`, `pt`, 0 for failure), whether `uvmcopy` succeeds
  (`copyOk`), and the tick counter `ticks`.  The pid counter `nextpid` is passed in
  and out explicitly.
* `myproc()` is the slot index of the caller (`caller`, `p`), or a `Ptr` where the
  call can be made outside any process (`wakeup`).
* Operations that end in `sched()` (`yield`, `sleep`, `exit`, a sleeping `wait`) are
  modelled up to that hand-off; `dispatch` is the scheduler's block up to `swtch`.
-/

namespace XV6

/-- The `enum procstate` of proc.h. -/
inductive procstate where
  | UNUSED | USED | SLEEPING | RUNNABLE | RUNNING | ZOMBIE
deriving DecidableEq, Repr

/-- The build-time scheduling policy (exactly one of the four symbols is defined). -/
inductive Policy where
  | DEFAULT | FCFS | PBS | MLFQ
deriving DecidableEq, Repr

/-- Kernel pointer values stored in `parent` and `chan`: null, the address of a slot
of the process table, or some other kernel address (for example `&ticks`). -/
inductive Ptr where
  | null
  | slot (i : Nat)
  | addr (a : Nat)
deriving DecidableEq, Repr

/-- The array `int qTicks[5]` of a slot. -/
structure QTicks where
  q0 : Int
  q1 : Int
  q2 : Int
  q3 : Int
  q4 : Int
deriving DecidableEq, Repr

/-- One slot of the process table (`struct proc`), restricted to the fields the
process and scheduler code of proc.c reads or writes. -/
structure Proc where
  state : procstate
  chan : Ptr
  killed : Int
  xstate : Int
  pid : Int
  parent : Ptr
  sz : Nat
  pagetable : Nat
  trapframe : Nat
  name : List Nat
  traceMask : Int
  creationTime : Int
  endTime : Int
  cpuRunTime : Int
  noOfTimesGotCpu : Int
  staticPriority : Int
  sleepStartTime : Int
  sleepTime : Int
  currentQ : Int
  entryTimeInCurrentQ : Int
  qTicks : QTicks
deriving DecidableEq, Repr

/-- The process table `proc[NPROC]`. -/
abbrev Table := List Proc

/-- A slot as the zero-initialised static table holds it after `procinit`. -/
def Proc.zero : Proc :=
  { state := procstate.UNUSED, chan := Ptr.null, killed := 0, xstate := 0, pid := 0,
    parent := Ptr.null, sz := 0, pagetable := 0, trapframe := 0, name := [],
    traceMask := 0, creationTime := 0, endTime := 0, cpuRunTime := 0,
    noOfTimesGotCpu := 0, staticPriority := 0, sleepStartTime := 0, sleepTime := 0,
    currentQ := 0, entryTimeInCurrentQ := 0, qTicks := ⟨0, 0, 0, 0, 0⟩ }

/-- The table after `procinit`: every slot UNUSED, all other fields zero. -/
def initTable (nproc : Nat) : Table := List.replicate nproc Proc.zero

/-- Conversion of a C int to `uint64` (sign extension, i.e. reduction mod 2^64). -/
def toU64 (x : Int) : Nat := (x % 18446744073709551616).toNat

/-- Conversion of a C integer value to `uint` (reduction mod 2^32). -/
def toU32 (x : Int) : Int := x % 4294967296

/-- Conversion of a `uint64` value to a C int (the low 32 bits, read as signed). -/
def toInt32 (x : Nat) : Int :=
  if x % 4294967296 < 2147483648 then ((x % 4294967296 : Nat) : Int)
  else ((x % 4294967296 : Nat) : Int) - 4294967296

/-- `freeproc(p)`: release the trap frame and page table, clear the slot's identity
and mark it UNUSED. -/
def freeproc (p : Proc) : Proc :=
  { p with
    trapframe := 0
    pagetable := 0
    sz := 0
    pid := 0
    parent := Ptr.null
    name := p.name.set 0 0
    chan := Ptr.null
    killed := 0
    xstate := 0
    state := procstate.UNUSED }

/-- `yield()` up to its hand-off to the scheduler (`sched()`): the calling process
marks its own slot RUNNABLE. -/
def yield (caller : Nat) (tbl : Table) : Table :=
  match tbl[caller]? with
  | some p => tbl.set caller { p with state := procstate.RUNNABLE }
  | none => tbl

/-- `sleep(chan, lk)` up to its hand-off to the scheduler (`sched()`): the calling
process records the channel, marks itself SLEEPING and, under PBS, notes the tick at
which the sleep starts. -/
def sleep (pol : Policy) (ticks : Int) (caller : Nat) (chan : Ptr) (tbl : Table) : Table :=
  match tbl[caller]? with
  | some p =>
      tbl.set caller
        { p with
          chan := chan
          state := procstate.SLEEPING
          sleepStartTime := if pol = Policy.PBS then ticks else p.sleepStartTime }
  | none => tbl

/-- `killed(p)`: read the killed flag of slot `p`. -/
def killed (p : Nat) (tbl : Table) : Int :=
  match tbl[p]? with
  | some q => q.killed
  | none => 0

/-- The field `p->pagetable` of the calling process (slot `p`). -/
def pagetableOf (p : Nat) (tbl : Table) : Nat :=
  match tbl[p]? with
  | some q => q.pagetable
  | none => 0

/-- The body of the loop of `kill` on the slots from the current one on: the first
slot whose pid equals the argument gets `killed = 1` and, if SLEEPING, becomes
RUNNABLE; the result is the return value and the new table. -/
def killLoop (pid : Int) (tbl : Table) : List Proc → Nat → Int × Table
  | [], _ => (-1, tbl)
  | p :: rest, i =>
      if p.pid = pid then
        (0, tbl.set i
          { p with
            killed := 1
            state := if p.state = procstate.SLEEPING then procstate.RUNNABLE else p.state })
      else killLoop pid tbl rest (i + 1)

/-- `kill(pid)`: return value and table after the call. -/
def kill (pid : Int) (tbl : Table) : Int × Table :=
  killLoop pid tbl tbl 0

/-- What a blocking system call hands back: a return value, or the fact that the
caller went to sleep (it rescans when it is next woken and dispatched). -/
inductive Ret where
  | value (v : Int)
  | asleep
deriving DecidableEq, Repr

/-- Result of one pass of `wait`/`waitx`: return value (or sleep), the table, and the
user-memory writes made so far, oldest first. -/
structure WaitResult where
  ret : Ret
  proc : Table
  out : List (Nat × Int)
deriving DecidableEq, Repr

/-- The scan of `wait` from slot `i` on (`rest` holds the slots from `i`), with the
current value of `havekids`; after the scan come the no-children / killed test and
the sleep on the caller's own slot. -/
def waitLoop (pol : Policy) (ticks : Int) (copyok : Nat → Nat → Bool) (p : Nat) (addr : Nat)
    (tbl : Table) (out : List (Nat × Int)) : List Proc → Nat → Bool → WaitResult
  | [], _, havekids =>
      if havekids = false ∨ killed p tbl ≠ 0 then
        { ret := Ret.value (-1), proc := tbl, out := out }
      else
        { ret := Ret.asleep, proc := sleep pol ticks p (Ptr.slot p) tbl, out := out }
  | pp :: rest, i, havekids =>
      if pp.parent = Ptr.slot p then
        if pp.state = procstate.ZOMBIE then
          if addr ≠ 0 ∧ copyok (pagetableOf p tbl) addr = false then
            { ret := Ret.value (-1), proc := tbl, out := out }
          else
            { ret := Ret.value pp.pid
              proc := tbl.set i (freeproc pp)
              out := if addr ≠ 0 then out ++ [(addr, pp.xstate)] else out }
        else waitLoop pol ticks copyok p addr tbl out rest (i + 1) true
      else waitLoop pol ticks copyok p addr tbl out rest (i + 1) havekids

/-- `wait(addr)` called by the process in slot `p`: one pass of its `for(;;)` loop. -/
def wait (pol : Policy) (ticks : Int) (copyok : Nat → Nat → Bool) (p : Nat) (addr : Nat)
    (tbl : Table) (out : List (Nat × Int)) : WaitResult :=
  waitLoop pol ticks copyok p addr tbl out tbl 0 false

/-- Result of one pass of `waitx`: as for `wait`, together with the values held by
the two `uint` out-parameters `*cpuRunTime` and `*waitTime`. -/
structure WaitxResult where
  ret : Ret
  proc : Table
  out : List (Nat × Int)
  cpuRunTime : Int
  waitTime : Int
deriving DecidableEq, Repr

/-- The scan of `waitx` from slot `i` on; `rt` and `wt` are the current contents of
`*cpuRunTime` and `*waitTime`. -/
def waitxLoop (pol : Policy) (ticks : Int) (copyok : Nat → Nat → Bool) (p : Nat) (addr : Nat)
    (tbl : Table) (out : List (Nat × Int)) (rt wt : Int) : List Proc → Nat → Bool → WaitxResult
  | [], _, havekids =>
      if havekids = false ∨ killed p tbl ≠ 0 then
        { ret := Ret.value (-1), proc := tbl, out := out, cpuRunTime := rt, waitTime := wt }
      else
        { ret := Ret.asleep, proc := sleep pol ticks p (Ptr.slot p) tbl, out := out,
          cpuRunTime := rt, waitTime := wt }
  | pp :: rest, i, havekids =>
      if pp.parent = Ptr.slot p then
        if pp.state = procstate.ZOMBIE then
          if addr ≠ 0 ∧ copyok (pagetableOf p tbl) addr = false then
            { ret := Ret.value (-1), proc := tbl, out := out,
              cpuRunTime := toU32 pp.cpuRunTime,
              waitTime := toU32 (pp.endTime - pp.creationTime - pp.cpuRunTime) }
          else
            { ret := Ret.value pp.pid
              proc := tbl.set i (freeproc pp)
              out := if addr ≠ 0 then out ++ [(addr, pp.xstate)] else out
              cpuRunTime := toU32 pp.cpuRunTime
              waitTime := toU32 (pp.endTime - pp.creationTime - pp.cpuRunTime) }
        else waitxLoop pol ticks copyok p addr tbl out rt wt rest (i + 1) true
      else waitxLoop pol ticks copyok p addr tbl out rt wt rest (i + 1) havekids

/-- `waitx(addr, cpuRunTime, waitTime)` called by the process in slot `p`: one pass
of its `for(;;)` loop; `rt`, `wt` are what the two out-parameters hold on entry. -/
def waitx (pol : Policy) (ticks : Int) (copyok : Nat → Nat → Bool) (p : Nat) (addr : Nat)
    (tbl : Table) (out : List (Nat × Int)) (rt wt : Int) : WaitxResult :=
  waitxLoop pol ticks copyok p addr tbl out rt wt tbl 0 false

/-- `sys_waitx` with the three user addresses already fetched (`addr` for the exit
status, `addr1` for the waiting ticks, `addr2` for the running ticks); `rt0`, `wt0`
are the uninitialised contents of the locals `cpuRuntime` and `waitTime`.  The value
is the one the caller sees in its return register. -/
def sys_waitx (pol : Policy) (ticks : Int) (copyok : Nat → Nat → Bool) (p : Nat)
    (addr addr1 addr2 : Nat) (tbl : Table) (out : List (Nat × Int)) (rt0 wt0 : Int) :
    WaitResult :=
  let r := waitx pol ticks copyok p addr tbl out rt0 wt0
  match r.ret with
  | Ret.asleep => { ret := Ret.asleep, proc := r.proc, out := r.out }
  | Ret.value retValue =>
      if copyok (pagetableOf p r.proc) addr1 = false then
        { ret := Ret.value (-1), proc := r.proc, out := r.out }
      else if copyok (pagetableOf p r.proc) addr2 = false then
        { ret := Ret.value (-1), proc := r.proc, out := r.out ++ [(addr1, r.waitTime)] }
      else
        { ret := Ret.value retValue, proc := r.proc,
          out := r.out ++ [(addr1, r.waitTime)] ++ [(addr2, r.cpuRunTime)] }

/-- The niceness computation written out in `scheduler`, `procdump` and
`set_priority`: `niceness = 5; if (cpuRunTime + sleepTime != 0) niceness =
(int)((sleepTime / (cpuRunTime + sleepTime)) * 10);` with C integer division. -/
def niceness (p : Proc) : Int :=
  if p.cpuRunTime + p.sleepTime ≠ 0 then
    Int.tdiv p.sleepTime (p.cpuRunTime + p.sleepTime) * 10
  else 5

/-- The two conditional expressions that follow the niceness computation:
`value = (sp - niceness + 5 < 100 ? sp - niceness + 5 : 100); dp = (0 < value ? value : 0)`. -/
def dpOf (sp nice : Int) : Int :=
  let value := if sp - nice + 5 < 100 then sp - nice + 5 else 100
  if 0 < value then value else 0

/-- The dynamic priority the PBS scheduler computes for a slot. -/
def dynamicPriority (p : Proc) : Int := dpOf p.staticPriority (niceness p)

/-- Result of `set_priority`: return value, table, and whether `yield()` was called. -/
structure SetPriorityResult where
  ret : Int
  proc : Table
  yielded : Bool
deriving DecidableEq, Repr

/-- The body of the `if (p->pid == pid)` of `set_priority`, for the matching slot
`p` at index `i`: store the new static priority, compute the old dynamic priority
from the counters, reset the counters, compute the new dynamic priority from the
argument alone, and call `yield()` when the old value is greater. -/
def setPriorityAt (caller : Nat) (priority : Nat) (tbl : Table) (i : Nat) (p : Proc) :
    SetPriorityResult :=
  let old_sp := p.staticPriority
  let dp_old := dpOf old_sp (niceness p)
  let tbl1 := tbl.set i
    { p with staticPriority := toInt32 priority, cpuRunTime := 0, sleepTime := 0 }
  let value : Int := if priority < 100 then (priority : Int) else 100
  let dp_new : Int := if 0 < value then value else 0
  if dp_old > dp_new then
    { ret := old_sp, proc := yield caller tbl1, yielded := true }
  else
    { ret := old_sp, proc := tbl1, yielded := false }

/-- The loop of `set_priority` as compiled under PBS, from slot `i` on; `priority`
and `pid` are the `uint64` arguments, `caller` the slot of the calling process.  The
comparison `p->pid == pid` converts the int `p->pid` to `uint64`. -/
def setPriorityLoop (caller : Nat) (priority pid : Nat) (tbl : Table) :
    List Proc → Nat → SetPriorityResult
  | [], _ => { ret := -1, proc := tbl, yielded := false }
  | p :: rest, i =>
      if toU64 p.pid = pid then setPriorityAt caller priority tbl i p
      else setPriorityLoop caller priority pid tbl rest (i + 1)

/-- `set_priority(priority, pid)`: under PBS the loop above; under every other policy
the loop body is empty and the function returns the initial `old_sp = -1`. -/
def set_priority (pol : Policy) (caller : Nat) (priority pid : Nat) (tbl : Table) :
    SetPriorityResult :=
  if pol = Policy.PBS then setPriorityLoop caller priority pid tbl tbl 0
  else { ret := -1, proc := tbl, yielded := false }

/-- `sys_set_priority`: the two int arguments are converted to `uint64`. -/
def sys_set_priority (pol : Policy) (caller : Nat) (priority pid : Int) (tbl : Table) :
    SetPriorityResult :=
  set_priority pol caller (toU64 priority) (toU64 pid) tbl

/-- The FCFS selection loop from slot `i` on; `sel` is `selectedProcess` (index and
contents of the slot it points to). -/
def fcfsLoop : List Proc → Nat → Option (Nat × Proc) → Option (Nat × Proc)
  | [], _, sel => sel
  | p :: rest, i, sel =>
      if p.state = procstate.RUNNABLE then
        match sel with
        | none => fcfsLoop rest (i + 1) (some (i, p))
        | some (j, s) =>
            if s.creationTime > p.creationTime then fcfsLoop rest (i + 1) (some (i, p))
            else fcfsLoop rest (i + 1) (some (j, s))
      else fcfsLoop rest (i + 1) sel

/-- The slot the FCFS scheduler selects (`selectedProcess`), as a table index. -/
def fcfsSelect (tbl : Table) : Option Nat :=
  (fcfsLoop tbl 0 none).map Prod.fst

/-- The PBS selection loop from slot `i` on; `ch` is `choosenProcess`, `mdp` is
`min_dynamic_priority`. -/
def pbsLoop : List Proc → Nat → Option (Nat × Proc) → Int → Option (Nat × Proc)
  | [], _, ch, _ => ch
  | p :: rest, i, ch, mdp =>
      if p.state = procstate.RUNNABLE then
        let dp := dynamicPriority p
        match ch with
        | none => pbsLoop rest (i + 1) (some (i, p)) dp
        | some (j, c) =>
            if dp < mdp then pbsLoop rest (i + 1) (some (i, p)) dp
            else if dp = mdp then
              if c.noOfTimesGotCpu > p.noOfTimesGotCpu then
                pbsLoop rest (i + 1) (some (i, p)) mdp
              else if c.noOfTimesGotCpu = p.noOfTimesGotCpu then
                if c.creationTime > p.creationTime then
                  pbsLoop rest (i + 1) (some (i, p)) mdp
                else pbsLoop rest (i + 1) (some (j, c)) mdp
              else pbsLoop rest (i + 1) (some (j, c)) mdp
            else pbsLoop rest (i + 1) (some (j, c)) mdp
      else pbsLoop rest (i + 1) ch mdp

/-- The slot the PBS scheduler selects (`choosenProcess`), as a table index. -/
def pbsSelect (tbl : Table) : Option Nat :=
  (pbsLoop tbl 0 none 101).map Prod.fst

/-- The MLFQ selection loop from slot `i` on; `ch` is `choosenProcess`, `hq` is
`highest_queue`. -/
def mlfqLoop : List Proc → Nat → Option (Nat × Proc) → Int → Option (Nat × Proc)
  | [], _, ch, _ => ch
  | p :: rest, i, ch, hq =>
      if p.state = procstate.RUNNABLE then
        match ch with
        | none => mlfqLoop rest (i + 1) (some (i, p)) p.currentQ
        | some (j, c) =>
            if p.currentQ < hq then mlfqLoop rest (i + 1) (some (i, p)) p.currentQ
            else if p.currentQ = hq ∧ p.entryTimeInCurrentQ < c.entryTimeInCurrentQ then
              mlfqLoop rest (i + 1) (some (i, p)) hq
            else mlfqLoop rest (i + 1) (some (j, c)) hq
      else mlfqLoop rest (i + 1) ch hq

/-- The slot the MLFQ scheduler selects (`choosenProcess`), as a table index. -/
def mlfqSelect (tbl : Table) : Option Nat :=
  (mlfqLoop tbl 0 none 5).map Prod.fst

/-! ## The scan shared by the selection loops, and the orders they use -/

/-- The scan skeleton the three selection loops share: among the RUNNABLE slots keep
the current choice unless the slot under inspection beats it. -/
def firstBest (better : Proc → Proc → Prop) [DecidableRel better] :
    List Proc → Nat → Option (Nat × Proc) → Option (Nat × Proc)
  | [], _, acc => acc
  | p :: rest, i, acc =>
      if p.state = procstate.RUNNABLE then
        match acc with
        | none => firstBest better rest (i + 1) (some (i, p))
        | some (j, c) =>
            if better p c then firstBest better rest (i + 1) (some (i, p))
            else firstBest better rest (i + 1) (some (j, c))
      else firstBest better rest (i + 1) acc

/-- What the scan has established about the slots inspected so far. -/
def ScanInv (better : Proc → Proc → Prop) (pre : List Proc) : Option (Nat × Proc) → Prop
  | none => ∀ q ∈ pre, q.state ≠ procstate.RUNNABLE
  | some (k, c) =>
      pre[k]? = some c ∧ c.state = procstate.RUNNABLE ∧
      (∀ (j : Nat) (q : Proc), pre[j]? = some q → q.state = procstate.RUNNABLE → ¬ better q c) ∧
      (∀ (j : Nat) (q : Proc), j < k → pre[j]? = some q → q.state = procstate.RUNNABLE →
        better c q)

/-- FCFS: the slot under inspection replaces the selection when the selection was
created later. -/
def fcfsBetter (p c : Proc) : Prop := c.creationTime > p.creationTime

instance fcfsBetterDecidable : DecidableRel fcfsBetter :=
  fun p c => inferInstanceAs (Decidable (c.creationTime > p.creationTime))

/-- PBS: the slot under inspection replaces the choice when its dynamic priority is
lower, or equal with fewer dispatches, or equal in both with earlier creation. -/
def pbsBetter (p c : Proc) : Prop :=
  dynamicPriority p < dynamicPriority c ∨
    (dynamicPriority p = dynamicPriority c ∧
      (c.noOfTimesGotCpu > p.noOfTimesGotCpu ∨
        (c.noOfTimesGotCpu = p.noOfTimesGotCpu ∧ c.creationTime > p.creationTime)))

instance pbsBetterDecidable : DecidableRel pbsBetter :=
  fun p c => inferInstanceAs (Decidable
    (dynamicPriority p < dynamicPriority c ∨
      (dynamicPriority p = dynamicPriority c ∧
        (c.noOfTimesGotCpu > p.noOfTimesGotCpu ∨
          (c.noOfTimesGotCpu = p.noOfTimesGotCpu ∧ c.creationTime > p.creationTime)))))

/-- MLFQ: the slot under inspection replaces the choice when it is in a
lower-numbered queue, or in the same queue with an earlier entry time. -/
def mlfqBetter (p c : Proc) : Prop :=
  p.currentQ < c.currentQ ∨
    (p.currentQ = c.currentQ ∧ p.entryTimeInCurrentQ < c.entryTimeInCurrentQ)

instance mlfqBetterDecidable : DecidableRel mlfqBetter :=
  fun p c => inferInstanceAs (Decidable
    (p.currentQ < c.currentQ ∨
      (p.currentQ = c.currentQ ∧ p.entryTimeInCurrentQ < c.entryTimeInCurrentQ)))

/-- The triple PBS orders slots by: (DP, noOfTimesGotCpu, creationTime). -/
def pbsKey (p : Proc) : Int × Int × Int :=
  (dynamicPriority p, p.noOfTimesGotCpu, p.creationTime)

/-- Lexicographic less-or-equal on triples of integers. -/
def lexLe3 (a b : Int × Int × Int) : Prop :=
  a.1 < b.1 ∨ (a.1 = b.1 ∧ (a.2.1 < b.2.1 ∨ (a.2.1 = b.2.1 ∧ a.2.2 ≤ b.2.2)))

/-- The niceness of section 4.4 of the specification, with the ratio taken as an
exact fraction: 5 when `cpuRunTime + sleepTime` is 0, otherwise
`floor(sleepTime / (cpuRunTime + sleepTime) * 10)`. -/
def nicenessSpec (p : Proc) : Int :=
  if p.cpuRunTime + p.sleepTime = 0 then 5
  else Int.floor (((p.sleepTime : ℚ) / ((p.cpuRunTime : ℚ) + (p.sleepTime : ℚ))) * 10)

/-! ## wakeup, reparent, exit -/

/-- The body of the loop of `wakeup` for the slot at index `i`: a slot other than the
caller's that is SLEEPING on `chan` becomes RUNNABLE and, under PBS, records
`sleepTime = ticks - sleepStartTime`. -/
def wakeSlot (pol : Policy) (ticks : Int) (me : Ptr) (chan : Ptr) (i : Nat) (p : Proc) : Proc :=
  if Ptr.slot i ≠ me then
    if p.state = procstate.SLEEPING ∧ p.chan = chan then
      { p with
        state := procstate.RUNNABLE
        sleepTime := if pol = Policy.PBS then ticks - p.sleepStartTime else p.sleepTime }
    else p
  else p

/-- The loop of `wakeup` from slot `i` on. -/
def wakeupLoop (pol : Policy) (ticks : Int) (me : Ptr) (chan : Ptr) : List Proc → Nat → List Proc
  | [], _ => []
  | p :: rest, i => wakeSlot pol ticks me chan i p :: wakeupLoop pol ticks me chan rest (i + 1)

/-- `wakeup(chan)`; `me` is `myproc()`, the slot of the caller, or null when the call
is made outside any process. -/
def wakeup (pol : Policy) (ticks : Int) (me : Ptr) (chan : Ptr) (tbl : Table) : Table :=
  wakeupLoop pol ticks me chan tbl 0

/-- What `wakeup(chan)` does to one slot: nothing, or SLEEPING on `chan` becomes
RUNNABLE with the PBS sleep time recorded. -/
def WokenOrSame (pol : Policy) (ticks : Int) (chan : Ptr) (q q1 : Proc) : Prop :=
  (q1.state = q.state ∧ q1.sleepTime = q.sleepTime) ∨
    (q.state = procstate.SLEEPING ∧ q.chan = chan ∧ q1.state = procstate.RUNNABLE ∧
      q1.sleepTime = if pol = Policy.PBS then ticks - q.sleepStartTime else q.sleepTime)

/-- The loop of `reparent(p)` with `n` slots left, at slot `i`: a slot whose parent is
`p` gets `initproc` as parent, and `wakeup(initproc)` is called. -/
def reparentLoop (pol : Policy) (ticks : Int) (me : Ptr) (initproc : Ptr) (p : Ptr) :
    Nat → Nat → Table → Table
  | 0, _, tbl => tbl
  | n + 1, i, tbl =>
      match tbl[i]? with
      | some pp =>
          if pp.parent = p then
            reparentLoop pol ticks me initproc p n (i + 1)
              (wakeup pol ticks me initproc (tbl.set i { pp with parent := initproc }))
          else reparentLoop pol ticks me initproc p n (i + 1) tbl
      | none => tbl

/-- `reparent(p)`; `me` is `myproc()` as read by the `wakeup` calls. -/
def reparent (pol : Policy) (ticks : Int) (me : Ptr) (initproc : Ptr) (p : Ptr) (tbl : Table) :
    Table :=
  reparentLoop pol ticks me initproc p tbl.length 0 tbl

/-- The last writes of `exit(status)` before `sched()`: `xstate`, ZOMBIE, `endTime`. -/
def exitMark (ticks : Int) (caller : Nat) (status : Int) (tbl : Table) : Table :=
  match tbl[caller]? with
  | some p =>
      tbl.set caller { p with xstate := status, state := procstate.ZOMBIE, endTime := ticks }
  | none => tbl

/-- The field `p->parent` of the calling process. -/
def parentOf (caller : Nat) (tbl : Table) : Ptr :=
  match tbl[caller]? with
  | some p => p.parent
  | none => Ptr.null

/-- `exit(status)` by the process in slot `caller`, up to its hand-off to the
scheduler: `none` is the panic "init exiting"; otherwise the children are handed to
init, the parent is woken, and the slot becomes a ZOMBIE carrying the status.  (The
open files and the working directory are outside this model.) -/
def exit (pol : Policy) (ticks : Int) (initproc : Ptr) (caller : Nat) (status : Int)
    (tbl : Table) : Option Table :=
  if Ptr.slot caller = initproc then none
  else
    let t1 := reparent pol ticks (Ptr.slot caller) initproc (Ptr.slot caller) tbl
    let t2 := wakeup pol ticks (Ptr.slot caller) (parentOf caller t1) t1
    some (exitMark ticks caller status t2)

/-! ## allocproc, userinit, fork -/

/-- Modelled from the spec: `DEFAULT_STATIC_PRIORITY` is a macro of a header that is
not among the sources; section 4.4 gives "Default staticPriority = 60". -/
def DEFAULT_STATIC_PRIORITY : Int := 60

/-- The scan of `allocproc` for the first UNUSED slot, from slot `i` on. -/
def findUnused : List Proc → Nat → Option (Nat × Proc)
  | [], _ => none
  | p :: rest, i => if p.state = procstate.UNUSED then some (i, p) else findUnused rest (i + 1)

/-- The first two writes at the label `found` of `allocproc`: the fresh pid and the
state USED. -/
def allocFound (pid : Int) (p : Proc) : Proc :=
  { p with pid := pid, state := procstate.USED }

/-- The rest of `allocproc` for a slot that is USED: `tf` is what `kalloc()` returns
for the trap frame and `pt` what `proc_pagetable` returns; 0 is failure (`none`), and
`allocproc` then calls `freeproc`, which clears both fields whatever they held.  On
success the accounting fields are initialised, those of PBS and MLFQ under their
policy only. -/
def allocAttach (pol : Policy) (ticks : Int) (tf pt : Nat) (p : Proc) : Option Proc :=
  if tf = 0 then none
  else if pt = 0 then none
  else
    some
      { p with
        trapframe := tf
        pagetable := pt
        cpuRunTime := 0
        endTime := 0
        creationTime := ticks
        traceMask := 0
        noOfTimesGotCpu := 0
        staticPriority := if pol = Policy.PBS then DEFAULT_STATIC_PRIORITY else p.staticPriority
        sleepStartTime := if pol = Policy.PBS then 0 else p.sleepStartTime
        sleepTime := if pol = Policy.PBS then 0 else p.sleepTime
        entryTimeInCurrentQ := if pol = Policy.MLFQ then ticks else p.entryTimeInCurrentQ
        currentQ := if pol = Policy.MLFQ then 0 else p.currentQ
        qTicks := if pol = Policy.MLFQ then ⟨0, 0, 0, 0, 0⟩ else p.qTicks }

/-- Result of `allocproc`: the slot returned (none for the null pointer), the table
right after the write `state = USED` (the input table when no slot is free), the
table on return, and the pid counter. -/
structure AllocResult where
  slot : Option Nat
  found : Table
  proc : Table
  nextpid : Int
deriving DecidableEq, Repr

/-- `allocproc()`, with the pid counter `nextpid` passed explicitly. -/
def allocproc (pol : Policy) (ticks : Int) (tf pt : Nat) (nextpid : Int) (tbl : Table) :
    AllocResult :=
  match findUnused tbl 0 with
  | none => { slot := none, found := tbl, proc := tbl, nextpid := nextpid }
  | some (k, p) =>
      match allocAttach pol ticks tf pt (allocFound nextpid p) with
      | some q =>
          { slot := some k, found := tbl.set k (allocFound nextpid p), proc := tbl.set k q,
            nextpid := nextpid + 1 }
      | none =>
          { slot := none, found := tbl.set k (allocFound nextpid p)
            proc := tbl.set k (freeproc (allocFound nextpid p))
            nextpid := nextpid + 1 }

/-- Result of `userinit`: the value stored in `initproc`, the table and the pid
counter. -/
structure UserinitResult where
  initproc : Ptr
  proc : Table
  nextpid : Int
deriving DecidableEq, Repr

/-- `userinit()`: `none` when `allocproc` returns the null pointer, which the
function dereferences.  The slot gets size `PGSIZE` (4096), the name "initcode" and
the state RUNNABLE. -/
def userinit (pol : Policy) (ticks : Int) (tf pt : Nat) (nextpid : Int) (tbl : Table) :
    Option UserinitResult :=
  let a := allocproc pol ticks tf pt nextpid tbl
  match a.slot with
  | none => none
  | some k =>
      match a.proc[k]? with
      | none => none
      | some p =>
          some
            { initproc := Ptr.slot k
              proc := a.proc.set k
                { p with
                  sz := 4096
                  name := [105, 110, 105, 116, 99, 111, 100, 101, 0]
                  state := procstate.RUNNABLE }
              nextpid := a.nextpid }

/-- Result of `fork`: return value, the table after `allocproc`, the table on return,
and the pid counter. -/
structure ForkResult where
  ret : Int
  allocated : Table
  proc : Table
  nextpid : Int
deriving DecidableEq, Repr

/-- `fork()` by the process in slot `caller`; `copyOk` tells whether `uvmcopy`
succeeds.  The child gets the parent's size, trace mask and name, then the parent
pointer, then the state RUNNABLE.  (Trap frame contents, open files and working
directory are outside this model.) -/
def fork (pol : Policy) (ticks : Int) (tf pt : Nat) (copyOk : Bool) (nextpid : Int)
    (caller : Nat) (tbl : Table) : ForkResult :=
  let a := allocproc pol ticks tf pt nextpid tbl
  match a.slot, tbl[caller]? with
  | some k, some p =>
      match a.proc[k]? with
      | some np =>
          if copyOk = false then
            { ret := -1, allocated := a.proc, proc := a.proc.set k (freeproc np),
              nextpid := a.nextpid }
          else
            { ret := np.pid, allocated := a.proc
              proc := a.proc.set k
                { np with
                  sz := p.sz
                  traceMask := p.traceMask
                  name := p.name
                  parent := Ptr.slot caller
                  state := procstate.RUNNABLE }
              nextpid := a.nextpid }
      | none => { ret := -1, allocated := a.proc, proc := a.proc, nextpid := a.nextpid }
  | _, _ => { ret := -1, allocated := a.proc, proc := a.proc, nextpid := a.nextpid }

/-! ## Dispatch and the tick updater -/

/-- The dispatch block of `scheduler` for the slot it has picked, up to `swtch`: if
the slot is still RUNNABLE its dispatch count is incremented, under MLFQ its queue
entry time is reset, and it becomes RUNNING. -/
def dispatch (pol : Policy) (ticks : Int) (i : Nat) (tbl : Table) : Table :=
  match tbl[i]? with
  | some p =>
      if p.state = procstate.RUNNABLE then
        tbl.set i
          { p with
            noOfTimesGotCpu := p.noOfTimesGotCpu + 1
            entryTimeInCurrentQ := if pol = Policy.MLFQ then ticks else p.entryTimeInCurrentQ
            state := procstate.RUNNING }
      else tbl
  | none => tbl

/-- `updateTime()`: one tick is added to `cpuRunTime` of every RUNNING slot. -/
def updateTime (tbl : Table) : Table :=
  tbl.map (fun p => if p.state = procstate.RUNNING then { p with cpuRunTime := p.cpuRunTime + 1 } else p)

/-! ## The dynamic priorities compared by set_priority -/

/-- The old dynamic priority `dp_old` that `set_priority` computes for the matching
slot, from its static priority and counters before the call. -/
def setPriorityDpOld (p : Proc) : Int :=
  let old_sp := p.staticPriority
  let niceness := niceness p
  let value := if old_sp - niceness + 5 < 100 then old_sp - niceness + 5 else 100
  if 0 < value then value else 0

/-- The new dynamic priority `dp_new` that `set_priority` computes from its `uint64`
argument alone: `value = (priority < 100 ? priority : 100); dp_new = (0 < value ?
value : 0)`. -/
def setPriorityDpNew (priority : Nat) : Int :=
  let value : Int := if priority < 100 then (priority : Int) else 100
  if 0 < value then value else 0

/-! ## The state machine of section 4.1 and the step relations -/

/-- `sleep(chan, lk)` after `sched()` returns: the process, running again, clears its
channel. -/
def sleepResume (caller : Nat) (tbl : Table) : Table :=
  match tbl[caller]? with
  | some p => tbl.set caller { p with chan := Ptr.null }
  | none => tbl

/-- The nine transitions of the process state machine. -/
def allowedTransition : procstate → procstate → Bool
  | procstate.UNUSED, procstate.USED => true
  | procstate.USED, procstate.UNUSED => true
  | procstate.USED, procstate.RUNNABLE => true
  | procstate.RUNNABLE, procstate.RUNNING => true
  | procstate.RUNNING, procstate.RUNNABLE => true
  | procstate.RUNNING, procstate.SLEEPING => true
  | procstate.SLEEPING, procstate.RUNNABLE => true
  | procstate.RUNNING, procstate.ZOMBIE => true
  | procstate.ZOMBIE, procstate.UNUSED => true
  | _, _ => false

/-- Between two tables every slot keeps its state or makes one of the nine
transitions. -/
def Conforms (t t1 : Table) : Prop :=
  t1.length = t.length ∧
  ∀ (i : Nat) (p q : Proc), t[i]? = some p → t1[i]? = some q →
    q.state = p.state ∨ allowedTransition p.state q.state = true

/-- The slot of the calling process is RUNNING. -/
def IsRunning (caller : Nat) (t : Table) : Prop :=
  ∃ p, t[caller]? = some p ∧ p.state = procstate.RUNNING

/-- Every SLEEPING slot has a non-null channel. -/
def ChanInv (t : Table) : Prop :=
  ∀ q ∈ t, q.state = procstate.SLEEPING → q.chan ≠ Ptr.null

/-- The channel invariant of the specification: a slot is SLEEPING if and only if
its channel is not null. -/
def ChanIff (t : Table) : Prop :=
  ∀ q ∈ t, (q.state = procstate.SLEEPING ↔ q.chan ≠ Ptr.null)

/-- One operation on the process table, with arbitrary arguments: process creation
(`userinit`, `fork`), the scheduler's dispatch, `yield`, `sleep` on a non-null
channel up to its hand-off to the scheduler and its resumption by the running
process, `wakeup`, `kill`, `exit`, and one pass of `wait` and of `waitx`. -/
inductive KernelStep (pol : Policy) : Table → Table → Prop where
  | userinit (ticks : Int) (tf pt : Nat) (nextpid : Int) (t : Table) (r : UserinitResult) :
      XV6.userinit pol ticks tf pt nextpid t = some r → KernelStep pol t r.proc
  | fork (ticks : Int) (tf pt : Nat) (copyOk : Bool) (nextpid : Int) (caller : Nat) (t : Table) :
      KernelStep pol t (XV6.fork pol ticks tf pt copyOk nextpid caller t).proc
  | dispatch (ticks : Int) (i : Nat) (t : Table) :
      KernelStep pol t (XV6.dispatch pol ticks i t)
  | yield (caller : Nat) (t : Table) : KernelStep pol t (XV6.yield caller t)
  | sleep (ticks : Int) (caller : Nat) (chan : Ptr) (t : Table) :
      chan ≠ Ptr.null → KernelStep pol t (XV6.sleep pol ticks caller chan t)
  | sleepResume (caller : Nat) (t : Table) :
      IsRunning caller t → KernelStep pol t (XV6.sleepResume caller t)
  | wakeup (ticks : Int) (me chan : Ptr) (t : Table) :
      KernelStep pol t (XV6.wakeup pol ticks me chan t)
  | kill (pid : Int) (t : Table) : KernelStep pol t (XV6.kill pid t).2
  | exit (ticks : Int) (initproc : Ptr) (caller : Nat) (status : Int) (t out : Table) :
      XV6.exit pol ticks initproc caller status t = some out → KernelStep pol t out
  | wait (ticks : Int) (copyok : Nat → Nat → Bool) (p addr : Nat) (out : List (Nat × Int))
      (t : Table) : KernelStep pol t (XV6.wait pol ticks copyok p addr t out).proc
  | waitx (ticks : Int) (copyok : Nat → Nat → Bool) (p addr : Nat) (out : List (Nat × Int))
      (rt wt : Int) (t : Table) :
      KernelStep pol t (XV6.waitx pol ticks copyok p addr t out rt wt).proc

/-- Every in-use slot has its static priority within 0..100. -/
def PrioInv (t : Table) : Prop :=
  ∀ q ∈ t, q.state ≠ procstate.UNUSED → 0 ≤ q.staticPriority ∧ q.staticPriority ≤ 100

/-- One step of the PBS kernel by `allocproc` or by the `set_priority` system call
with a priority argument satisfying `okPrio`. -/
inductive PrioStep (okPrio : Int → Prop) : Table → Table → Prop where
  | alloc (ticks : Int) (tf pt : Nat) (nextpid : Int) (t : Table) :
      PrioStep okPrio t (allocproc Policy.PBS ticks tf pt nextpid t).proc
  | setPriority (caller : Nat) (priority pid : Int) (t : Table) :
      okPrio priority →
      PrioStep okPrio t (sys_set_priority Policy.PBS caller priority pid t).proc

/-! ## sleep and wakeup on two CPUs -/

/-- The two CPUs of the interleaving model: `A` runs the process that calls `sleep`
and, once that process has entered `sched()`, the scheduler of that CPU; `B` runs the
caller of `wakeup`. -/
inductive Cpu where
  | A
  | B
deriving DecidableEq, Repr

/-- The source lines of `sleep`, of the scheduler after `swtch` has returned to it,
and of the body of the loop of `wakeup`; each is one step of the interleaving
model. -/
inductive Line where
  /-- The line `acquire(&p->lock);`. -/
  | acquireSlotLock
  /-- The line `release(lk);` of `sleep`. -/
  | releaseGuard
  /-- The line `p->chan = chan;` of `sleep`. -/
  | setChan
  /-- The line `p->state = SLEEPING;` of `sleep`. -/
  | setSleeping
  /-- The line `p->sleepStartTime = ticks;` of `sleep`, compiled under PBS only. -/
  | noteSleepStart
  /-- The line `sched();` of `sleep`: the switch to the scheduler of this CPU. -/
  | sched
  /-- The line `release(&p->lock);`. -/
  | releaseSlotLock
  /-- The statement `if(p->state == SLEEPING && p->chan == chan) ...` of `wakeup`. -/
  | wakeTest
deriving DecidableEq, Repr

/-- The parameters of one `sleep(chan, lk)` / `wakeup(chan)` pair: the build's
policy, the value of `ticks` read by `sleep` and the one read by `wakeup`, the
channel, `myproc()` of the caller of `wakeup`, and the index `a` of the sleeper's
slot. -/
structure SleepWakeup where
  pol : Policy
  sleepTicks : Int
  wakeTicks : Int
  chan : Ptr
  me : Ptr
  a : Nat
deriving DecidableEq, Repr

/-- The lines CPU A executes: `sleep(chan, lk)` from its first line to `sched()`,
then the `release(&p->lock)` of the scheduler that `sched()` switched to.  (The lines
of `sleep` after `sched()` run only when the process is dispatched again.) -/
def sleepLines : List Line :=
  [Line.acquireSlotLock, Line.releaseGuard, Line.setChan, Line.setSleeping,
   Line.noteSleepStart, Line.sched, Line.releaseSlotLock]

/-- The lines CPU B executes for the sleeper's slot: the iteration `p = &proc[a]` of
the loop of `wakeup(chan)`, empty when that slot is the caller's own.  (The other
iterations take and release the locks of other slots and write those slots only.) -/
def wakeupLines (me : Ptr) (a : Nat) : List Line :=
  if Ptr.slot a ≠ me then [Line.acquireSlotLock, Line.wakeTest, Line.releaseSlotLock] else []

/-- State of the interleaving model: the lines each CPU has still to execute, whether
the guard lock `lk` is still held by the sleeper, the holder of the sleeper's
`p->lock`, the sleeper's slot, and what the test of `wakeup` read from the slot (state
and channel) once it has been made. -/
structure TwoCpu where
  restA : List Line
  restB : List Line
  guardHeld : Bool
  slotLock : Option Cpu
  slot : Proc
  seen : Option (procstate × Ptr)
deriving DecidableEq, Repr

/-- One line executed by CPU `c`; `none` when the line cannot complete: `acquire` of
a held lock spins, `release` of a lock the CPU does not hold panics, and so does
`sched()` without `p->lock` or with the state still RUNNING. -/
def execLine (k : SleepWakeup) (c : Cpu) (l : Line) (s : TwoCpu) : Option TwoCpu :=
  match l with
  | Line.acquireSlotLock =>
      if s.slotLock = none then some { s with slotLock := some c } else none
  | Line.releaseGuard =>
      if s.guardHeld = true then some { s with guardHeld := false } else none
  | Line.setChan => some { s with slot := { s.slot with chan := k.chan } }
  | Line.setSleeping => some { s with slot := { s.slot with state := procstate.SLEEPING } }
  | Line.noteSleepStart =>
      some { s with
        slot := { s.slot with
          sleepStartTime := if k.pol = Policy.PBS then k.sleepTicks else s.slot.sleepStartTime } }
  | Line.sched =>
      if s.slotLock = some c ∧ s.slot.state ≠ procstate.RUNNING then some s else none
  | Line.releaseSlotLock =>
      if s.slotLock = some c then some { s with slotLock := none } else none
  | Line.wakeTest =>
      some { s with
        slot := wakeSlot k.pol k.wakeTicks k.me k.chan k.a s.slot
        seen := some (s.slot.state, s.slot.chan) }

/-- One turn of CPU `c`: it executes its next line, or makes no step when it has none
left or the line cannot complete.  The `wakeup` of CPU B is issued after the sleeper
has released `lk`, so B makes no step while `lk` is held. -/
def turn (k : SleepWakeup) (c : Cpu) (s : TwoCpu) : TwoCpu :=
  match c with
  | Cpu.A =>
      match s.restA with
      | [] => s
      | l :: rest =>
          match execLine k Cpu.A l s with
          | some s1 => { s1 with restA := rest }
          | none => s
  | Cpu.B =>
      if s.guardHeld = true then s
      else
        match s.restB with
        | [] => s
        | l :: rest =>
            match execLine k Cpu.B l s with
            | some s1 => { s1 with restB := rest }
            | none => s

/-- The turns of a schedule, in order. -/
def run (k : SleepWakeup) : List Cpu → TwoCpu → TwoCpu
  | [], s => s
  | c :: order, s => run k order (turn k c s)

/-- The state in which the process in slot `a`, whose slot reads `p`, is about to
execute `sleep(chan, lk)` holding `lk`, with its `p->lock` free, and `wakeup(chan)`
has not started. -/
def sleepWakeupStart (k : SleepWakeup) (p : Proc) : TwoCpu :=
  { restA := sleepLines
    restB := wakeupLines k.me k.a
    guardHeld := true
    slotLock := none
    slot := p
    seen := none }

/-- The state the serial schedule "`i` turns of CPU A, then `j` turns of CPU B" leads
to from the start. -/
def serialState (k : SleepWakeup) (p : Proc) (i j : Nat) : TwoCpu :=
  run k (List.replicate i Cpu.A ++ List.replicate j Cpu.B) (sleepWakeupStart k p)

/-! ## Example tables used to exercise the theorems -/

/-- A running process in slot 0 (pid 1) and a process with pid 2 in slot 1 whose
state and parent are given. -/
def twoProcs (st : procstate) (par : Ptr) : Table :=
  [ { Proc.zero with state := procstate.RUNNING, pid := 1, pagetable := 7 },
    { Proc.zero with state := st, pid := 2, parent := par, xstate := 42,
                     staticPriority := 60 } ]

/-- The table `twoProcs RUNNABLE` followed by one free slot (UNUSED, pid 0). -/
def withFreeSlot : Table :=
  twoProcs procstate.RUNNABLE (Ptr.slot 0) ++ [Proc.zero]

/-- Five slots for the selection loops: slot 1 is asleep, the others RUNNABLE; slots
3 and 4 agree on every field. -/
def selectionTable : Table :=
  [ { Proc.zero with state := procstate.RUNNABLE, staticPriority := 60, noOfTimesGotCpu := 3,
                     creationTime := 9, currentQ := 2, entryTimeInCurrentQ := 1 },
    { Proc.zero with state := procstate.SLEEPING, staticPriority := 10 },
    { Proc.zero with state := procstate.RUNNABLE, staticPriority := 60, noOfTimesGotCpu := 1,
                     creationTime := 9, currentQ := 1, entryTimeInCurrentQ := 8 },
    { Proc.zero with state := procstate.RUNNABLE, staticPriority := 60, noOfTimesGotCpu := 1,
                     creationTime := 4, currentQ := 1, entryTimeInCurrentQ := 5 },
    { Proc.zero with state := procstate.RUNNABLE, staticPriority := 60, noOfTimesGotCpu := 1,
                     creationTime := 4, currentQ := 1, entryTimeInCurrentQ := 5 } ]

/-- Scenario S2: init (pid 1) sleeps in `wait` in slot 0, its child A (pid 2) runs in
slot 1, and A's child G (pid 3) is RUNNABLE in slot 2. -/
def orphanTable : Table :=
  [ { Proc.zero with state := procstate.SLEEPING, pid := 1, chan := Ptr.slot 0 },
    { Proc.zero with state := procstate.RUNNING, pid := 2, parent := Ptr.slot 0 },
    { Proc.zero with state := procstate.RUNNABLE, pid := 3, parent := Ptr.slot 1 } ]

/-- A PBS timeline: the child in slot 1 (created at tick 0, parent init in slot 0)
runs for two ticks, sleeps on some channel from tick 2 to tick 6, is dispatched
again, runs four more ticks and exits at tick 10. -/
def accountingScenario : Option Table :=
  let t0 : Table :=
    [ { Proc.zero with state := procstate.RUNNING, pid := 1, staticPriority := 60 },
      { Proc.zero with state := procstate.RUNNING, pid := 2, parent := Ptr.slot 0,
                       staticPriority := 60 } ]
  let t1 := updateTime (updateTime t0)
  let t2 := sleep Policy.PBS 2 1 (Ptr.addr 99) t1
  let t3 := wakeup Policy.PBS 6 (Ptr.slot 0) (Ptr.addr 99) t2
  let t4 := dispatch Policy.PBS 6 1 t3
  let t5 := updateTime (updateTime (updateTime (updateTime t4)))
  exit Policy.PBS 10 (Ptr.slot 0) 1 0 t5

/-- The first process after boot on a two-slot table: `userinit`, dispatched at tick
1, asleep on the channel at address 99 from tick 3. -/
def asleepTable : Table :=
  match userinit Policy.DEFAULT 0 1 1 1 (initTable 2) with
  | some r => sleep Policy.DEFAULT 3 0 (Ptr.addr 99) (dispatch Policy.DEFAULT 1 0 r.proc)
  | none => []

/-- The table `asleepTable` after `wakeup` on that channel at tick 5, called outside
any process. -/
def wokenTable : Table :=
  wakeup Policy.DEFAULT 5 Ptr.null (Ptr.addr 99) asleepTable

/-- A two-slot PBS table after one `allocproc` (pid 1 in slot 0) followed by the
system call `set_priority(priority, 1)` made from slot 0. -/
def prioTable (priority : Int) : Table :=
  (sys_set_priority Policy.PBS 0 priority 1
    (allocproc Policy.PBS 0 1 1 1 (initTable 2)).proc).proc

/-- A `sleep` / `wakeup` pair under PBS: the process of slot 1 sleeps on channel 77
at tick 5, the process of slot 0 calls `wakeup` at tick 9. -/
def rendezvous : SleepWakeup :=
  { pol := Policy.PBS, sleepTicks := 5, wakeTicks := 9, chan := Ptr.addr 77,
    me := Ptr.slot 0, a := 1 }

/-- The slot of the running process about to call `sleep`. -/
def sleeperSlot : Proc :=
  { Proc.zero with state := procstate.RUNNING, pid := 2 }

/-- A schedule of the two CPUs in which CPU B is given turns before, between and
after the lines of CPU A. -/
def interleavedOrder : List Cpu :=
  [Cpu.B, Cpu.A, Cpu.B, Cpu.A, Cpu.A, Cpu.B, Cpu.A, Cpu.A, Cpu.B, Cpu.A, Cpu.A, Cpu.B,
   Cpu.B, Cpu.B]

/-! ## Generic facts about table scans -/

/-- If some element of a list satisfies `P`, there is a lowest index whose element
satisfies `P`. -/
theorem exists_first_index {α : Type} (P : α → Prop) :
    ∀ l : List α, (∃ p ∈ l, P p) →
      ∃ (k : Nat) (p : α), l[k]? = some p ∧ P p ∧
        ∀ (j : Nat) (q : α), j < k → l[j]? = some q → ¬ P q := by
  intro l
  induction l with
  | nil => rintro ⟨p, hp, _⟩; cases hp
  | cons a l ih =>
      rintro ⟨p, hp, hP⟩
      by_cases ha : P a
      · exact ⟨0, a, by simp, ha, fun j q hj => absurd hj (Nat.not_lt_zero j)⟩
      · have hl : ∃ p ∈ l, P p := by
          rcases List.mem_cons.mp hp with h | h
          · exact absurd (h ▸ hP) ha
          · exact ⟨p, h, hP⟩
        obtain ⟨k, q, hk, hq, hmin⟩ := ih hl
        refine ⟨k + 1, q, by simpa using hk, hq, ?_⟩
        intro j r hj hr
        cases j with
        | zero =>
            have : a = r := by simpa using hr
            exact this ▸ ha
        | succ j => exact hmin j r (by omega) (by simpa using hr)

/-! ## kill -/

theorem killLoop_first (pid : Int) (tbl : Table) :
    ∀ (rest : List Proc) (i k : Nat) (p : Proc), rest[k]? = some p → p.pid = pid →
      (∀ (j : Nat) (q : Proc), j < k → rest[j]? = some q → q.pid ≠ pid) →
      killLoop pid tbl rest i =
        (0, tbl.set (i + k)
          { p with
            killed := 1
            state := if p.state = procstate.SLEEPING then procstate.RUNNABLE else p.state }) := by
  intro rest
  induction rest with
  | nil => intro i k p hk; simp at hk
  | cons a rest ih =>
      intro i k p hk hp hmin
      cases k with
      | zero =>
          have ha : a = p := by simpa using hk
          subst ha
          simp [killLoop, hp]
      | succ k =>
          have ha : a.pid ≠ pid := hmin 0 a (by omega) (by simp)
          have hk1 : rest[k]? = some p := by simpa using hk
          have := ih (i + 1) k p hk1 hp
            (fun j q hj hq => hmin (j + 1) q (by omega) (by simpa using hq))
          simp only [killLoop, ha, if_false]
          rw [this]
          congr 2
          omega

theorem killLoop_none (pid : Int) (tbl : Table) :
    ∀ (rest : List Proc) (i : Nat), (∀ p ∈ rest, p.pid ≠ pid) →
      killLoop pid tbl rest i = (-1, tbl) := by
  intro rest
  induction rest with
  | nil => intro i _; rfl
  | cons a rest ih =>
      intro i h
      have ha : a.pid ≠ pid := h a (List.mem_cons_self _ _)
      simp only [killLoop, ha, if_false]
      exact ih (i + 1) (fun p hp => h p (List.mem_cons_of_mem _ hp))

/-- C3: when some slot carries the pid, `kill(pid)` returns 0 and the table after the
call is the table before it with one slot replaced, the lowest-index slot whose pid
equals the argument; in that slot `killed` is 1, the state is RUNNABLE if it was
SLEEPING and is kept otherwise, and every other field is as before. -/
theorem kill_found (pid : Int) (tbl : Table) (h : ∃ p ∈ tbl, p.pid = pid) :
    ∃ (k : Nat) (p : Proc), tbl[k]? = some p ∧ p.pid = pid ∧
      (∀ (j : Nat) (q : Proc), j < k → tbl[j]? = some q → q.pid ≠ pid) ∧
      kill pid tbl =
        (0, tbl.set k
          { p with
            killed := 1
            state := if p.state = procstate.SLEEPING then procstate.RUNNABLE else p.state }) ∧
      (∀ j : Nat, j ≠ k → (kill pid tbl).2[j]? = tbl[j]?) := by
  obtain ⟨k, p, hk, hp, hmin⟩ := exists_first_index (fun q : Proc => q.pid = pid) tbl h
  have hkill := killLoop_first pid tbl tbl 0 k p hk hp hmin
  rw [Nat.zero_add] at hkill
  refine ⟨k, p, hk, hp, hmin, hkill, ?_⟩
  intro j hj
  show (kill pid tbl).2[j]? = tbl[j]?
  rw [show kill pid tbl = _ from hkill]
  simp [List.getElem?_set, Ne.symm hj]

/-- C3 at a concrete table: slot 1 is asleep with pid 2 and `kill(2)` is called. -/
theorem kill_found_witness :
    (∃ p ∈ twoProcs procstate.SLEEPING Ptr.null, p.pid = 2) ∧
    ∃ (k : Nat) (p : Proc), (twoProcs procstate.SLEEPING Ptr.null)[k]? = some p ∧ p.pid = 2 ∧
      (∀ (j : Nat) (q : Proc), j < k → (twoProcs procstate.SLEEPING Ptr.null)[j]? = some q → q.pid ≠ 2) ∧
      kill 2 (twoProcs procstate.SLEEPING Ptr.null) =
        (0, (twoProcs procstate.SLEEPING Ptr.null).set k
          { p with
            killed := 1
            state := if p.state = procstate.SLEEPING then procstate.RUNNABLE else p.state }) ∧
      (∀ j : Nat, j ≠ k →
        (kill 2 (twoProcs procstate.SLEEPING Ptr.null)).2[j]? =
          (twoProcs procstate.SLEEPING Ptr.null)[j]?) :=
  have h : ∃ p ∈ twoProcs procstate.SLEEPING Ptr.null, p.pid = 2 :=
    ⟨_, List.mem_cons_of_mem _ (List.mem_cons_self _ _), rfl⟩
  ⟨h, kill_found 2 (twoProcs procstate.SLEEPING Ptr.null) h⟩

/-! ## wait -/

theorem waitLoop_first (pol : Policy) (ticks : Int) (copyok : Nat → Nat → Bool) (p addr : Nat)
    (tbl : Table) (out : List (Nat × Int)) :
    ∀ (rest : List Proc) (i k : Nat) (c : Proc) (hk : Bool), rest[k]? = some c →
      c.parent = Ptr.slot p → c.state = procstate.ZOMBIE →
      (∀ (j : Nat) (q : Proc), j < k → rest[j]? = some q →
        ¬ (q.parent = Ptr.slot p ∧ q.state = procstate.ZOMBIE)) →
      waitLoop pol ticks copyok p addr tbl out rest i hk =
        if addr ≠ 0 ∧ copyok (pagetableOf p tbl) addr = false then
          { ret := Ret.value (-1), proc := tbl, out := out }
        else
          { ret := Ret.value c.pid
            proc := tbl.set (i + k) (freeproc c)
            out := if addr ≠ 0 then out ++ [(addr, c.xstate)] else out } := by
  intro rest
  induction rest with
  | nil => intro i k c hk h; simp at h
  | cons a rest ih =>
      intro i k c hk h hpar hst hmin
      cases k with
      | zero =>
          have ha : a = c := by simpa using h
          subst ha
          simp only [waitLoop, hpar, hst, if_true, Nat.add_zero]
      | succ k =>
          have ha : ¬ (a.parent = Ptr.slot p ∧ a.state = procstate.ZOMBIE) :=
            hmin 0 a (by omega) (by simp)
          have hk1 : rest[k]? = some c := by simpa using h
          have hrec := fun b => ih (i + 1) k c b hk1 hpar hst
            (fun j q hj hq => hmin (j + 1) q (by omega) (by simpa using hq))
          have hidx : i + 1 + k = i + (k + 1) := by omega
          by_cases h1 : a.parent = Ptr.slot p
          · have h2 : a.state ≠ procstate.ZOMBIE := fun h2 => ha ⟨h1, h2⟩
            simp only [waitLoop, h1, h2, if_true, if_false]
            rw [hrec true, hidx]
          · simp only [waitLoop, h1, if_false]
            rw [hrec hk, hidx]

theorem waitLoop_nokids (pol : Policy) (ticks : Int) (copyok : Nat → Nat → Bool) (p addr : Nat)
    (tbl : Table) (out : List (Nat × Int)) :
    ∀ (rest : List Proc) (i : Nat), (∀ c ∈ rest, c.parent ≠ Ptr.slot p) →
      waitLoop pol ticks copyok p addr tbl out rest i false =
        { ret := Ret.value (-1), proc := tbl, out := out } := by
  intro rest
  induction rest with
  | nil => intro i _; simp [waitLoop]
  | cons a rest ih =>
      intro i h
      have ha : a.parent ≠ Ptr.slot p := h a (List.mem_cons_self _ _)
      simp only [waitLoop, ha, if_false]
      exact ih (i + 1) (fun c hc => h c (List.mem_cons_of_mem _ hc))

/-- C1: one pass of `wait(addr)` by the process in slot `p`.  If some slot is a
ZOMBIE child of `p` and the copy-out succeeds (or `addr` is 0), wait returns the pid
of the lowest-index such slot, appends that slot's `xstate` at `addr` to the user
memory writes (nothing when `addr` is 0), and replaces that slot by its `freeproc`
image, which is UNUSED with pid 0 and null parent; every other slot is unchanged and
no scan for children of `p` matches the reaped slot any more.  If no slot has `p` as
parent, wait returns -1 and the table and user memory are unchanged. -/
theorem wait_reaps_first_zombie (pol : Policy) (ticks : Int) (copyok : Nat → Nat → Bool)
    (p addr : Nat) (tbl : Table) (out : List (Nat × Int)) :
    ((∃ c ∈ tbl, c.parent = Ptr.slot p ∧ c.state = procstate.ZOMBIE) →
      (addr = 0 ∨ copyok (pagetableOf p tbl) addr = true) →
      ∃ (k : Nat) (c : Proc), tbl[k]? = some c ∧
        c.parent = Ptr.slot p ∧ c.state = procstate.ZOMBIE ∧
        (∀ (j : Nat) (q : Proc), j < k → tbl[j]? = some q →
          ¬ (q.parent = Ptr.slot p ∧ q.state = procstate.ZOMBIE)) ∧
        wait pol ticks copyok p addr tbl out =
          { ret := Ret.value c.pid
            proc := tbl.set k (freeproc c)
            out := if addr ≠ 0 then out ++ [(addr, c.xstate)] else out } ∧
        (wait pol ticks copyok p addr tbl out).proc[k]? = some (freeproc c) ∧
        (freeproc c).state = procstate.UNUSED ∧ (freeproc c).pid = 0 ∧
        (freeproc c).parent = Ptr.null ∧
        (∀ j : Nat, j ≠ k → (wait pol ticks copyok p addr tbl out).proc[j]? = tbl[j]?) ∧
        (∀ (j : Nat) (q : Proc), (wait pol ticks copyok p addr tbl out).proc[j]? = some q →
          q.parent = Ptr.slot p → j ≠ k)) ∧
    ((∀ c ∈ tbl, c.parent ≠ Ptr.slot p) →
      wait pol ticks copyok p addr tbl out =
        { ret := Ret.value (-1), proc := tbl, out := out }) := by
  constructor
  · intro hz hcopy
    obtain ⟨k, c, hk, ⟨hpar, hst⟩, hmin⟩ :=
      exists_first_index
        (fun q : Proc => q.parent = Ptr.slot p ∧ q.state = procstate.ZOMBIE) tbl hz
    have hw := waitLoop_first pol ticks copyok p addr tbl out tbl 0 k c false hk hpar hst hmin
    have hno : ¬ (addr ≠ 0 ∧ copyok (pagetableOf p tbl) addr = false) := by
      rintro ⟨h0, hf⟩
      rcases hcopy with h | h
      · exact h0 h
      · rw [h] at hf; cases hf
    rw [if_neg hno, Nat.zero_add] at hw
    have hlen : k < tbl.length := by
      rcases Nat.lt_or_ge k tbl.length with h | h
      · exact h
      · rw [List.getElem?_eq_none (by omega)] at hk; cases hk
    have hwait : wait pol ticks copyok p addr tbl out = _ := hw
    have hkk : (wait pol ticks copyok p addr tbl out).proc[k]? = some (freeproc c) := by
      rw [hwait]; simp [List.getElem?_set, hlen]
    refine ⟨k, c, hk, hpar, hst, hmin, hwait, hkk, rfl, rfl, rfl, ?_, ?_⟩
    · intro j hj
      rw [hwait]
      simp [List.getElem?_set, Ne.symm hj]
    · intro j q hq hqpar hjk
      subst hjk
      rw [hkk] at hq
      have : freeproc c = q := by simpa using hq
      subst this
      simp [freeproc] at hqpar
  · intro hno
    exact waitLoop_nokids pol ticks copyok p addr tbl out tbl 0 hno

/-- C1 on scenario S1, a two-slot table: the child in slot 1 (pid 2) has exited with
status 42; `wait(&s)` by its parent in slot 0 returns 2 and writes 42, and a second
`wait` on the resulting table returns -1. -/
theorem wait_reaps_first_zombie_witness :
    wait Policy.DEFAULT 0 (fun _ _ => true) 0 100
        (twoProcs procstate.ZOMBIE (Ptr.slot 0)) [] =
      { ret := Ret.value 2
        proc := (twoProcs procstate.ZOMBIE (Ptr.slot 0)).set 1
          (freeproc { Proc.zero with state := procstate.ZOMBIE, pid := 2,
                                     parent := Ptr.slot 0, xstate := 42,
                                     staticPriority := 60 })
        out := [(100, 42)] } ∧
    wait Policy.DEFAULT 0 (fun _ _ => true) 0 100
        (wait Policy.DEFAULT 0 (fun _ _ => true) 0 100
          (twoProcs procstate.ZOMBIE (Ptr.slot 0)) []).proc [(100, 42)] =
      { ret := Ret.value (-1)
        proc := (wait Policy.DEFAULT 0 (fun _ _ => true) 0 100
          (twoProcs procstate.ZOMBIE (Ptr.slot 0)) []).proc
        out := [(100, 42)] } := by
  have h2 := (wait_reaps_first_zombie Policy.DEFAULT 0 (fun _ _ => true) 0 100
    (wait Policy.DEFAULT 0 (fun _ _ => true) 0 100
      (twoProcs procstate.ZOMBIE (Ptr.slot 0)) []).proc [(100, 42)]).2
  constructor
  · decide
  · apply h2
    decide

/-! ## Copy-out failure in wait, waitx and sys_waitx -/

theorem waitxLoop_first (pol : Policy) (ticks : Int) (copyok : Nat → Nat → Bool) (p addr : Nat)
    (tbl : Table) (out : List (Nat × Int)) (rt wt : Int) :
    ∀ (rest : List Proc) (i k : Nat) (c : Proc) (hk : Bool), rest[k]? = some c →
      c.parent = Ptr.slot p → c.state = procstate.ZOMBIE →
      (∀ (j : Nat) (q : Proc), j < k → rest[j]? = some q →
        ¬ (q.parent = Ptr.slot p ∧ q.state = procstate.ZOMBIE)) →
      waitxLoop pol ticks copyok p addr tbl out rt wt rest i hk =
        if addr ≠ 0 ∧ copyok (pagetableOf p tbl) addr = false then
          { ret := Ret.value (-1), proc := tbl, out := out,
            cpuRunTime := toU32 c.cpuRunTime,
            waitTime := toU32 (c.endTime - c.creationTime - c.cpuRunTime) }
        else
          { ret := Ret.value c.pid
            proc := tbl.set (i + k) (freeproc c)
            out := if addr ≠ 0 then out ++ [(addr, c.xstate)] else out
            cpuRunTime := toU32 c.cpuRunTime
            waitTime := toU32 (c.endTime - c.creationTime - c.cpuRunTime) } := by
  intro rest
  induction rest with
  | nil => intro i k c hk h; simp at h
  | cons a rest ih =>
      intro i k c hk h hpar hst hmin
      cases k with
      | zero =>
          have ha : a = c := by simpa using h
          subst ha
          simp only [waitxLoop, hpar, hst, if_true, Nat.add_zero]
      | succ k =>
          have ha : ¬ (a.parent = Ptr.slot p ∧ a.state = procstate.ZOMBIE) :=
            hmin 0 a (by omega) (by simp)
          have hk1 : rest[k]? = some c := by simpa using h
          have hrec := fun b => ih (i + 1) k c b hk1 hpar hst
            (fun j q hj hq => hmin (j + 1) q (by omega) (by simpa using hq))
          have hidx : i + 1 + k = i + (k + 1) := by omega
          by_cases h1 : a.parent = Ptr.slot p
          · have h2 : a.state ≠ procstate.ZOMBIE := fun h2 => ha ⟨h1, h2⟩
            simp only [waitxLoop, h1, h2, if_true, if_false]
            rw [hrec true, hidx]
          · simp only [waitxLoop, h1, if_false]
            rw [hrec hk, hidx]

/-- When the caller has a ZOMBIE child and the copy-out of the exit status fails,
`wait` and `waitx` return -1 and leave the whole table (the child included) and the
user memory as they were. -/
theorem wait_status_copyout_failure (pol : Policy) (ticks : Int) (copyok : Nat → Nat → Bool)
    (p addr : Nat) (tbl : Table) (out : List (Nat × Int)) (rt wt : Int)
    (hz : ∃ c ∈ tbl, c.parent = Ptr.slot p ∧ c.state = procstate.ZOMBIE)
    (haddr : addr ≠ 0) (hfail : copyok (pagetableOf p tbl) addr = false) :
    wait pol ticks copyok p addr tbl out = { ret := Ret.value (-1), proc := tbl, out := out } ∧
    (waitx pol ticks copyok p addr tbl out rt wt).ret = Ret.value (-1) ∧
    (waitx pol ticks copyok p addr tbl out rt wt).proc = tbl ∧
    (waitx pol ticks copyok p addr tbl out rt wt).out = out := by
  obtain ⟨k, c, hk, ⟨hpar, hst⟩, hmin⟩ :=
    exists_first_index
      (fun q : Proc => q.parent = Ptr.slot p ∧ q.state = procstate.ZOMBIE) tbl hz
  have hw := waitLoop_first pol ticks copyok p addr tbl out tbl 0 k c false hk hpar hst hmin
  have hx := waitxLoop_first pol ticks copyok p addr tbl out rt wt tbl 0 k c false hk hpar hst hmin
  rw [if_pos ⟨haddr, hfail⟩] at hw hx
  have hx1 : waitx pol ticks copyok p addr tbl out rt wt = _ := hx
  exact ⟨hw, by rw [hx1], by rw [hx1], by rw [hx1]⟩

/-- C2 (evaluation at the failing input): the caller in slot 0 has a ZOMBIE child in
slot 1 (pid 2, status 42); the status address 100 and the run-ticks address 300 are
valid, the wait-ticks address 200 is not.  `sys_waitx` returns -1, yet the child has
been reaped (its slot is UNUSED with pid 0, null parent and status 0) and a retry
with three valid addresses returns -1 as well. -/
theorem sys_waitx_copyout_failure_reaps :
    (sys_waitx Policy.DEFAULT 0 (fun _ a => a != 200) 0 100 200 300
        (twoProcs procstate.ZOMBIE (Ptr.slot 0)) [] 0 0).ret = Ret.value (-1) ∧
    ((sys_waitx Policy.DEFAULT 0 (fun _ a => a != 200) 0 100 200 300
        (twoProcs procstate.ZOMBIE (Ptr.slot 0)) [] 0 0).proc[1]?).map
      (fun c => (c.state, c.pid, c.parent, c.xstate)) =
        some (procstate.UNUSED, 0, Ptr.null, 0) ∧
    (sys_waitx Policy.DEFAULT 0 (fun _ _ => true) 0 100 200 300
        (sys_waitx Policy.DEFAULT 0 (fun _ a => a != 200) 0 100 200 300
          (twoProcs procstate.ZOMBIE (Ptr.slot 0)) [] 0 0).proc [] 0 0).ret =
      Ret.value (-1) := by
  decide

/-! ## Unknown pid in kill and set_priority -/

theorem setPriorityLoop_none (caller priority pid : Nat) (tbl : Table) :
    ∀ (rest : List Proc) (i : Nat), (∀ q ∈ rest, toU64 q.pid ≠ pid) →
      setPriorityLoop caller priority pid tbl rest i =
        { ret := -1, proc := tbl, yielded := false } := by
  intro rest
  induction rest with
  | nil => intro i _; rfl
  | cons a rest ih =>
      intro i h
      have ha : toU64 a.pid ≠ pid := h a (List.mem_cons_self _ _)
      simp only [setPriorityLoop, ha, if_false]
      exact ih (i + 1) (fun q hq => h q (List.mem_cons_of_mem _ hq))

theorem setPriorityLoop_first (caller priority pid : Nat) (tbl : Table) :
    ∀ (rest : List Proc) (i k : Nat) (p : Proc), rest[k]? = some p → toU64 p.pid = pid →
      (∀ (j : Nat) (q : Proc), j < k → rest[j]? = some q → toU64 q.pid ≠ pid) →
      setPriorityLoop caller priority pid tbl rest i =
        setPriorityAt caller priority tbl (i + k) p := by
  intro rest
  induction rest with
  | nil => intro i k p hk; simp at hk
  | cons a rest ih =>
      intro i k p hk hp hmin
      cases k with
      | zero =>
          have ha : a = p := by simpa using hk
          subst ha
          simp [setPriorityLoop, hp]
      | succ k =>
          have ha : toU64 a.pid ≠ pid := hmin 0 a (by omega) (by simp)
          have hk1 : rest[k]? = some p := by simpa using hk
          have := ih (i + 1) k p hk1 hp
            (fun j q hj hq => hmin (j + 1) q (by omega) (by simpa using hq))
          simp only [setPriorityLoop, ha, if_false]
          rw [this]
          congr 1
          omega

/-- The conversion of int to `uint64` is injective on the range of a C int. -/
theorem toU64_injective_on_int (a b : Int)
    (ha : -2147483648 ≤ a ∧ a < 2147483648) (hb : -2147483648 ≤ b ∧ b < 2147483648)
    (h : toU64 a = toU64 b) : a = b := by
  unfold toU64 at h
  omega

/-- C4 (evaluation at the failing input): on `withFreeSlot`, whose in-use slots carry
pids 1 and 2, pid 0 is the pid of no in-use slot and pid 5 the pid of no slot.  For
pid 5, `kill` and, under PBS, `set_priority` return -1 and change nothing.  For pid 0,
`kill(0)` returns 0 and sets `killed` in the free slot 2, and `set_priority(10, 0)`
returns 0, that slot's `staticPriority`, and stores 10 there; the process that the
next `fork` puts in slot 2 is RUNNABLE with pid 3 and starts with `killed = 1`. -/
theorem unknown_pid_zero_hits_free_slot :
    (∀ p ∈ withFreeSlot, p.state ≠ procstate.UNUSED → p.pid ≠ 0 ∧ p.pid ≠ 5) ∧
    kill 5 withFreeSlot = (-1, withFreeSlot) ∧
    set_priority Policy.PBS 0 10 5 withFreeSlot =
      { ret := -1, proc := withFreeSlot, yielded := false } ∧
    (kill 0 withFreeSlot).1 = 0 ∧
    (kill 0 withFreeSlot).2 ≠ withFreeSlot ∧
    ((kill 0 withFreeSlot).2[2]?).map (fun c => (c.state, c.pid, c.killed)) =
      some (procstate.UNUSED, 0, 1) ∧
    (fork Policy.PBS 0 1 1 true 3 0 (kill 0 withFreeSlot).2).ret = 3 ∧
    ((fork Policy.PBS 0 1 1 true 3 0 (kill 0 withFreeSlot).2).proc[2]?).map
      (fun c => (c.state, c.pid, c.killed)) = some (procstate.RUNNABLE, 3, 1) ∧
    (set_priority Policy.PBS 0 10 0 withFreeSlot).ret = 0 ∧
    (set_priority Policy.PBS 0 10 0 withFreeSlot).proc ≠ withFreeSlot ∧
    ((set_priority Policy.PBS 0 10 0 withFreeSlot).proc[2]?).map
      (fun c => (c.state, c.pid, c.staticPriority)) = some (procstate.UNUSED, 0, 10) ∧
    (withFreeSlot[2]?).map (fun c => (c.state, c.pid, c.killed, c.staticPriority)) =
      some (procstate.UNUSED, 0, 0, 0) := by
  decide

/-- The path of `kill` and `set_priority` for a pid no slot matches: when no slot of
the table, free or in use, carries the pid, `kill(pid)` returns -1 and leaves the table unchanged, and under PBS
`set_priority`, called through `sys_set_priority` with that pid (pids are C ints) or
directly with a `uint64` value that no slot's pid converts to, returns -1, does not
yield and leaves the table unchanged. -/
theorem unknown_pid_rejected (tbl : Table) (pid priority : Int) (caller : Nat)
    (hpid : -2147483648 ≤ pid ∧ pid < 2147483648)
    (hslots : ∀ p ∈ tbl, -2147483648 ≤ p.pid ∧ p.pid < 2147483648)
    (h : ∀ p ∈ tbl, p.pid ≠ pid) :
    kill pid tbl = (-1, tbl) ∧
    sys_set_priority Policy.PBS caller priority pid tbl =
      { ret := -1, proc := tbl, yielded := false } ∧
    (∀ priority64 pid64 : Nat, (∀ q ∈ tbl, toU64 q.pid ≠ pid64) →
      set_priority Policy.PBS caller priority64 pid64 tbl =
        { ret := -1, proc := tbl, yielded := false }) := by
  refine ⟨killLoop_none pid tbl tbl 0 h, ?_, ?_⟩
  · have h64 : ∀ q ∈ tbl, toU64 q.pid ≠ toU64 pid := fun q hq heq =>
      h q hq (toU64_injective_on_int q.pid pid (hslots q hq) hpid heq)
    simp only [sys_set_priority, set_priority, if_true]
    exact setPriorityLoop_none caller (toU64 priority) (toU64 pid) tbl tbl 0 h64
  · intro priority64 pid64 h64
    simp only [set_priority, if_true]
    exact setPriorityLoop_none caller priority64 pid64 tbl tbl 0 h64

/-- The unmatched path at a concrete table: pid 5 on a table whose slots carry pids
1, 2 and 0. -/
theorem unknown_pid_rejected_witness :
    kill 5 withFreeSlot = (-1, withFreeSlot) ∧
    sys_set_priority Policy.PBS 0 10 5 withFreeSlot =
      { ret := -1, proc := withFreeSlot, yielded := false } :=
  ⟨(unknown_pid_rejected withFreeSlot 5 10 0 (by decide) (by decide) (by decide)).1,
   (unknown_pid_rejected withFreeSlot 5 10 0 (by decide) (by decide) (by decide)).2.1⟩

/-! ## set_priority -/

theorem yield_getElem? (c : Nat) (t : Table) (j : Nat) :
    (yield c t)[j]? =
      if j = c then (t[j]?).map (fun q => { q with state := procstate.RUNNABLE }) else t[j]? := by
  unfold yield
  by_cases hj : j = c
  · subst hj
    cases h : t[j]? with
    | none => simp [h]
    | some q =>
        have hlt : j < t.length := by
          rcases Nat.lt_or_ge j t.length with h1 | h1
          · exact h1
          · rw [List.getElem?_eq_none (by omega)] at h; cases h
        simp [List.getElem?_set, hlt]
  · cases h : t[c]? with
    | none => simp [hj]
    | some q => simp [List.getElem?_set, hj, Ne.symm hj]

theorem setPriorityAt_cases (caller priority : Nat) (tbl : Table) (i : Nat) (p : Proc) :
    setPriorityAt caller priority tbl i p =
        { ret := p.staticPriority
          proc := yield caller (tbl.set i
            { p with staticPriority := toInt32 priority, cpuRunTime := 0, sleepTime := 0 })
          yielded := true } ∨
    setPriorityAt caller priority tbl i p =
        { ret := p.staticPriority
          proc := tbl.set i
            { p with staticPriority := toInt32 priority, cpuRunTime := 0, sleepTime := 0 }
          yielded := false } := by
  by_cases h : dpOf p.staticPriority (niceness p) >
      (if 0 < (if priority < 100 then (priority : Int) else 100) then
        (if priority < 100 then (priority : Int) else 100) else 0)
  · left; simp only [setPriorityAt, h, if_true]
  · right; simp only [setPriorityAt, h, if_false]

/-- C5 (as the code has it): slot 1 carries pid 2 and static priority 60 and the
caller runs in slot 0 (pid 1).  Under PBS `set_priority(10, 2)` returns 60, and
because the old dynamic priority 60 exceeds the new one 10 it calls `yield()`, which
turns the caller's slot, a slot other than the target, from RUNNING to RUNNABLE. -/
theorem set_priority_yield_counterexample :
    ((twoProcs procstate.RUNNABLE (Ptr.slot 0))[0]?).map (fun c => (c.pid, c.state)) =
      some (1, procstate.RUNNING) ∧
    (set_priority Policy.PBS 0 10 2 (twoProcs procstate.RUNNABLE (Ptr.slot 0))).ret = 60 ∧
    (set_priority Policy.PBS 0 10 2 (twoProcs procstate.RUNNABLE (Ptr.slot 0))).yielded = true ∧
    ((set_priority Policy.PBS 0 10 2 (twoProcs procstate.RUNNABLE (Ptr.slot 0))).proc[0]?).map
      (fun c => (c.pid, c.state)) = some (1, procstate.RUNNABLE) ∧
    (set_priority Policy.PBS 0 10 2 (twoProcs procstate.RUNNABLE (Ptr.slot 0))).proc[0]? ≠
      (twoProcs procstate.RUNNABLE (Ptr.slot 0))[0]? := by
  decide

/-- C5 (amended): under PBS, for the lowest-index slot `k` whose pid equals the
argument, `set_priority` returns the static priority that slot had before the call;
afterwards the slot holds the new value (the argument read as a C int, which is the
argument itself below 2^31) in `staticPriority` and 0 in `cpuRunTime` and
`sleepTime`, its other fields being as before; every slot other than the target and
the caller is unchanged, and the caller's slot is changed only when `yield()` is
called, which sets its state to RUNNABLE.  Under any other policy the function
returns -1, does not yield and changes nothing. -/
theorem set_priority_effect (pol : Policy) (caller priority pid : Nat) (tbl : Table) :
    (pol = Policy.PBS → ∀ (k : Nat) (p : Proc), tbl[k]? = some p → toU64 p.pid = pid →
      (∀ (j : Nat) (q : Proc), j < k → tbl[j]? = some q → toU64 q.pid ≠ pid) →
      (set_priority pol caller priority pid tbl).ret = p.staticPriority ∧
      (set_priority pol caller priority pid tbl).proc[k]? =
        some { p with
          staticPriority := toInt32 priority
          cpuRunTime := 0
          sleepTime := 0
          state :=
            if (set_priority pol caller priority pid tbl).yielded = true ∧ caller = k then
              procstate.RUNNABLE
            else p.state } ∧
      (priority < 2147483648 → toInt32 priority = (priority : Int)) ∧
      (∀ j : Nat, j ≠ k → j ≠ caller →
        (set_priority pol caller priority pid tbl).proc[j]? = tbl[j]?) ∧
      ((set_priority pol caller priority pid tbl).yielded = false →
        ∀ j : Nat, j ≠ k → (set_priority pol caller priority pid tbl).proc[j]? = tbl[j]?) ∧
      ((set_priority pol caller priority pid tbl).yielded = true → caller ≠ k →
        (set_priority pol caller priority pid tbl).proc[caller]? =
          (tbl[caller]?).map (fun q => { q with state := procstate.RUNNABLE }))) ∧
    (pol ≠ Policy.PBS →
      set_priority pol caller priority pid tbl =
        { ret := -1, proc := tbl, yielded := false }) := by
  constructor
  · intro hpol k p hk hp hmin
    have hlt : k < tbl.length := by
      rcases Nat.lt_or_ge k tbl.length with h1 | h1
      · exact h1
      · rw [List.getElem?_eq_none (by omega)] at hk; cases hk
    have hloop := setPriorityLoop_first caller priority pid tbl tbl 0 k p hk hp hmin
    rw [Nat.zero_add] at hloop
    have hsp : set_priority pol caller priority pid tbl =
        setPriorityAt caller priority tbl k p := by
      simp only [set_priority, hpol, if_true]
      exact hloop
    have h31 : priority < 2147483648 → toInt32 priority = (priority : Int) := by
      intro hp31
      unfold toInt32
      have : priority % 4294967296 = priority := Nat.mod_eq_of_lt (by omega)
      rw [this, if_pos hp31]
    rcases setPriorityAt_cases caller priority tbl k p with hc | hc
    · rw [hsp, hc]
      refine ⟨rfl, ?_, h31, ?_, ?_, ?_⟩
      · by_cases hck : caller = k
        · subst hck
          simp [yield_getElem?, List.getElem?_set, hlt]
        · simp [yield_getElem?, List.getElem?_set, hlt, hck, Ne.symm hck]
      · intro j hjk hjc
        simp [yield_getElem?, List.getElem?_set, hjc, Ne.symm hjk]
      · intro hy; cases hy
      · intro _ hck
        simp [yield_getElem?, List.getElem?_set, Ne.symm hck]
    · rw [hsp, hc]
      refine ⟨rfl, ?_, h31, ?_, ?_, ?_⟩
      · simp [List.getElem?_set, hlt]
      · intro j hjk _
        simp [List.getElem?_set, Ne.symm hjk]
      · intro _ j hjk
        simp [List.getElem?_set, Ne.symm hjk]
      · intro hy; cases hy
  · intro hpol
    simp [set_priority, hpol]

/-- C5 (amended) at two concrete inputs: under PBS on a table whose slot 1
carries pid 2, and under FCFS. -/
theorem set_priority_effect_witness :
    (set_priority Policy.PBS 0 70 2 (twoProcs procstate.RUNNABLE (Ptr.slot 0))).ret = 60 ∧
    set_priority Policy.FCFS 0 70 2 (twoProcs procstate.RUNNABLE (Ptr.slot 0)) =
      { ret := -1, proc := twoProcs procstate.RUNNABLE (Ptr.slot 0), yielded := false } :=
  ⟨((set_priority_effect Policy.PBS 0 70 2 (twoProcs procstate.RUNNABLE (Ptr.slot 0))).1 rfl 1
      { Proc.zero with state := procstate.RUNNABLE, pid := 2, parent := Ptr.slot 0,
                       xstate := 42, staticPriority := 60 }
      (by decide) (by decide)
      (by
        intro j q hj hq
        obtain rfl : j = 0 := by omega
        have hq0 : (twoProcs procstate.RUNNABLE (Ptr.slot 0))[0]? = some q := hq
        simp only [twoProcs, List.getElem?_cons_zero, Option.some.injEq] at hq0
        subst hq0
        decide)).1,
   (set_priority_effect Policy.FCFS 0 70 2 (twoProcs procstate.RUNNABLE (Ptr.slot 0))).2
      (by decide)⟩

/-! ## Scheduler selection loops -/

theorem getElem?_snoc_cases {α : Type} (pre : List α) (p q : α) (j : Nat)
    (h : (pre ++ [p])[j]? = some q) : pre[j]? = some q ∨ (j = pre.length ∧ q = p) := by
  rcases Nat.lt_trichotomy j pre.length with hlt | heq | hgt
  · left; rw [List.getElem?_append_left hlt] at h; exact h
  · right; subst heq; simp at h; exact ⟨rfl, h.symm⟩
  · rw [List.getElem?_eq_none (by simp; omega)] at h; cases h

theorem getElem?_lt_length {α : Type} (l : List α) (j : Nat) (q : α) (h : l[j]? = some q) :
    j < l.length := by
  rcases Nat.lt_or_ge j l.length with h1 | h1
  · exact h1
  · rw [List.getElem?_eq_none (by omega)] at h; cases h

theorem firstBest_inv (better : Proc → Proc → Prop) [DecidableRel better]
    (hirr : ∀ a, ¬ better a a)
    (htr : ∀ a b c, better a b → better b c → better a c)
    (hneg : ∀ a b c, better a b → ¬ better c b → better a c) :
    ∀ (rest pre : List Proc) (acc : Option (Nat × Proc)), ScanInv better pre acc →
      ScanInv better (pre ++ rest) (firstBest better rest pre.length acc) := by
  intro rest
  induction rest with
  | nil => intro pre acc h; simpa [firstBest] using h
  | cons p rest ih =>
      intro pre acc h
      have hlen : (pre ++ [p]).length = pre.length + 1 := by simp
      have happ : pre ++ p :: rest = (pre ++ [p]) ++ rest := by simp
      rw [happ]
      by_cases hrun : p.state = procstate.RUNNABLE
      · cases acc with
        | none =>
            simp only [firstBest, hrun, if_true]
            rw [← hlen]
            apply ih
            refine ⟨by simp, hrun, ?_, ?_⟩
            · intro j q hq hqr
              rcases getElem?_snoc_cases pre p q j hq with h1 | ⟨_, h1⟩
              · exact absurd hqr (h q (List.getElem?_mem h1))
              · rw [h1]; exact hirr p
            · intro j q hj hq hqr
              have h1 : pre[j]? = some q := by
                rw [List.getElem?_append_left hj] at hq; exact hq
              exact absurd hqr (h q (List.getElem?_mem h1))
        | some jc =>
            obtain ⟨k, c⟩ := jc
            obtain ⟨hk, hcr, hmin, hfirst⟩ := h
            have hklt : k < pre.length := getElem?_lt_length pre k c hk
            by_cases hb : better p c
            · simp only [firstBest, hrun, hb, if_true]
              rw [← hlen]
              apply ih
              refine ⟨by simp, hrun, ?_, ?_⟩
              · intro j q hq hqr
                rcases getElem?_snoc_cases pre p q j hq with h1 | ⟨_, h1⟩
                · exact fun hqp => hmin j q h1 hqr (htr q p c hqp hb)
                · rw [h1]; exact hirr p
              · intro j q hj hq hqr
                have h1 : pre[j]? = some q := by
                  rw [List.getElem?_append_left hj] at hq; exact hq
                exact hneg p c q hb (hmin j q h1 hqr)
            · simp only [firstBest, hrun, hb, if_true, if_false]
              rw [← hlen]
              apply ih
              refine ⟨by rw [List.getElem?_append_left hklt]; exact hk, hcr, ?_, ?_⟩
              · intro j q hq hqr
                rcases getElem?_snoc_cases pre p q j hq with h1 | ⟨_, h1⟩
                · exact hmin j q h1 hqr
                · rw [h1]; exact hb
              · intro j q hj hq hqr
                have h1 : pre[j]? = some q := by
                  rw [List.getElem?_append_left (by omega)] at hq; exact hq
                exact hfirst j q hj h1 hqr
      · simp only [firstBest, hrun, if_false]
        rw [← hlen]
        apply ih
        cases acc with
        | none =>
            intro q hq
            rcases List.mem_append.mp hq with h1 | h1
            · exact h q h1
            · have : q = p := by simpa using h1
              rw [this]; exact hrun
        | some jc =>
            obtain ⟨k, c⟩ := jc
            obtain ⟨hk, hcr, hmin, hfirst⟩ := h
            have hklt : k < pre.length := getElem?_lt_length pre k c hk
            refine ⟨by rw [List.getElem?_append_left hklt]; exact hk, hcr, ?_, ?_⟩
            · intro j q hq hqr
              rcases getElem?_snoc_cases pre p q j hq with h1 | ⟨_, h1⟩
              · exact hmin j q h1 hqr
              · rw [h1] at hqr; exact absurd hqr hrun
            · intro j q hj hq hqr
              have h1 : pre[j]? = some q := by
                rw [List.getElem?_append_left (by omega)] at hq; exact hq
              exact hfirst j q hj h1 hqr
theorem firstBest_spec (better : Proc → Proc → Prop) [DecidableRel better]
    (hirr : ∀ a, ¬ better a a)
    (htr : ∀ a b c, better a b → better b c → better a c)
    (hneg : ∀ a b c, better a b → ¬ better c b → better a c) (tbl : Table) :
    ((∃ k, (firstBest better tbl 0 none).map Prod.fst = some k) ↔
      ∃ q ∈ tbl, q.state = procstate.RUNNABLE) ∧
    (∀ k, (firstBest better tbl 0 none).map Prod.fst = some k →
      ∃ c, tbl[k]? = some c ∧ c.state = procstate.RUNNABLE ∧
        (∀ (j : Nat) (q : Proc), tbl[j]? = some q → q.state = procstate.RUNNABLE →
          ¬ better q c) ∧
        (∀ (j : Nat) (q : Proc), j < k → tbl[j]? = some q → q.state = procstate.RUNNABLE →
          better c q)) := by
  have h := firstBest_inv better hirr htr hneg tbl [] none (by intro q hq; cases hq)
  simp only [List.nil_append, List.length_nil] at h
  cases hr : firstBest better tbl 0 none with
  | none =>
      rw [hr] at h
      refine ⟨⟨?_, ?_⟩, ?_⟩
      · rintro ⟨k, hk⟩; simp at hk
      · rintro ⟨q, hq, hqr⟩; exact absurd hqr (h q hq)
      · intro k hk; simp at hk
  | some kc =>
      obtain ⟨k, c⟩ := kc
      rw [hr] at h
      obtain ⟨hk, hcr, hmin, hfirst⟩ := h
      refine ⟨⟨fun _ => ⟨c, List.getElem?_mem hk, hcr⟩, fun _ => ⟨k, rfl⟩⟩, ?_⟩
      intro k1 hk1
      have : k = k1 := by simpa using hk1
      subst this
      exact ⟨c, hk, hcr, hmin, hfirst⟩

theorem fcfsLoop_eq : ∀ (rest : List Proc) (i : Nat) (sel : Option (Nat × Proc)),
    fcfsLoop rest i sel = firstBest fcfsBetter rest i sel := by
  intro rest
  induction rest with
  | nil => intro i sel; rfl
  | cons p rest ih =>
      intro i sel
      by_cases hrun : p.state = procstate.RUNNABLE
      · cases sel with
        | none => simp only [fcfsLoop, firstBest, hrun, if_true]; exact ih _ _
        | some jc =>
            obtain ⟨j, c⟩ := jc
            by_cases hb : c.creationTime > p.creationTime
            · have hb1 : fcfsBetter p c := hb
              simp only [fcfsLoop, firstBest, hrun, hb, hb1, if_true]; exact ih _ _
            · have hb1 : ¬ fcfsBetter p c := hb
              simp only [fcfsLoop, firstBest, hrun, hb, hb1, if_true, if_false]; exact ih _ _
      · simp only [fcfsLoop, firstBest, hrun, if_false]; exact ih _ _

theorem pbsLoop_eq : ∀ (rest : List Proc) (i : Nat) (ch : Option (Nat × Proc)) (mdp : Int),
    (∀ (j : Nat) (c : Proc), ch = some (j, c) → mdp = dynamicPriority c) →
    pbsLoop rest i ch mdp = firstBest pbsBetter rest i ch := by
  intro rest
  induction rest with
  | nil => intro i ch mdp _; rfl
  | cons p rest ih =>
      intro i ch mdp hm
      by_cases hrun : p.state = procstate.RUNNABLE
      · cases ch with
        | none =>
            simp only [pbsLoop, firstBest, hrun, if_true]
            exact ih _ _ _ (by intro j c h; cases h; rfl)
        | some jc =>
            obtain ⟨j, c⟩ := jc
            have hmdp : mdp = dynamicPriority c := hm j c rfl
            subst hmdp
            have hnew : ∀ (j1 : Nat) (c1 : Proc), some (i, p) = some (j1, c1) →
                dynamicPriority p = dynamicPriority c1 := by
              intro j1 c1 h; cases h; rfl
            have hkeep : ∀ (j1 : Nat) (c1 : Proc), some (j, c) = some (j1, c1) →
                dynamicPriority c = dynamicPriority c1 := by
              intro j1 c1 h; cases h; rfl
            by_cases hb : pbsBetter p c
            · simp only [firstBest, hrun, hb, if_true]
              unfold pbsBetter at hb
              simp only [pbsLoop, hrun, if_true]
              by_cases h1 : dynamicPriority p < dynamicPriority c
              · simp only [h1, if_true]; exact ih _ _ _ hnew
              · have h2 : dynamicPriority p = dynamicPriority c := by
                  rcases hb with hb | hb
                  · exact absurd hb h1
                  · exact hb.1
                simp only [h1, h2, if_true, if_false, lt_self_iff_false]
                have hnew2 : ∀ (j1 : Nat) (c1 : Proc), some (i, p) = some (j1, c1) →
                    dynamicPriority c = dynamicPriority c1 := by
                  intro j1 c1 h; cases h; exact h2.symm
                by_cases h3 : c.noOfTimesGotCpu > p.noOfTimesGotCpu
                · simp only [h3, if_true]; exact ih _ _ _ hnew2
                · have h4 : c.noOfTimesGotCpu = p.noOfTimesGotCpu ∧
                      c.creationTime > p.creationTime := by
                    rcases hb with hb | ⟨_, hb | hb⟩
                    · exact absurd hb h1
                    · exact absurd hb h3
                    · exact hb
                  simp only [h3, h4.1, h4.2, if_true, if_false, gt_iff_lt, lt_self_iff_false]
                  exact ih _ _ _ hnew2
            · simp only [firstBest, hrun, hb, if_true, if_false]
              unfold pbsBetter at hb
              simp only [pbsLoop, hrun, if_true]
              have h1 : ¬ dynamicPriority p < dynamicPriority c := fun h => hb (Or.inl h)
              simp only [h1, if_false]
              by_cases h2 : dynamicPriority p = dynamicPriority c
              · have h3 : ¬ c.noOfTimesGotCpu > p.noOfTimesGotCpu :=
                  fun h => hb (Or.inr ⟨h2, Or.inl h⟩)
                simp only [h2, h3, if_true, if_false]
                by_cases h4 : c.noOfTimesGotCpu = p.noOfTimesGotCpu
                · have h5 : ¬ c.creationTime > p.creationTime :=
                    fun h => hb (Or.inr ⟨h2, Or.inr ⟨h4, h⟩⟩)
                  simp only [h4, h5, if_true, if_false]; exact ih _ _ _ hkeep
                · simp only [h4, if_false]; exact ih _ _ _ hkeep
              · simp only [h2, if_false]; exact ih _ _ _ hkeep
      · simp only [pbsLoop, firstBest, hrun, if_false]; exact ih _ _ _ hm

theorem mlfqLoop_eq : ∀ (rest : List Proc) (i : Nat) (ch : Option (Nat × Proc)) (hq : Int),
    (∀ (j : Nat) (c : Proc), ch = some (j, c) → hq = c.currentQ) →
    mlfqLoop rest i ch hq = firstBest mlfqBetter rest i ch := by
  intro rest
  induction rest with
  | nil => intro i ch hq _; rfl
  | cons p rest ih =>
      intro i ch hq hm
      by_cases hrun : p.state = procstate.RUNNABLE
      · cases ch with
        | none =>
            simp only [mlfqLoop, firstBest, hrun, if_true]
            exact ih _ _ _ (by intro j c h; cases h; rfl)
        | some jc =>
            obtain ⟨j, c⟩ := jc
            have hhq : hq = c.currentQ := hm j c rfl
            subst hhq
            have hnew : ∀ (j1 : Nat) (c1 : Proc), some (i, p) = some (j1, c1) →
                p.currentQ = c1.currentQ := by
              intro j1 c1 h; cases h; rfl
            have hkeep : ∀ (j1 : Nat) (c1 : Proc), some (j, c) = some (j1, c1) →
                c.currentQ = c1.currentQ := by
              intro j1 c1 h; cases h; rfl
            by_cases hb : mlfqBetter p c
            · simp only [firstBest, hrun, hb, if_true]
              unfold mlfqBetter at hb
              simp only [mlfqLoop, hrun, if_true]
              by_cases h1 : p.currentQ < c.currentQ
              · simp only [h1, if_true]; exact ih _ _ _ hnew
              · have h2 : p.currentQ = c.currentQ ∧
                    p.entryTimeInCurrentQ < c.entryTimeInCurrentQ := by
                  rcases hb with hb | hb
                  · exact absurd hb h1
                  · exact hb
                have hnew2 : ∀ (j1 : Nat) (c1 : Proc), some (i, p) = some (j1, c1) →
                    c.currentQ = c1.currentQ := by
                  intro j1 c1 h; cases h; exact h2.1.symm
                simp only [h1, h2, if_true, if_false, and_self, lt_self_iff_false]
                exact ih _ _ _ hnew2
            · simp only [firstBest, hrun, hb, if_true, if_false]
              unfold mlfqBetter at hb
              simp only [mlfqLoop, hrun, if_true]
              have h1 : ¬ p.currentQ < c.currentQ := fun h => hb (Or.inl h)
              have h2 : ¬ (p.currentQ = c.currentQ ∧
                  p.entryTimeInCurrentQ < c.entryTimeInCurrentQ) := fun h => hb (Or.inr h)
              simp only [h1, h2, if_false]; exact ih _ _ _ hkeep
      · simp only [mlfqLoop, firstBest, hrun, if_false]; exact ih _ _ _ hm
/-- C8: the FCFS selection loop chooses a slot iff at least one slot is RUNNABLE; the
chosen slot is RUNNABLE, no RUNNABLE slot has a smaller `creationTime`, and every
RUNNABLE slot at a lower index has a different (hence larger) `creationTime`, so
among the RUNNABLE slots with the minimum `creationTime` the lowest index is chosen. -/
theorem fcfs_select_min_creationTime (tbl : Table) :
    ((∃ k, fcfsSelect tbl = some k) ↔ ∃ q ∈ tbl, q.state = procstate.RUNNABLE) ∧
    (∀ k, fcfsSelect tbl = some k →
      ∃ c, tbl[k]? = some c ∧ c.state = procstate.RUNNABLE ∧
        (∀ (j : Nat) (q : Proc), tbl[j]? = some q → q.state = procstate.RUNNABLE →
          c.creationTime ≤ q.creationTime) ∧
        (∀ (j : Nat) (q : Proc), j < k → tbl[j]? = some q → q.state = procstate.RUNNABLE →
          q.creationTime ≠ c.creationTime)) := by
  have hs := firstBest_spec fcfsBetter
    (by intro a; unfold fcfsBetter; omega)
    (by intro a b c; unfold fcfsBetter; omega)
    (by intro a b c; unfold fcfsBetter; omega) tbl
  have heq : fcfsSelect tbl = (firstBest fcfsBetter tbl 0 none).map Prod.fst := by
    unfold fcfsSelect; rw [fcfsLoop_eq]
  rw [heq]
  refine ⟨hs.1, ?_⟩
  intro k hk
  obtain ⟨c, hc, hcr, hmin, hfirst⟩ := hs.2 k hk
  refine ⟨c, hc, hcr, ?_, ?_⟩
  · intro j q hq hqr
    have := hmin j q hq hqr
    unfold fcfsBetter at this; omega
  · intro j q hj hq hqr
    have := hfirst j q hj hq hqr
    unfold fcfsBetter at this; omega

/-- C6: the PBS selection loop chooses a slot iff at least one slot is RUNNABLE; the
chosen slot is RUNNABLE, its triple (DP, noOfTimesGotCpu, creationTime) is
lexicographically less than or equal to that of every RUNNABLE slot, and no RUNNABLE
slot at a lower index has the same triple; DP is staticPriority - niceness + 5
clamped to 0..100. -/
theorem pbs_select_lex_min (tbl : Table) :
    ((∃ k, pbsSelect tbl = some k) ↔ ∃ q ∈ tbl, q.state = procstate.RUNNABLE) ∧
    (∀ k, pbsSelect tbl = some k →
      ∃ c, tbl[k]? = some c ∧ c.state = procstate.RUNNABLE ∧
        (∀ (j : Nat) (q : Proc), tbl[j]? = some q → q.state = procstate.RUNNABLE →
          lexLe3 (pbsKey c) (pbsKey q)) ∧
        (∀ (j : Nat) (q : Proc), j < k → tbl[j]? = some q → q.state = procstate.RUNNABLE →
          pbsKey q ≠ pbsKey c)) ∧
    (∀ p : Proc, dynamicPriority p = max 0 (min 100 (p.staticPriority - niceness p + 5))) := by
  have hs := firstBest_spec pbsBetter
    (by intro a; unfold pbsBetter; omega)
    (by intro a b c; unfold pbsBetter; omega)
    (by intro a b c; unfold pbsBetter; omega) tbl
  have heq : pbsSelect tbl = (firstBest pbsBetter tbl 0 none).map Prod.fst := by
    unfold pbsSelect
    rw [pbsLoop_eq tbl 0 none 101 (by intro j c h; cases h)]
  rw [heq]
  refine ⟨hs.1, ?_, ?_⟩
  · intro k hk
    obtain ⟨c, hc, hcr, hmin, hfirst⟩ := hs.2 k hk
    refine ⟨c, hc, hcr, ?_, ?_⟩
    · intro j q hq hqr
      have := hmin j q hq hqr
      unfold pbsBetter at this
      unfold lexLe3 pbsKey
      simp only
      omega
    · intro j q hj hq hqr
      have := hfirst j q hj hq hqr
      unfold pbsBetter at this
      intro hkey
      unfold pbsKey at hkey
      simp only [Prod.mk.injEq] at hkey
      omega
  · intro p
    unfold dynamicPriority dpOf
    simp only
    split <;> split <;> omega

/-- C9: the MLFQ selection loop chooses a slot iff at least one slot is RUNNABLE; the
chosen slot is RUNNABLE, no RUNNABLE slot has a smaller `currentQ`, no RUNNABLE slot
of the same queue has a smaller `entryTimeInCurrentQ`, and every RUNNABLE slot of the
same queue at a lower index has a different (hence larger) entry time. -/
theorem mlfq_select_lowest_queue_fifo (tbl : Table) :
    ((∃ k, mlfqSelect tbl = some k) ↔ ∃ q ∈ tbl, q.state = procstate.RUNNABLE) ∧
    (∀ k, mlfqSelect tbl = some k →
      ∃ c, tbl[k]? = some c ∧ c.state = procstate.RUNNABLE ∧
        (∀ (j : Nat) (q : Proc), tbl[j]? = some q → q.state = procstate.RUNNABLE →
          c.currentQ ≤ q.currentQ) ∧
        (∀ (j : Nat) (q : Proc), tbl[j]? = some q → q.state = procstate.RUNNABLE →
          q.currentQ = c.currentQ → c.entryTimeInCurrentQ ≤ q.entryTimeInCurrentQ) ∧
        (∀ (j : Nat) (q : Proc), j < k → tbl[j]? = some q → q.state = procstate.RUNNABLE →
          q.currentQ = c.currentQ → q.entryTimeInCurrentQ ≠ c.entryTimeInCurrentQ)) := by
  have hs := firstBest_spec mlfqBetter
    (by intro a; unfold mlfqBetter; omega)
    (by intro a b c; unfold mlfqBetter; omega)
    (by intro a b c; unfold mlfqBetter; omega) tbl
  have heq : mlfqSelect tbl = (firstBest mlfqBetter tbl 0 none).map Prod.fst := by
    unfold mlfqSelect
    rw [mlfqLoop_eq tbl 0 none 5 (by intro j c h; cases h)]
  rw [heq]
  refine ⟨hs.1, ?_⟩
  intro k hk
  obtain ⟨c, hc, hcr, hmin, hfirst⟩ := hs.2 k hk
  refine ⟨c, hc, hcr, ?_, ?_, ?_⟩
  · intro j q hq hqr
    have := hmin j q hq hqr
    unfold mlfqBetter at this; omega
  · intro j q hq hqr hqq
    have := hmin j q hq hqr
    unfold mlfqBetter at this; omega
  · intro j q hj hq hqr hqq
    have := hfirst j q hj hq hqr
    unfold mlfqBetter at this; omega

/-- C8 on `selectionTable`: slot 3 is chosen
(creation time 4, shared with slot 4). -/
theorem fcfs_select_min_creationTime_witness :
    fcfsSelect selectionTable = some 3 ∧
    ∃ c, selectionTable[3]? = some c ∧ c.state = procstate.RUNNABLE ∧
      (∀ (j : Nat) (q : Proc), selectionTable[j]? = some q → q.state = procstate.RUNNABLE →
        c.creationTime ≤ q.creationTime) ∧
      (∀ (j : Nat) (q : Proc), j < 3 → selectionTable[j]? = some q →
        q.state = procstate.RUNNABLE → q.creationTime ≠ c.creationTime) :=
  ⟨by decide, (fcfs_select_min_creationTime selectionTable).2 3 (by decide)⟩

/-- C6 on `selectionTable`: all RUNNABLE slots have DP
60; slots 2, 3, 4 have one dispatch, slots 3 and 4 the earlier creation time; slot 3
is chosen. -/
theorem pbs_select_lex_min_witness :
    pbsSelect selectionTable = some 3 ∧
    ∃ c, selectionTable[3]? = some c ∧ c.state = procstate.RUNNABLE ∧
      (∀ (j : Nat) (q : Proc), selectionTable[j]? = some q → q.state = procstate.RUNNABLE →
        lexLe3 (pbsKey c) (pbsKey q)) ∧
      (∀ (j : Nat) (q : Proc), j < 3 → selectionTable[j]? = some q →
        q.state = procstate.RUNNABLE → pbsKey q ≠ pbsKey c) :=
  ⟨by decide, (pbs_select_lex_min selectionTable).2.1 3 (by decide)⟩

/-- C9 on `selectionTable`: queue 1 is the
lowest non-empty queue and slot 3 entered it first. -/
theorem mlfq_select_lowest_queue_fifo_witness :
    mlfqSelect selectionTable = some 3 ∧
    ∃ c, selectionTable[3]? = some c ∧ c.state = procstate.RUNNABLE ∧
      (∀ (j : Nat) (q : Proc), selectionTable[j]? = some q → q.state = procstate.RUNNABLE →
        c.currentQ ≤ q.currentQ) ∧
      (∀ (j : Nat) (q : Proc), selectionTable[j]? = some q → q.state = procstate.RUNNABLE →
        q.currentQ = c.currentQ → c.entryTimeInCurrentQ ≤ q.entryTimeInCurrentQ) ∧
      (∀ (j : Nat) (q : Proc), j < 3 → selectionTable[j]? = some q →
        q.state = procstate.RUNNABLE → q.currentQ = c.currentQ →
        q.entryTimeInCurrentQ ≠ c.entryTimeInCurrentQ) :=
  ⟨by decide, (mlfq_select_lowest_queue_fifo selectionTable).2 3 (by decide)⟩

/-! ## Niceness and MLFQ aging -/

/-- What the code's niceness is for non-negative counters: 5 when both are 0, 10 when
only `cpuRunTime` is 0, and 0 as soon as `cpuRunTime` is positive. -/
theorem niceness_values (p : Proc) (hc : 0 ≤ p.cpuRunTime) (hs : 0 ≤ p.sleepTime) :
    niceness p =
      if p.cpuRunTime + p.sleepTime = 0 then 5 else if p.cpuRunTime = 0 then 10 else 0 := by
  unfold niceness
  by_cases h0 : p.cpuRunTime + p.sleepTime = 0
  · simp [h0]
  · simp only [h0, ne_eq, not_false_eq_true, if_true, if_false]
    by_cases hc0 : p.cpuRunTime = 0
    · have hs0 : p.sleepTime ≠ 0 := by omega
      simp only [hc0, zero_add, if_true]
      rw [Int.tdiv_self hs0]; rfl
    · simp only [hc0, if_false]
      rw [Int.tdiv_eq_ediv hs (by omega), Int.ediv_eq_zero_of_lt hs (by omega)]; rfl

/-- C7 (evaluation at the failing inputs): with `cpuRunTime = 1, sleepTime = 1` the
scheduler's niceness is 0 where the formula with an exact ratio gives 5, and with
`cpuRunTime = 1, sleepTime = 3` it is 0 where the formula gives 7: the C expression
divides the two integer counters before multiplying by 10. -/
theorem niceness_integer_division_counterexample :
    niceness { Proc.zero with cpuRunTime := 1, sleepTime := 1 } = 0 ∧
    nicenessSpec { Proc.zero with cpuRunTime := 1, sleepTime := 1 } = 5 ∧
    niceness { Proc.zero with cpuRunTime := 1, sleepTime := 3 } = 0 ∧
    nicenessSpec { Proc.zero with cpuRunTime := 1, sleepTime := 3 } = 7 := by
  refine ⟨by decide, ?_, by decide, ?_⟩
  · simp only [nicenessSpec, Proc.zero]
    norm_num
  · simp only [nicenessSpec, Proc.zero]
    norm_num

theorem wakeupLoop_getElem? (pol : Policy) (ticks : Int) (me chan : Ptr) :
    ∀ (rest : List Proc) (i j : Nat),
      (wakeupLoop pol ticks me chan rest i)[j]? =
        (rest[j]?).map (wakeSlot pol ticks me chan (i + j)) := by
  intro rest
  induction rest with
  | nil => intro i j; simp [wakeupLoop]
  | cons a rest ih =>
      intro i j
      cases j with
      | zero => simp [wakeupLoop]
      | succ j =>
          simp only [wakeupLoop, List.getElem?_cons_succ]
          rw [ih (i + 1) j]
          have hidx : i + 1 + j = i + (j + 1) := by omega
          rw [hidx]

theorem wakeup_getElem? (pol : Policy) (ticks : Int) (me chan : Ptr) (tbl : Table) (j : Nat) :
    (wakeup pol ticks me chan tbl)[j]? = (tbl[j]?).map (wakeSlot pol ticks me chan j) := by
  unfold wakeup
  rw [wakeupLoop_getElem?, Nat.zero_add]

theorem wakeupLoop_length (pol : Policy) (ticks : Int) (me chan : Ptr) :
    ∀ (rest : List Proc) (i : Nat), (wakeupLoop pol ticks me chan rest i).length = rest.length := by
  intro rest
  induction rest with
  | nil => intro i; rfl
  | cons a rest ih => intro i; simp [wakeupLoop, ih]

theorem wakeup_length (pol : Policy) (ticks : Int) (me chan : Ptr) (tbl : Table) :
    (wakeup pol ticks me chan tbl).length = tbl.length :=
  wakeupLoop_length pol ticks me chan tbl 0

theorem wakeSlot_spec (pol : Policy) (ticks : Int) (me chan : Ptr) (i : Nat) (q : Proc) :
    (wakeSlot pol ticks me chan i q).parent = q.parent ∧
    { wakeSlot pol ticks me chan i q with state := q.state, sleepTime := q.sleepTime } = q ∧
    WokenOrSame pol ticks chan q (wakeSlot pol ticks me chan i q) := by
  unfold wakeSlot WokenOrSame
  by_cases h1 : Ptr.slot i ≠ me
  · by_cases h2 : q.state = procstate.SLEEPING ∧ q.chan = chan
    · rw [if_pos h1, if_pos h2]
      exact ⟨rfl, rfl, Or.inr ⟨h2.1, h2.2, rfl, rfl⟩⟩
    · rw [if_pos h1, if_neg h2]
      exact ⟨rfl, rfl, Or.inl ⟨rfl, rfl⟩⟩
  · rw [if_neg h1]
    exact ⟨rfl, rfl, Or.inl ⟨rfl, rfl⟩⟩

theorem reparentLoop_spec (pol : Policy) (ticks : Int) (me initproc p : Ptr) :
    ∀ (n i : Nat) (t : Table), i + n = t.length →
      (reparentLoop pol ticks me initproc p n i t).length = t.length ∧
      ∀ (j : Nat) (q : Proc), t[j]? = some q →
        ∃ q1, (reparentLoop pol ticks me initproc p n i t)[j]? = some q1 ∧
          q1.parent = (if i ≤ j ∧ q.parent = p then initproc else q.parent) ∧
          { q1 with parent := q.parent, state := q.state, sleepTime := q.sleepTime } = q ∧
          WokenOrSame pol ticks initproc q q1 := by
  intro n
  induction n with
  | zero =>
      intro i t hlen
      refine ⟨rfl, ?_⟩
      intro j q hq
      have hj : j < t.length := getElem?_lt_length t j q hq
      have hij : ¬ (i ≤ j ∧ q.parent = p) := by omega
      exact ⟨q, hq, by simp only [hij, if_false], rfl, Or.inl ⟨rfl, rfl⟩⟩
  | succ n ih =>
      intro i t hlen
      have hi : i < t.length := by omega
      have hpp : t[i]? = some t[i] := List.getElem?_eq_getElem hi
      by_cases hpar : (t[i]).parent = p
      · have hloop : reparentLoop pol ticks me initproc p (n + 1) i t =
            reparentLoop pol ticks me initproc p n (i + 1)
              (wakeup pol ticks me initproc (t.set i { t[i] with parent := initproc })) := by
          simp only [reparentLoop, hpp, hpar, if_true]
        rw [hloop]
        have hlen1 : (wakeup pol ticks me initproc
            (t.set i { t[i] with parent := initproc })).length = t.length := by
          rw [wakeup_length, List.length_set]
        obtain ⟨hl, hpt⟩ := ih (i + 1)
          (wakeup pol ticks me initproc (t.set i { t[i] with parent := initproc }))
          (by rw [hlen1]; omega)
        refine ⟨by rw [hl, hlen1], ?_⟩
        intro j q hq
        have hj : j < t.length := getElem?_lt_length t j q hq
        by_cases hji : j = i
        · subst hji
          have hq0 : t[j] = q := by rw [hpp] at hq; simpa using hq
          obtain ⟨hw1, hw2, hw3⟩ :=
            wakeSlot_spec pol ticks me initproc j { q with parent := initproc }
          obtain ⟨q1, hq1, hp1, hr1, hk1⟩ := hpt j
            (wakeSlot pol ticks me initproc j { q with parent := initproc })
            (by rw [wakeup_getElem?]; simp [List.getElem?_set, hj, hq0])
          refine ⟨q1, hq1, ?_, ?_, ?_⟩
          · have hqp : q.parent = p := by rw [← hq0]; exact hpar
            have hno : ¬ (j + 1 ≤ j ∧
                (wakeSlot pol ticks me initproc j { q with parent := initproc }).parent = p) := by
              omega
            rw [if_neg hno, hw1] at hp1
            simp only [hqp, le_refl, and_self, if_true]
            exact hp1
          · have e1 : { q1 with parent := q.parent, state := q.state, sleepTime := q.sleepTime } =
                { ({ q1 with
                      parent := (wakeSlot pol ticks me initproc j { q with parent := initproc }).parent
                      state := (wakeSlot pol ticks me initproc j { q with parent := initproc }).state
                      sleepTime :=
                        (wakeSlot pol ticks me initproc j { q with parent := initproc }).sleepTime } :
                    Proc) with
                  parent := q.parent, state := q.state, sleepTime := q.sleepTime } := rfl
            rw [e1, hr1]
            have e2 : ({ wakeSlot pol ticks me initproc j { q with parent := initproc } with
                  parent := q.parent, state := q.state, sleepTime := q.sleepTime } : Proc) =
                { ({ wakeSlot pol ticks me initproc j { q with parent := initproc } with
                      state := q.state, sleepTime := q.sleepTime } : Proc) with
                  parent := q.parent } := rfl
            rw [e2]
            have hw2a : ({ wakeSlot pol ticks me initproc j { q with parent := initproc } with
                  state := q.state, sleepTime := q.sleepTime } : Proc) =
                { q with parent := initproc } := hw2
            rw [hw2a]
          · unfold WokenOrSame at hw3 hk1 ⊢
            simp only at hw3
            rcases hw3 with ⟨a1, a2⟩ | ⟨a1, a2, a3, a4⟩
            · rcases hk1 with ⟨b1, b2⟩ | ⟨b1, b2, b3, b4⟩
              · left; exact ⟨by rw [b1, a1], by rw [b2, a2]⟩
              · right
                have hc : (wakeSlot pol ticks me initproc j { q with parent := initproc }).chan =
                    q.chan := by
                  have := congrArg Proc.chan hw2; simpa using this
                have hs : (wakeSlot pol ticks me initproc j
                    { q with parent := initproc }).sleepStartTime = q.sleepStartTime := by
                  have := congrArg Proc.sleepStartTime hw2; simpa using this
                refine ⟨by rw [← a1]; exact b1, by rw [← hc]; exact b2, b3, ?_⟩
                rw [b4, hs, a2]
            · rcases hk1 with ⟨b1, b2⟩ | ⟨b1, b2, b3, b4⟩
              · right; exact ⟨a1, a2, by rw [b1, a3], by rw [b2, a4]⟩
              · rw [a3] at b1; cases b1
        · obtain ⟨hw1, hw2, hw3⟩ := wakeSlot_spec pol ticks me initproc j q
          obtain ⟨q1, hq1, hp1, hr1, hk1⟩ := hpt j (wakeSlot pol ticks me initproc j q)
            (by rw [wakeup_getElem?]; simp [List.getElem?_set, Ne.symm hji, hq])
          refine ⟨q1, hq1, ?_, ?_, ?_⟩
          · rw [hw1] at hp1
            rw [hp1]
            by_cases hqp : q.parent = p
            · by_cases h1 : i ≤ j
              · have h2 : i + 1 ≤ j := by omega
                simp only [h1, h2, hqp, and_self, if_true]
              · have h2 : ¬ i + 1 ≤ j := by omega
                simp only [h1, h2, hqp, false_and, if_false]
            · simp only [hqp, and_false, if_false]
          · have e1 : { q1 with parent := q.parent, state := q.state, sleepTime := q.sleepTime } =
                { ({ q1 with
                      parent := (wakeSlot pol ticks me initproc j q).parent
                      state := (wakeSlot pol ticks me initproc j q).state
                      sleepTime := (wakeSlot pol ticks me initproc j q).sleepTime } : Proc) with
                  parent := q.parent, state := q.state, sleepTime := q.sleepTime } := rfl
            rw [e1, hr1]
            have e2 : ({ wakeSlot pol ticks me initproc j q with
                  parent := q.parent, state := q.state, sleepTime := q.sleepTime } : Proc) =
                { ({ wakeSlot pol ticks me initproc j q with
                      state := q.state, sleepTime := q.sleepTime } : Proc) with
                  parent := q.parent } := rfl
            rw [e2, hw2]
          · unfold WokenOrSame at hw3 hk1 ⊢
            rcases hw3 with ⟨a1, a2⟩ | ⟨a1, a2, a3, a4⟩
            · rcases hk1 with ⟨b1, b2⟩ | ⟨b1, b2, b3, b4⟩
              · left; exact ⟨by rw [b1, a1], by rw [b2, a2]⟩
              · right
                have hc : (wakeSlot pol ticks me initproc j q).chan = q.chan := by
                  have := congrArg Proc.chan hw2; simpa using this
                have hs : (wakeSlot pol ticks me initproc j q).sleepStartTime =
                    q.sleepStartTime := by
                  have := congrArg Proc.sleepStartTime hw2; simpa using this
                refine ⟨by rw [← a1]; exact b1, by rw [← hc]; exact b2, b3, ?_⟩
                rw [b4, hs, a2]
            · rcases hk1 with ⟨b1, b2⟩ | ⟨b1, b2, b3, b4⟩
              · right; exact ⟨a1, a2, by rw [b1, a3], by rw [b2, a4]⟩
              · rw [a3] at b1; cases b1
      · have hloop : reparentLoop pol ticks me initproc p (n + 1) i t =
            reparentLoop pol ticks me initproc p n (i + 1) t := by
          simp only [reparentLoop, hpp, hpar, if_false]
        rw [hloop]
        obtain ⟨hl, hpt⟩ := ih (i + 1) t (by omega)
        refine ⟨hl, ?_⟩
        intro j q hq
        obtain ⟨q1, hq1, hp1, hr1, hk1⟩ := hpt j q hq
        refine ⟨q1, hq1, ?_, hr1, hk1⟩
        rw [hp1]
        by_cases hji : j = i
        · subst hji
          have hq0 : t[j] = q := by rw [hpp] at hq; simpa using hq
          have hqp : ¬ q.parent = p := by rw [← hq0]; exact hpar
          simp only [hqp, and_false, if_false]
        · by_cases hqp : q.parent = p
          · by_cases h1 : i ≤ j
            · have h2 : i + 1 ≤ j := by omega
              simp only [h1, h2, hqp, and_self, if_true]
            · have h2 : ¬ i + 1 ≤ j := by omega
              simp only [h1, h2, hqp, false_and, if_false]
          · simp only [hqp, and_false, if_false]

theorem exitMark_getElem? (ticks : Int) (c : Nat) (status : Int) (t : Table) (j : Nat) :
    (exitMark ticks c status t)[j]? =
      if j = c then
        (t[j]?).map (fun q =>
          { q with xstate := status, state := procstate.ZOMBIE, endTime := ticks })
      else t[j]? := by
  unfold exitMark
  by_cases hj : j = c
  · subst hj
    cases h : t[j]? with
    | none => simp [h]
    | some q =>
        have hlt : j < t.length := getElem?_lt_length t j q h
        simp [List.getElem?_set, hlt]
  · cases h : t[c]? with
    | none => simp [hj]
    | some q => simp [List.getElem?_set, hj, Ne.symm hj]

/-- C11: `reparent(p)` keeps the table length; every slot whose parent was `p` has
parent `initproc` afterwards and every other slot keeps its parent; no field other
than `parent`, `state` and `sleepTime` differs from before, and `state` and
`sleepTime` differ only in slots that were SLEEPING on `initproc` and were made
RUNNABLE by the `wakeup(initproc)` that accompanies each retargeting.  When
`exit` returns a table (the caller is not init) the parents in it are the same:
`initproc` for the former children of the caller, unchanged for all other slots. -/
theorem reparent_retargets_children (pol : Policy) (ticks : Int) (me initproc p : Ptr)
    (tbl : Table) :
    (reparent pol ticks me initproc p tbl).length = tbl.length ∧
    (∀ (j : Nat) (q : Proc), tbl[j]? = some q →
      ∃ q1, (reparent pol ticks me initproc p tbl)[j]? = some q1 ∧
        q1.parent = (if q.parent = p then initproc else q.parent) ∧
        { q1 with parent := q.parent, state := q.state, sleepTime := q.sleepTime } = q ∧
        WokenOrSame pol ticks initproc q q1) ∧
    (∀ (caller : Nat) (status : Int) (out : Table),
      exit pol ticks initproc caller status tbl = some out →
      Ptr.slot caller ≠ initproc ∧ out.length = tbl.length ∧
      ∀ (j : Nat) (q : Proc), tbl[j]? = some q →
        ∃ q2, out[j]? = some q2 ∧
          q2.parent = (if q.parent = Ptr.slot caller then initproc else q.parent)) := by
  have hmain : ∀ (me p : Ptr),
      (reparent pol ticks me initproc p tbl).length = tbl.length ∧
      (∀ (j : Nat) (q : Proc), tbl[j]? = some q →
        ∃ q1, (reparent pol ticks me initproc p tbl)[j]? = some q1 ∧
          q1.parent = (if q.parent = p then initproc else q.parent) ∧
          { q1 with parent := q.parent, state := q.state, sleepTime := q.sleepTime } = q ∧
          WokenOrSame pol ticks initproc q q1) := by
    intro me p
    obtain ⟨hl, hpt⟩ := reparentLoop_spec pol ticks me initproc p tbl.length 0 tbl
      (Nat.zero_add _)
    refine ⟨hl, ?_⟩
    intro j q hq
    obtain ⟨q1, hq1, hp1, hr1, hk1⟩ := hpt j q hq
    refine ⟨q1, hq1, ?_, hr1, hk1⟩
    rw [hp1]
    simp only [Nat.zero_le, true_and]
  refine ⟨(hmain me p).1, (hmain me p).2, ?_⟩
  intro caller status out hexit
  unfold exit at hexit
  by_cases hinit : Ptr.slot caller = initproc
  · rw [if_pos hinit] at hexit; cases hexit
  · rw [if_neg hinit] at hexit
    simp only [Option.some.injEq] at hexit
    subst hexit
    obtain ⟨hl, hpt⟩ := hmain (Ptr.slot caller) (Ptr.slot caller)
    refine ⟨hinit, ?_, ?_⟩
    · unfold exitMark
      split
      · rw [List.length_set, wakeup_length, hl]
      · rw [wakeup_length, hl]
    · intro j q hq
      obtain ⟨q1, hq1, hp1, _, _⟩ := hpt j q hq
      rw [exitMark_getElem?, wakeup_getElem?, hq1]
      have hw := (wakeSlot_spec pol ticks (Ptr.slot caller)
        (parentOf caller (reparent pol ticks (Ptr.slot caller) initproc (Ptr.slot caller) tbl))
        j q1).1
      by_cases hjc : j = caller
      · rw [if_pos hjc]
        exact ⟨_, rfl, by simp only [Option.map]; rw [← hp1, ← hw]⟩
      · rw [if_neg hjc]
        exact ⟨_, rfl, by rw [← hp1, ← hw]⟩

/-- C11 on scenario S2: when A (slot 1) exits with status 7 at tick 9, its child G in
slot 2 gets init (slot 0) as parent, init is woken, and A is a ZOMBIE that keeps init
as parent. -/
theorem reparent_retargets_children_witness :
    (exit Policy.DEFAULT 9 (Ptr.slot 0) 1 7 orphanTable).map
        (fun t => t.map (fun q => (q.pid, q.state, q.parent, q.xstate))) =
      some
        [ (1, procstate.RUNNABLE, Ptr.null, 0),
          (2, procstate.ZOMBIE, Ptr.slot 0, 7),
          (3, procstate.RUNNABLE, Ptr.slot 0, 0) ] ∧
    ∃ q1, (reparent Policy.DEFAULT 9 (Ptr.slot 1) (Ptr.slot 0) (Ptr.slot 1) orphanTable)[2]? =
        some q1 ∧ q1.parent = Ptr.slot 0 := by
  refine ⟨by decide, ?_⟩
  obtain ⟨q1, h1, h2, _⟩ :=
    (reparent_retargets_children Policy.DEFAULT 9 (Ptr.slot 1) (Ptr.slot 0) (Ptr.slot 1)
      orphanTable).2.1 2
      { Proc.zero with state := procstate.RUNNABLE, pid := 3, parent := Ptr.slot 1 } (by decide)
  exact ⟨q1, h1, by rw [h2]; decide⟩

/-! ## Accounting reported by waitx -/

/-- C12 (as the code has it): in the PBS timeline `accountingScenario` the child is a
ZOMBIE with creation time 0, end time 10, run time 6 and a recorded sleep time of 4;
`waitx` by its parent returns its pid and reports run time 6 and wait time
10 - 0 - 6 = 4, and 6 + 4 + 4 exceeds 10 - 0. -/
theorem waitx_accounting_counterexample :
    (accountingScenario.bind (fun t => t[1]?)).map
        (fun c => (c.state, c.creationTime, c.endTime, c.cpuRunTime, c.sleepTime)) =
      some (procstate.ZOMBIE, 0, 10, 6, 4) ∧
    accountingScenario.map
        (fun t =>
          ((waitx Policy.PBS 10 (fun _ _ => true) 0 0 t [] 0 0).ret,
           (waitx Policy.PBS 10 (fun _ _ => true) 0 0 t [] 0 0).cpuRunTime,
           (waitx Policy.PBS 10 (fun _ _ => true) 0 0 t [] 0 0).waitTime)) =
      some (Ret.value 2, 6, 4) ∧
    ¬ ((6 : Int) + 4 + 4 ≤ 10 - 0) := by
  decide

/-- C12 (amended): when `waitx` reaps the ZOMBIE child `c` (the lowest-index ZOMBIE
child of the caller, the status copy-out succeeding) and the child's run time and
`endTime - creationTime - cpuRunTime` are in the range of `uint`, the run time it
reports is `c.cpuRunTime`, the wait time it reports is
`c.endTime - c.creationTime - c.cpuRunTime`, and the two add up to exactly
`c.endTime - c.creationTime`; so the bound with the child's recorded `sleepTime`
added holds if and only if that `sleepTime` is not positive. -/
theorem waitx_accounting (pol : Policy) (ticks : Int) (copyok : Nat → Nat → Bool)
    (p addr : Nat) (tbl : Table) (out : List (Nat × Int)) (rt wt : Int) (k : Nat) (c : Proc)
    (hk : tbl[k]? = some c) (hpar : c.parent = Ptr.slot p) (hst : c.state = procstate.ZOMBIE)
    (hmin : ∀ (j : Nat) (q : Proc), j < k → tbl[j]? = some q →
      ¬ (q.parent = Ptr.slot p ∧ q.state = procstate.ZOMBIE))
    (hcopy : addr = 0 ∨ copyok (pagetableOf p tbl) addr = true)
    (hrun : 0 ≤ c.cpuRunTime ∧ c.cpuRunTime < 4294967296)
    (hwait : 0 ≤ c.endTime - c.creationTime - c.cpuRunTime ∧
      c.endTime - c.creationTime - c.cpuRunTime < 4294967296) :
    (waitx pol ticks copyok p addr tbl out rt wt).ret = Ret.value c.pid ∧
    (waitx pol ticks copyok p addr tbl out rt wt).cpuRunTime = c.cpuRunTime ∧
    (waitx pol ticks copyok p addr tbl out rt wt).waitTime =
      c.endTime - c.creationTime - c.cpuRunTime ∧
    (waitx pol ticks copyok p addr tbl out rt wt).cpuRunTime +
      (waitx pol ticks copyok p addr tbl out rt wt).waitTime = c.endTime - c.creationTime ∧
    ((waitx pol ticks copyok p addr tbl out rt wt).cpuRunTime +
        (waitx pol ticks copyok p addr tbl out rt wt).waitTime + c.sleepTime ≤
        c.endTime - c.creationTime ↔ c.sleepTime ≤ 0) := by
  have hx := waitxLoop_first pol ticks copyok p addr tbl out rt wt tbl 0 k c false hk hpar hst hmin
  have hno : ¬ (addr ≠ 0 ∧ copyok (pagetableOf p tbl) addr = false) := by
    rintro ⟨h0, hf⟩
    rcases hcopy with h | h
    · exact h0 h
    · rw [h] at hf; cases hf
  rw [if_neg hno] at hx
  have hx1 : waitx pol ticks copyok p addr tbl out rt wt = _ := hx
  rw [hx1]
  have e1 : toU32 c.cpuRunTime = c.cpuRunTime := by unfold toU32; omega
  have e2 : toU32 (c.endTime - c.creationTime - c.cpuRunTime) =
      c.endTime - c.creationTime - c.cpuRunTime := by unfold toU32; omega
  simp only [e1, e2]
  refine ⟨trivial, trivial, trivial, by omega, by omega⟩

/-- C12 (amended) on a child with creation time 0, end time 10, run time 6 and no
recorded sleep time. -/
theorem waitx_accounting_witness :
    (waitx Policy.DEFAULT 10 (fun _ _ => true) 0 0
        [ { Proc.zero with state := procstate.RUNNING, pid := 1 },
          { Proc.zero with state := procstate.ZOMBIE, pid := 2, parent := Ptr.slot 0,
                           endTime := 10, cpuRunTime := 6 } ] [] 0 0).cpuRunTime +
      (waitx Policy.DEFAULT 10 (fun _ _ => true) 0 0
        [ { Proc.zero with state := procstate.RUNNING, pid := 1 },
          { Proc.zero with state := procstate.ZOMBIE, pid := 2, parent := Ptr.slot 0,
                           endTime := 10, cpuRunTime := 6 } ] [] 0 0).waitTime = 10 - 0 :=
  (waitx_accounting Policy.DEFAULT 10 (fun _ _ => true) 0 0
    [ { Proc.zero with state := procstate.RUNNING, pid := 1 },
      { Proc.zero with state := procstate.ZOMBIE, pid := 2, parent := Ptr.slot 0,
                       endTime := 10, cpuRunTime := 6 } ] [] 0 0 1
    { Proc.zero with state := procstate.ZOMBIE, pid := 2, parent := Ptr.slot 0,
                     endTime := 10, cpuRunTime := 6 }
    (by decide) (by decide) (by decide)
    (by
      intro j q hj hq
      obtain rfl : j = 0 := by omega
      simp only [List.getElem?_cons_zero, Option.some.injEq] at hq
      subst hq
      decide)
    (Or.inl rfl) (by decide) (by decide)).2.2.2.1

/-! ## The yield decision of set_priority -/

theorem setPriorityAt_yielded (caller priority : Nat) (tbl : Table) (i : Nat) (p : Proc) :
    (setPriorityAt caller priority tbl i p).yielded = true ↔
      setPriorityDpOld p > setPriorityDpNew priority := by
  have hold : setPriorityDpOld p = dpOf p.staticPriority (niceness p) := rfl
  have hnew : setPriorityDpNew priority =
      (if 0 < (if priority < 100 then (priority : Int) else 100) then
        (if priority < 100 then (priority : Int) else 100) else 0) := rfl
  rw [hold, hnew]
  by_cases h : dpOf p.staticPriority (niceness p) >
      (if 0 < (if priority < 100 then (priority : Int) else 100) then
        (if priority < 100 then (priority : Int) else 100) else 0)
  · have hy : (setPriorityAt caller priority tbl i p).yielded = true := by
      simp only [setPriorityAt, h, if_true]
    exact ⟨fun _ => h, fun _ => hy⟩
  · have hy : (setPriorityAt caller priority tbl i p).yielded = false := by
      simp only [setPriorityAt, h, if_false]
    exact ⟨fun hc => (by rw [hy] at hc; cases hc), fun hc => absurd hc h⟩

/-- C14: under PBS, for a new priority in 0..100 and the slot `p` that `set_priority`
matches, the slot afterwards holds the new static priority and zeroed counters; the
new DP the function compares equals the scheduler's dynamic priority of the slot
after the call, the old DP it compares equals the scheduler's dynamic priority of
the slot before the call, and `yield()` is called if and only if the new DP is
smaller than the old DP. -/
theorem set_priority_yield_decision (caller priority pid : Nat) (tbl : Table) (k : Nat)
    (p : Proc) (hprio : priority ≤ 100) (hk : tbl[k]? = some p) (hp : toU64 p.pid = pid)
    (hmin : ∀ (j : Nat) (q : Proc), j < k → tbl[j]? = some q → toU64 q.pid ≠ pid) :
    ∃ p1, (set_priority Policy.PBS caller priority pid tbl).proc[k]? = some p1 ∧
      p1.staticPriority = (priority : Int) ∧ p1.cpuRunTime = 0 ∧ p1.sleepTime = 0 ∧
      setPriorityDpNew priority = dynamicPriority p1 ∧
      setPriorityDpOld p = dynamicPriority p ∧
      ((set_priority Policy.PBS caller priority pid tbl).yielded = true ↔
        setPriorityDpNew priority < setPriorityDpOld p) ∧
      ((set_priority Policy.PBS caller priority pid tbl).yielded = true ↔
        dynamicPriority p1 < dynamicPriority p) := by
  have hlt : k < tbl.length := getElem?_lt_length tbl k p hk
  have hloop := setPriorityLoop_first caller priority pid tbl tbl 0 k p hk hp hmin
  rw [Nat.zero_add] at hloop
  have hsp : set_priority Policy.PBS caller priority pid tbl =
      setPriorityAt caller priority tbl k p := by
    simp only [set_priority, if_true]
    exact hloop
  have h32 : toInt32 priority = (priority : Int) := by
    unfold toInt32
    have : priority % 4294967296 = priority := Nat.mod_eq_of_lt (by omega)
    rw [this, if_pos (by omega)]
  have hnewval : setPriorityDpNew priority = (priority : Int) := by
    unfold setPriorityDpNew
    simp only
    split <;> split <;> omega
  have hdp : ∀ p1 : Proc, p1.staticPriority = (priority : Int) → p1.cpuRunTime = 0 →
      p1.sleepTime = 0 → dynamicPriority p1 = (priority : Int) := by
    intro p1 h1 h2 h3
    unfold dynamicPriority niceness dpOf
    rw [h1, h2, h3]
    simp only [add_zero, ne_eq, not_true_eq_false, if_false]
    split <;> split <;> omega
  have hy := setPriorityAt_yielded caller priority tbl k p
  have hex : ∃ p1, (setPriorityAt caller priority tbl k p).proc[k]? = some p1 ∧
      p1.staticPriority = (priority : Int) ∧ p1.cpuRunTime = 0 ∧ p1.sleepTime = 0 := by
    rcases setPriorityAt_cases caller priority tbl k p with hc | hc
    · rw [hc]
      by_cases hck : caller = k
      · subst hck
        exact ⟨{ p with staticPriority := toInt32 priority, cpuRunTime := 0, sleepTime := 0,
                        state := procstate.RUNNABLE },
          by simp [yield_getElem?, List.getElem?_set, hlt], h32, rfl, rfl⟩
      · exact ⟨{ p with staticPriority := toInt32 priority, cpuRunTime := 0, sleepTime := 0 },
          by simp [yield_getElem?, List.getElem?_set, hlt, hck, Ne.symm hck], h32, rfl, rfl⟩
    · rw [hc]
      exact ⟨{ p with staticPriority := toInt32 priority, cpuRunTime := 0, sleepTime := 0 },
        by simp [List.getElem?_set, hlt], h32, rfl, rfl⟩
  obtain ⟨p1, hp1, hs1, hs2, hs3⟩ := hex
  rw [hsp]
  refine ⟨p1, hp1, hs1, hs2, hs3, ?_, rfl, hy, ?_⟩
  · rw [hnewval, hdp p1 hs1 hs2 hs3]
  · rw [hy, hdp p1 hs1 hs2 hs3, hnewval]
    exact Iff.rfl

/-- C14 on the table whose slot 1 carries pid 2 and static priority 60: with new
priority 10 the caller yields, with new priority 70 it does not. -/
theorem set_priority_yield_decision_witness :
    (set_priority Policy.PBS 0 10 2 (twoProcs procstate.RUNNABLE (Ptr.slot 0))).yielded = true ∧
    (set_priority Policy.PBS 0 70 2 (twoProcs procstate.RUNNABLE (Ptr.slot 0))).yielded = false ∧
    ∃ p1, (set_priority Policy.PBS 0 10 2 (twoProcs procstate.RUNNABLE (Ptr.slot 0))).proc[1]? =
        some p1 ∧ setPriorityDpNew 10 = dynamicPriority p1 := by
  refine ⟨by decide, by decide, ?_⟩
  obtain ⟨p1, h1, _, _, _, h5, _⟩ :=
    set_priority_yield_decision 0 10 2 (twoProcs procstate.RUNNABLE (Ptr.slot 0)) 1
      { Proc.zero with state := procstate.RUNNABLE, pid := 2, parent := Ptr.slot 0,
                       xstate := 42, staticPriority := 60 }
      (by decide) (by decide) (by decide)
      (by
        intro j q hj hq
        obtain rfl : j = 0 := by omega
        have hq0 : (twoProcs procstate.RUNNABLE (Ptr.slot 0))[0]? = some q := hq
        simp only [twoProcs, List.getElem?_cons_zero, Option.some.injEq] at hq0
        subst hq0
        decide)
  exact ⟨p1, h1, h5⟩

/-! ## The shape of the table each operation returns -/

theorem findUnused_spec : ∀ (rest : List Proc) (i k : Nat) (p : Proc),
    findUnused rest i = some (k, p) →
      ∃ j, k = i + j ∧ rest[j]? = some p ∧ p.state = procstate.UNUSED := by
  intro rest
  induction rest with
  | nil => intro i k p h; simp [findUnused] at h
  | cons a rest ih =>
      intro i k p h
      by_cases ha : a.state = procstate.UNUSED
      · simp only [findUnused, ha, if_true, Option.some.injEq, Prod.mk.injEq] at h
        obtain ⟨h1, h2⟩ := h
        subst h1; subst h2
        exact ⟨0, rfl, by simp, ha⟩
      · simp only [findUnused, ha, if_false] at h
        obtain ⟨j, h1, h2, h3⟩ := ih (i + 1) k p h
        exact ⟨j + 1, by omega, by simpa using h2, h3⟩

theorem allocAttach_spec (pol : Policy) (ticks : Int) (tf pt : Nat) (p q : Proc)
    (h : allocAttach pol ticks tf pt p = some q) :
    q.state = p.state ∧ q.chan = p.chan ∧
    q.staticPriority = (if pol = Policy.PBS then DEFAULT_STATIC_PRIORITY else p.staticPriority) := by
  unfold allocAttach at h
  by_cases h1 : tf = 0
  · rw [if_pos h1] at h; cases h
  · rw [if_neg h1] at h
    by_cases h2 : pt = 0
    · rw [if_pos h2] at h; cases h
    · rw [if_neg h2] at h
      simp only [Option.some.injEq] at h
      subst h
      exact ⟨rfl, rfl, rfl⟩

theorem allocproc_cases (pol : Policy) (ticks : Int) (tf pt : Nat) (nextpid : Int) (tbl : Table) :
    ((allocproc pol ticks tf pt nextpid tbl).slot = none ∧
      (allocproc pol ticks tf pt nextpid tbl).found = tbl ∧
      (allocproc pol ticks tf pt nextpid tbl).proc = tbl) ∨
    ∃ (k : Nat) (p : Proc), tbl[k]? = some p ∧ p.state = procstate.UNUSED ∧
      (allocproc pol ticks tf pt nextpid tbl).found = tbl.set k (allocFound nextpid p) ∧
      ((∃ q, allocAttach pol ticks tf pt (allocFound nextpid p) = some q ∧
          (allocproc pol ticks tf pt nextpid tbl).slot = some k ∧
          (allocproc pol ticks tf pt nextpid tbl).proc = tbl.set k q) ∨
        ((allocproc pol ticks tf pt nextpid tbl).slot = none ∧
          (allocproc pol ticks tf pt nextpid tbl).proc =
            tbl.set k (freeproc (allocFound nextpid p)))) := by
  unfold allocproc
  cases hf : findUnused tbl 0 with
  | none => left; exact ⟨rfl, rfl, rfl⟩
  | some kp =>
      obtain ⟨k, p⟩ := kp
      obtain ⟨j, hj, hp, hst⟩ := findUnused_spec tbl 0 k p hf
      have hk : k = j := by omega
      subst hk
      right
      refine ⟨k, p, hp, hst, ?_⟩
      cases ha : allocAttach pol ticks tf pt (allocFound nextpid p) with
      | none => dsimp only; rw [ha]; exact ⟨rfl, Or.inr ⟨rfl, rfl⟩⟩
      | some q => dsimp only; rw [ha]; exact ⟨rfl, Or.inl ⟨q, rfl, rfl, rfl⟩⟩

theorem waitLoop_proc_cases (pol : Policy) (ticks : Int) (copyok : Nat → Nat → Bool)
    (p addr : Nat) (tbl : Table) (out : List (Nat × Int)) :
    ∀ (rest : List Proc) (i : Nat) (hk : Bool),
      (∀ (j : Nat) (c : Proc), rest[j]? = some c → tbl[i + j]? = some c) →
      (waitLoop pol ticks copyok p addr tbl out rest i hk).proc = tbl ∨
      (waitLoop pol ticks copyok p addr tbl out rest i hk).proc =
        sleep pol ticks p (Ptr.slot p) tbl ∨
      ∃ (k : Nat) (c : Proc), tbl[k]? = some c ∧ c.state = procstate.ZOMBIE ∧
        (waitLoop pol ticks copyok p addr tbl out rest i hk).proc = tbl.set k (freeproc c) := by
  intro rest
  induction rest with
  | nil =>
      intro i hk _
      unfold waitLoop
      split
      · left; rfl
      · right; left; rfl
  | cons a rest ih =>
      intro i hk hrel
      have hrest : ∀ (j : Nat) (c : Proc), rest[j]? = some c → tbl[i + 1 + j]? = some c := by
        intro j c hc
        have := hrel (j + 1) c (by simpa using hc)
        rw [show i + 1 + j = i + (j + 1) by omega]; exact this
      have ha : tbl[i]? = some a := by simpa using hrel 0 a (by simp)
      by_cases h1 : a.parent = Ptr.slot p
      · by_cases h2 : a.state = procstate.ZOMBIE
        · by_cases h3 : addr ≠ 0 ∧ copyok (pagetableOf p tbl) addr = false
          · left; simp only [waitLoop, h1, h2, h3, if_true, and_self, ne_eq, not_false_eq_true]
          · right; right
            refine ⟨i, a, ha, h2, ?_⟩
            simp only [waitLoop, h1, h2, h3, if_true, if_false]
        · simp only [waitLoop, h1, h2, if_true, if_false]
          exact ih (i + 1) true hrest
      · simp only [waitLoop, h1, if_false]
        exact ih (i + 1) hk hrest

theorem waitxLoop_proc_cases (pol : Policy) (ticks : Int) (copyok : Nat → Nat → Bool)
    (p addr : Nat) (tbl : Table) (out : List (Nat × Int)) (rt wt : Int) :
    ∀ (rest : List Proc) (i : Nat) (hk : Bool),
      (∀ (j : Nat) (c : Proc), rest[j]? = some c → tbl[i + j]? = some c) →
      (waitxLoop pol ticks copyok p addr tbl out rt wt rest i hk).proc = tbl ∨
      (waitxLoop pol ticks copyok p addr tbl out rt wt rest i hk).proc =
        sleep pol ticks p (Ptr.slot p) tbl ∨
      ∃ (k : Nat) (c : Proc), tbl[k]? = some c ∧ c.state = procstate.ZOMBIE ∧
        (waitxLoop pol ticks copyok p addr tbl out rt wt rest i hk).proc =
          tbl.set k (freeproc c) := by
  intro rest
  induction rest with
  | nil =>
      intro i hk _
      unfold waitxLoop
      split
      · left; rfl
      · right; left; rfl
  | cons a rest ih =>
      intro i hk hrel
      have hrest : ∀ (j : Nat) (c : Proc), rest[j]? = some c → tbl[i + 1 + j]? = some c := by
        intro j c hc
        have := hrel (j + 1) c (by simpa using hc)
        rw [show i + 1 + j = i + (j + 1) by omega]; exact this
      have ha : tbl[i]? = some a := by simpa using hrel 0 a (by simp)
      by_cases h1 : a.parent = Ptr.slot p
      · by_cases h2 : a.state = procstate.ZOMBIE
        · by_cases h3 : addr ≠ 0 ∧ copyok (pagetableOf p tbl) addr = false
          · left; simp only [waitxLoop, h1, h2, h3, if_true, and_self, ne_eq, not_false_eq_true]
          · right; right
            refine ⟨i, a, ha, h2, ?_⟩
            simp only [waitxLoop, h1, h2, h3, if_true, if_false]
        · simp only [waitxLoop, h1, h2, if_true, if_false]
          exact ih (i + 1) true hrest
      · simp only [waitxLoop, h1, if_false]
        exact ih (i + 1) hk hrest

theorem wait_proc_cases (pol : Policy) (ticks : Int) (copyok : Nat → Nat → Bool)
    (p addr : Nat) (tbl : Table) (out : List (Nat × Int)) :
    (wait pol ticks copyok p addr tbl out).proc = tbl ∨
    (wait pol ticks copyok p addr tbl out).proc = sleep pol ticks p (Ptr.slot p) tbl ∨
    ∃ (k : Nat) (c : Proc), tbl[k]? = some c ∧ c.state = procstate.ZOMBIE ∧
      (wait pol ticks copyok p addr tbl out).proc = tbl.set k (freeproc c) :=
  waitLoop_proc_cases pol ticks copyok p addr tbl out tbl 0 false
    (by intro j c h; rw [Nat.zero_add]; exact h)

theorem waitx_proc_cases (pol : Policy) (ticks : Int) (copyok : Nat → Nat → Bool)
    (p addr : Nat) (tbl : Table) (out : List (Nat × Int)) (rt wt : Int) :
    (waitx pol ticks copyok p addr tbl out rt wt).proc = tbl ∨
    (waitx pol ticks copyok p addr tbl out rt wt).proc = sleep pol ticks p (Ptr.slot p) tbl ∨
    ∃ (k : Nat) (c : Proc), tbl[k]? = some c ∧ c.state = procstate.ZOMBIE ∧
      (waitx pol ticks copyok p addr tbl out rt wt).proc = tbl.set k (freeproc c) :=
  waitxLoop_proc_cases pol ticks copyok p addr tbl out rt wt tbl 0 false
    (by intro j c h; rw [Nat.zero_add]; exact h)

theorem kill_proc_cases (pid : Int) (tbl : Table) :
    (kill pid tbl).2 = tbl ∨
    ∃ (k : Nat) (p : Proc), tbl[k]? = some p ∧
      (kill pid tbl).2 = tbl.set k
        { p with
          killed := 1
          state := if p.state = procstate.SLEEPING then procstate.RUNNABLE else p.state } := by
  by_cases h : ∃ p ∈ tbl, p.pid = pid
  · obtain ⟨k, p, hk, hp, hmin⟩ := exists_first_index (fun q : Proc => q.pid = pid) tbl h
    have hkill := killLoop_first pid tbl tbl 0 k p hk hp hmin
    rw [Nat.zero_add] at hkill
    right
    exact ⟨k, p, hk, by rw [show kill pid tbl = _ from hkill]⟩
  · left
    have hnone := killLoop_none pid tbl tbl 0 (fun p hp hpid => h ⟨p, hp, hpid⟩)
    rw [show kill pid tbl = _ from hnone]

theorem set_priority_proc_cases (pol : Policy) (caller priority pid : Nat) (tbl : Table) :
    (set_priority pol caller priority pid tbl).proc = tbl ∨
    ∃ (k : Nat) (p : Proc), tbl[k]? = some p ∧
      ((set_priority pol caller priority pid tbl).proc =
          tbl.set k { p with staticPriority := toInt32 priority, cpuRunTime := 0, sleepTime := 0 } ∨
        (set_priority pol caller priority pid tbl).proc =
          yield caller (tbl.set k
            { p with staticPriority := toInt32 priority, cpuRunTime := 0, sleepTime := 0 })) := by
  by_cases hpol : pol = Policy.PBS
  · by_cases h : ∃ q ∈ tbl, toU64 q.pid = pid
    · obtain ⟨k, p, hk, hp, hmin⟩ :=
        exists_first_index (fun q : Proc => toU64 q.pid = pid) tbl h
      have hloop := setPriorityLoop_first caller priority pid tbl tbl 0 k p hk hp hmin
      rw [Nat.zero_add] at hloop
      have hsp : set_priority pol caller priority pid tbl =
          setPriorityAt caller priority tbl k p := by
        simp only [set_priority, hpol, if_true]
        exact hloop
      right
      refine ⟨k, p, hk, ?_⟩
      rcases setPriorityAt_cases caller priority tbl k p with hc | hc
      · right; rw [hsp, hc]
      · left; rw [hsp, hc]
    · left
      have hnone := setPriorityLoop_none caller priority pid tbl tbl 0
        (fun q hq hpid => h ⟨q, hq, hpid⟩)
      simp only [set_priority, hpol, if_true]
      rw [hnone]
  · left
    simp [set_priority, hpol]

/-! ## State-machine conformance -/

theorem conforms_refl (t : Table) : Conforms t t :=
  ⟨rfl, fun i p q hp hq => Or.inl (by rw [hp] at hq; cases hq; rfl)⟩

theorem conforms_set (t : Table) (i : Nat) (p q : Proc) (hp : t[i]? = some p)
    (h : q.state = p.state ∨ allowedTransition p.state q.state = true) :
    Conforms t (t.set i q) := by
  refine ⟨List.length_set _ _ _, ?_⟩
  intro j a b ha hb
  have hi : i < t.length := getElem?_lt_length t i p hp
  by_cases hji : i = j
  · subst hji
    rw [hp] at ha
    have hab : q = b := by simpa [List.getElem?_set, hi] using hb
    cases ha
    subst hab
    exact h
  · have hb1 : t[j]? = some b := by simpa [List.getElem?_set, hji] using hb
    rw [ha] at hb1
    cases hb1
    exact Or.inl rfl

theorem conforms_wakeup (pol : Policy) (ticks : Int) (me chan : Ptr) (t : Table) :
    Conforms t (wakeup pol ticks me chan t) := by
  refine ⟨wakeup_length pol ticks me chan t, ?_⟩
  intro i p q hp hq
  rw [wakeup_getElem?, hp] at hq
  simp only [Option.map, Option.some.injEq] at hq
  subst hq
  rcases (wakeSlot_spec pol ticks me chan i p).2.2 with ⟨h1, _⟩ | ⟨h1, _, h3, _⟩
  · exact Or.inl h1
  · right; rw [h1, h3]; rfl

theorem conforms_reparent (pol : Policy) (ticks : Int) (me initproc p : Ptr) (t : Table) :
    Conforms t (reparent pol ticks me initproc p t) := by
  obtain ⟨hl, hpt⟩ := reparentLoop_spec pol ticks me initproc p t.length 0 t (Nat.zero_add _)
  refine ⟨hl, ?_⟩
  intro i a b ha hb
  obtain ⟨q1, hq1, _, _, hk⟩ := hpt i a ha
  have hb1 : (reparent pol ticks me initproc p t)[i]? = some q1 := hq1
  rw [hb] at hb1
  cases hb1
  rcases hk with ⟨h1, _⟩ | ⟨h1, _, h3, _⟩
  · exact Or.inl h1
  · right; rw [h1, h3]; rfl

theorem conforms_yield (caller : Nat) (t : Table) (h : IsRunning caller t) :
    Conforms t (yield caller t) := by
  obtain ⟨p, hp, hst⟩ := h
  unfold yield
  rw [hp]
  exact conforms_set t caller p _ hp (Or.inr (by rw [hst]; rfl))

theorem conforms_sleep (pol : Policy) (ticks : Int) (caller : Nat) (chan : Ptr) (t : Table)
    (h : IsRunning caller t) : Conforms t (sleep pol ticks caller chan t) := by
  obtain ⟨p, hp, hst⟩ := h
  unfold sleep
  rw [hp]
  exact conforms_set t caller p _ hp (Or.inr (by rw [hst]; rfl))

theorem conforms_dispatch (pol : Policy) (ticks : Int) (i : Nat) (t : Table) :
    Conforms t (dispatch pol ticks i t) := by
  unfold dispatch
  cases hp : t[i]? with
  | none => exact conforms_refl t
  | some p =>
      by_cases hst : p.state = procstate.RUNNABLE
      · simp only [hst, if_true]
        exact conforms_set t i p _ hp (Or.inr (by rw [hst]; rfl))
      · simp only [hst, if_false]
        exact conforms_refl t

theorem conforms_kill (pid : Int) (t : Table) : Conforms t (kill pid t).2 := by
  rcases kill_proc_cases pid t with h | ⟨k, p, hk, h⟩
  · rw [h]; exact conforms_refl t
  · rw [h]
    apply conforms_set t k p _ hk
    by_cases hs : p.state = procstate.SLEEPING
    · right; simp only [hs, if_true]; rfl
    · left; simp only [hs, if_false]

theorem conforms_wait_cases (pol : Policy) (ticks : Int) (p : Nat) (t t1 : Table)
    (hrun : IsRunning p t)
    (h : t1 = t ∨ t1 = sleep pol ticks p (Ptr.slot p) t ∨
      ∃ (k : Nat) (c : Proc), t[k]? = some c ∧ c.state = procstate.ZOMBIE ∧
        t1 = t.set k (freeproc c)) : Conforms t t1 := by
  rcases h with h | h | ⟨k, c, hk, hz, h⟩
  · rw [h]; exact conforms_refl t
  · rw [h]; exact conforms_sleep pol ticks p (Ptr.slot p) t hrun
  · rw [h]
    exact conforms_set t k c _ hk (Or.inr (by rw [hz]; rfl))

theorem conforms_allocproc (pol : Policy) (ticks : Int) (tf pt : Nat) (nextpid : Int)
    (t : Table) :
    Conforms t (allocproc pol ticks tf pt nextpid t).found ∧
    Conforms (allocproc pol ticks tf pt nextpid t).found
      (allocproc pol ticks tf pt nextpid t).proc ∧
    ∀ k, (allocproc pol ticks tf pt nextpid t).slot = some k →
      ∃ q, (allocproc pol ticks tf pt nextpid t).proc[k]? = some q ∧
        q.state = procstate.USED := by
  rcases allocproc_cases pol ticks tf pt nextpid t with ⟨h1, h2, h3⟩ | ⟨k, p, hk, hst, hf, hrest⟩
  · rw [h1, h2, h3]
    exact ⟨conforms_refl t, conforms_refl t, fun k hk => by cases hk⟩
  · have hlt : k < t.length := getElem?_lt_length t k p hk
    have hfk : (t.set k (allocFound nextpid p))[k]? = some (allocFound nextpid p) := by
      simp [List.getElem?_set, hlt]
    rw [hf]
    refine ⟨conforms_set t k p _ hk (Or.inr (by rw [hst]; rfl)), ?_, ?_⟩
    · rcases hrest with ⟨q, hq, _, hproc⟩ | ⟨_, hproc⟩
      · rw [hproc]
        have := conforms_set (t.set k (allocFound nextpid p)) k (allocFound nextpid p) q hfk
          (Or.inl (allocAttach_spec pol ticks tf pt _ q hq).1)
        rwa [List.set_set] at this
      · rw [hproc]
        have := conforms_set (t.set k (allocFound nextpid p)) k (allocFound nextpid p)
          (freeproc (allocFound nextpid p)) hfk (Or.inr rfl)
        rwa [List.set_set] at this
    · intro k1 hk1
      rcases hrest with ⟨q, hq, hslot, hproc⟩ | ⟨hslot, _⟩
      · rw [hslot] at hk1
        cases hk1
        rw [hproc]
        exact ⟨q, by simp [List.getElem?_set, hlt], (allocAttach_spec pol ticks tf pt _ q hq).1⟩
      · rw [hslot] at hk1; cases hk1

theorem conforms_userinit (pol : Policy) (ticks : Int) (tf pt : Nat) (nextpid : Int)
    (t : Table) (r : UserinitResult) (h : userinit pol ticks tf pt nextpid t = some r) :
    Conforms (allocproc pol ticks tf pt nextpid t).proc r.proc := by
  unfold userinit at h
  dsimp only at h
  cases hs : (allocproc pol ticks tf pt nextpid t).slot with
  | none => rw [hs] at h; cases h
  | some k =>
      rw [hs] at h
      obtain ⟨q, hq, hst⟩ := (conforms_allocproc pol ticks tf pt nextpid t).2.2 k hs
      dsimp only at h
      rw [hq] at h
      simp only [Option.some.injEq] at h
      subst h
      exact conforms_set _ k q _ hq (Or.inr (by rw [hst]; rfl))

theorem conforms_fork (pol : Policy) (ticks : Int) (tf pt : Nat) (copyOk : Bool)
    (nextpid : Int) (caller : Nat) (t : Table) :
    (fork pol ticks tf pt copyOk nextpid caller t).allocated =
      (allocproc pol ticks tf pt nextpid t).proc ∧
    Conforms (fork pol ticks tf pt copyOk nextpid caller t).allocated
      (fork pol ticks tf pt copyOk nextpid caller t).proc := by
  unfold fork
  dsimp only
  cases hs : (allocproc pol ticks tf pt nextpid t).slot with
  | none => exact ⟨rfl, conforms_refl _⟩
  | some k =>
      obtain ⟨q, hq, hst⟩ := (conforms_allocproc pol ticks tf pt nextpid t).2.2 k hs
      cases hc : t[caller]? with
      | none => exact ⟨rfl, conforms_refl _⟩
      | some p =>
          dsimp only
          rw [hq]
          dsimp only
          by_cases hcopy : copyOk = false
          · rw [if_pos hcopy]
            exact ⟨rfl, conforms_set _ k q _ hq (Or.inr (by rw [hst]; rfl))⟩
          · rw [if_neg hcopy]
            exact ⟨rfl, conforms_set _ k q _ hq (Or.inr (by rw [hst]; rfl))⟩

theorem conforms_exit (pol : Policy) (ticks : Int) (initproc : Ptr) (caller : Nat)
    (status : Int) (t out : Table) (hrun : IsRunning caller t)
    (h : exit pol ticks initproc caller status t = some out) :
    Conforms t (reparent pol ticks (Ptr.slot caller) initproc (Ptr.slot caller) t) ∧
    Conforms (reparent pol ticks (Ptr.slot caller) initproc (Ptr.slot caller) t)
      (wakeup pol ticks (Ptr.slot caller)
        (parentOf caller (reparent pol ticks (Ptr.slot caller) initproc (Ptr.slot caller) t))
        (reparent pol ticks (Ptr.slot caller) initproc (Ptr.slot caller) t)) ∧
    Conforms
      (wakeup pol ticks (Ptr.slot caller)
        (parentOf caller (reparent pol ticks (Ptr.slot caller) initproc (Ptr.slot caller) t))
        (reparent pol ticks (Ptr.slot caller) initproc (Ptr.slot caller) t)) out := by
  refine ⟨conforms_reparent _ _ _ _ _ _, conforms_wakeup _ _ _ _ _, ?_⟩
  unfold exit at h
  by_cases hinit : Ptr.slot caller = initproc
  · rw [if_pos hinit] at h; cases h
  · rw [if_neg hinit] at h
    simp only [Option.some.injEq] at h
    subst h
    obtain ⟨p, hp, hst⟩ := hrun
    -- the caller is skipped by every wakeup, so it is still RUNNING
    obtain ⟨_, hpt⟩ := reparentLoop_spec pol ticks (Ptr.slot caller) initproc (Ptr.slot caller)
      t.length 0 t (Nat.zero_add _)
    obtain ⟨q1, hq1, _, _, hk1⟩ := hpt caller p hp
    have hq1r : (reparent pol ticks (Ptr.slot caller) initproc (Ptr.slot caller) t)[caller]? =
        some q1 := hq1
    have hs1 : q1.state = procstate.RUNNING := by
      rcases hk1 with ⟨h1, _⟩ | ⟨h1, _⟩
      · rw [h1, hst]
      · rw [hst] at h1; cases h1
    have hw : (wakeup pol ticks (Ptr.slot caller)
        (parentOf caller (reparent pol ticks (Ptr.slot caller) initproc (Ptr.slot caller) t))
        (reparent pol ticks (Ptr.slot caller) initproc (Ptr.slot caller) t))[caller]? =
        some q1 := by
      rw [wakeup_getElem?, hq1r]
      simp [wakeSlot]
    unfold exitMark
    rw [hw]
    exact conforms_set _ caller q1 _ hw (Or.inr (by rw [hs1]; rfl))

/-- C16: every operation changes slot states only along the nine transitions of the
state machine.  For each operation the tables before and after each of its phases
are compared slot by slot: `allocproc` (the write `state = USED`, then the attach or
the `freeproc` on failure), `userinit` and `fork` (after `allocproc`: RUNNABLE, or
`freeproc` when the copy fails), one pass of `wait` and of `waitx` (the `freeproc`
of a ZOMBIE child, or the caller's sleep), the scheduler's dispatch, `yield`,
`sleep`, `wakeup`, `kill`, and `exit` (`reparent` with its wakeups, the wakeup of the
parent, then ZOMBIE); `yield`, `sleep`, `exit` and a sleeping `wait` are taken to be
called by a process whose slot is RUNNING. -/
theorem state_machine_conformance (pol : Policy) (ticks : Int) (tbl : Table) :
    (∀ (tf pt : Nat) (nextpid : Int),
      Conforms tbl (allocproc pol ticks tf pt nextpid tbl).found ∧
      Conforms (allocproc pol ticks tf pt nextpid tbl).found
        (allocproc pol ticks tf pt nextpid tbl).proc) ∧
    (∀ (tf pt : Nat) (nextpid : Int) (r : UserinitResult),
      userinit pol ticks tf pt nextpid tbl = some r →
      Conforms (allocproc pol ticks tf pt nextpid tbl).proc r.proc) ∧
    (∀ (tf pt : Nat) (copyOk : Bool) (nextpid : Int) (caller : Nat),
      (fork pol ticks tf pt copyOk nextpid caller tbl).allocated =
        (allocproc pol ticks tf pt nextpid tbl).proc ∧
      Conforms (fork pol ticks tf pt copyOk nextpid caller tbl).allocated
        (fork pol ticks tf pt copyOk nextpid caller tbl).proc) ∧
    (∀ (copyok : Nat → Nat → Bool) (p addr : Nat) (out : List (Nat × Int)),
      IsRunning p tbl → Conforms tbl (wait pol ticks copyok p addr tbl out).proc) ∧
    (∀ (copyok : Nat → Nat → Bool) (p addr : Nat) (out : List (Nat × Int)) (rt wt : Int),
      IsRunning p tbl → Conforms tbl (waitx pol ticks copyok p addr tbl out rt wt).proc) ∧
    (∀ i : Nat, Conforms tbl (dispatch pol ticks i tbl)) ∧
    (∀ caller : Nat, IsRunning caller tbl → Conforms tbl (yield caller tbl)) ∧
    (∀ (caller : Nat) (chan : Ptr), IsRunning caller tbl →
      Conforms tbl (sleep pol ticks caller chan tbl)) ∧
    (∀ me chan : Ptr, Conforms tbl (wakeup pol ticks me chan tbl)) ∧
    (∀ pid : Int, Conforms tbl (kill pid tbl).2) ∧
    (∀ (initproc : Ptr) (caller : Nat) (status : Int) (out : Table),
      IsRunning caller tbl → exit pol ticks initproc caller status tbl = some out →
      Conforms tbl (reparent pol ticks (Ptr.slot caller) initproc (Ptr.slot caller) tbl) ∧
      Conforms (reparent pol ticks (Ptr.slot caller) initproc (Ptr.slot caller) tbl)
        (wakeup pol ticks (Ptr.slot caller)
          (parentOf caller
            (reparent pol ticks (Ptr.slot caller) initproc (Ptr.slot caller) tbl))
          (reparent pol ticks (Ptr.slot caller) initproc (Ptr.slot caller) tbl)) ∧
      Conforms
        (wakeup pol ticks (Ptr.slot caller)
          (parentOf caller
            (reparent pol ticks (Ptr.slot caller) initproc (Ptr.slot caller) tbl))
          (reparent pol ticks (Ptr.slot caller) initproc (Ptr.slot caller) tbl)) out) := by
  refine ⟨?_, ?_, ?_, ?_, ?_, ?_, ?_, ?_, ?_, ?_, ?_⟩
  · intro tf pt nextpid
    exact ⟨(conforms_allocproc pol ticks tf pt nextpid tbl).1,
      (conforms_allocproc pol ticks tf pt nextpid tbl).2.1⟩
  · intro tf pt nextpid r h
    exact conforms_userinit pol ticks tf pt nextpid tbl r h
  · intro tf pt copyOk nextpid caller
    exact conforms_fork pol ticks tf pt copyOk nextpid caller tbl
  · intro copyok p addr out hrun
    exact conforms_wait_cases pol ticks p tbl _ hrun (wait_proc_cases pol ticks copyok p addr tbl out)
  · intro copyok p addr out rt wt hrun
    exact conforms_wait_cases pol ticks p tbl _ hrun
      (waitx_proc_cases pol ticks copyok p addr tbl out rt wt)
  · intro i; exact conforms_dispatch pol ticks i tbl
  · intro caller h; exact conforms_yield caller tbl h
  · intro caller chan h; exact conforms_sleep pol ticks caller chan tbl h
  · intro me chan; exact conforms_wakeup pol ticks me chan tbl
  · intro pid; exact conforms_kill pid tbl
  · intro initproc caller status out hrun h
    exact conforms_exit pol ticks initproc caller status tbl out hrun h

/-- C16 on scenario S2: A (slot 1) is RUNNING, its sleep conforms, and so do the
three phases of its exit; a jump from UNUSED to RUNNING is not among the
transitions. -/
theorem state_machine_conformance_witness :
    IsRunning 1 orphanTable ∧
    Conforms orphanTable (sleep Policy.DEFAULT 9 1 (Ptr.addr 5) orphanTable) ∧
    (∃ out, exit Policy.DEFAULT 9 (Ptr.slot 0) 1 7 orphanTable = some out ∧
      Conforms
        (wakeup Policy.DEFAULT 9 (Ptr.slot 1)
          (parentOf 1 (reparent Policy.DEFAULT 9 (Ptr.slot 1) (Ptr.slot 0) (Ptr.slot 1)
            orphanTable))
          (reparent Policy.DEFAULT 9 (Ptr.slot 1) (Ptr.slot 0) (Ptr.slot 1) orphanTable))
        out) ∧
    allowedTransition procstate.UNUSED procstate.RUNNING = false := by
  have hrun : IsRunning 1 orphanTable := ⟨_, rfl, rfl⟩
  have hex : exit Policy.DEFAULT 9 (Ptr.slot 0) 1 7 orphanTable =
      some (exitMark 9 1 7
        (wakeup Policy.DEFAULT 9 (Ptr.slot 1)
          (parentOf 1 (reparent Policy.DEFAULT 9 (Ptr.slot 1) (Ptr.slot 0) (Ptr.slot 1)
            orphanTable))
          (reparent Policy.DEFAULT 9 (Ptr.slot 1) (Ptr.slot 0) (Ptr.slot 1) orphanTable))) := by
    decide
  refine ⟨hrun, ?_, ⟨_, hex, ?_⟩, rfl⟩
  · exact (state_machine_conformance Policy.DEFAULT 9 orphanTable).2.2.2.2.2.2.2.1 1
      (Ptr.addr 5) hrun
  · exact ((state_machine_conformance Policy.DEFAULT 9 orphanTable).2.2.2.2.2.2.2.2.2.2
      (Ptr.slot 0) 1 7 _ hrun hex).2.2

/-! ## The channel invariant -/

theorem chanInv_set (t : Table) (i : Nat) (q : Proc) (h : ChanInv t)
    (hq : q.state = procstate.SLEEPING → q.chan ≠ Ptr.null) : ChanInv (t.set i q) := by
  intro a ha
  rcases List.mem_or_eq_of_mem_set ha with h1 | h1
  · exact h a h1
  · rw [h1]; exact hq

theorem chanInv_wakeup (pol : Policy) (ticks : Int) (me chan : Ptr) (t : Table)
    (h : ChanInv t) : ChanInv (wakeup pol ticks me chan t) := by
  intro a ha hs
  obtain ⟨j, hj⟩ := List.mem_iff_getElem?.mp ha
  rw [wakeup_getElem?] at hj
  cases hp : t[j]? with
  | none => rw [hp] at hj; cases hj
  | some p =>
      rw [hp] at hj
      simp only [Option.map, Option.some.injEq] at hj
      subst hj
      obtain ⟨_, hsame, hk⟩ := wakeSlot_spec pol ticks me chan j p
      have hc : (wakeSlot pol ticks me chan j p).chan = p.chan := by
        have := congrArg Proc.chan hsame; simpa using this
      rcases hk with ⟨h1, _⟩ | ⟨_, _, h3, _⟩
      · rw [hc]; exact h p (List.getElem?_mem hp) (by rw [← h1]; exact hs)
      · rw [h3] at hs; cases hs

theorem chanInv_reparent (pol : Policy) (ticks : Int) (me initproc p : Ptr) (t : Table)
    (h : ChanInv t) : ChanInv (reparent pol ticks me initproc p t) := by
  obtain ⟨hl, hpt⟩ := reparentLoop_spec pol ticks me initproc p t.length 0 t (Nat.zero_add _)
  intro a ha hs
  obtain ⟨j, hj⟩ := List.mem_iff_getElem?.mp ha
  have hjlt : j < t.length := by
    have := getElem?_lt_length _ j a hj
    have hl1 : (reparent pol ticks me initproc p t).length = t.length := hl
    omega
  obtain ⟨q1, hq1, _, hsame, hk⟩ := hpt j t[j] (List.getElem?_eq_getElem hjlt)
  have hq1r : (reparent pol ticks me initproc p t)[j]? = some q1 := hq1
  rw [hj] at hq1r
  cases hq1r
  have hc : a.chan = (t[j]).chan := by
    have := congrArg Proc.chan hsame; simpa using this
  rcases hk with ⟨h1, _⟩ | ⟨_, _, h3, _⟩
  · rw [hc]
    exact h t[j] (List.getElem_mem _) (by rw [← h1]; exact hs)
  · rw [h3] at hs; cases hs

theorem chanInv_sleep (pol : Policy) (ticks : Int) (caller : Nat) (chan : Ptr) (t : Table)
    (hchan : chan ≠ Ptr.null) (h : ChanInv t) : ChanInv (sleep pol ticks caller chan t) := by
  unfold sleep
  cases hp : t[caller]? with
  | none => exact h
  | some p => exact chanInv_set t caller _ h (fun _ => hchan)

theorem chanInv_wait_cases (pol : Policy) (ticks : Int) (p : Nat) (t t1 : Table)
    (h : ChanInv t)
    (hc : t1 = t ∨ t1 = sleep pol ticks p (Ptr.slot p) t ∨
      ∃ (k : Nat) (c : Proc), t[k]? = some c ∧ c.state = procstate.ZOMBIE ∧
        t1 = t.set k (freeproc c)) : ChanInv t1 := by
  rcases hc with hc | hc | ⟨k, c, _, _, hc⟩
  · rw [hc]; exact h
  · rw [hc]; exact chanInv_sleep pol ticks p (Ptr.slot p) t (by intro hn; cases hn) h
  · rw [hc]; exact chanInv_set t k _ h (fun hs => by cases hs)

theorem chanInv_allocproc (pol : Policy) (ticks : Int) (tf pt : Nat) (nextpid : Int)
    (t : Table) (h : ChanInv t) : ChanInv (allocproc pol ticks tf pt nextpid t).proc := by
  rcases allocproc_cases pol ticks tf pt nextpid t with ⟨_, _, h3⟩ | ⟨k, p, hk, hst, _, hrest⟩
  · rw [h3]; exact h
  · rcases hrest with ⟨q, hq, _, hproc⟩ | ⟨_, hproc⟩
    · rw [hproc]
      apply chanInv_set t k q h
      intro hs
      have := (allocAttach_spec pol ticks tf pt _ q hq).1
      rw [hs] at this
      cases this
    · rw [hproc]
      exact chanInv_set t k _ h (fun hs => by cases hs)

theorem chanInv_step (pol : Policy) (t t1 : Table) (hstep : KernelStep pol t t1)
    (h : ChanInv t) : ChanInv t1 := by
  cases hstep with
  | userinit ticks tf pt nextpid _ r hr =>
      have ha := chanInv_allocproc pol ticks tf pt nextpid t h
      unfold userinit at hr
      dsimp only at hr
      cases hs : (allocproc pol ticks tf pt nextpid t).slot with
      | none => rw [hs] at hr; cases hr
      | some k =>
          rw [hs] at hr
          dsimp only at hr
          cases hq : (allocproc pol ticks tf pt nextpid t).proc[k]? with
          | none => rw [hq] at hr; cases hr
          | some q =>
              rw [hq] at hr
              simp only [Option.some.injEq] at hr
              subst hr
              exact chanInv_set _ k _ ha (fun hs => by cases hs)
  | fork ticks tf pt copyOk nextpid caller =>
      have ha := chanInv_allocproc pol ticks tf pt nextpid t h
      unfold fork
      dsimp only
      cases hs : (allocproc pol ticks tf pt nextpid t).slot with
      | none => exact ha
      | some k =>
          cases hc : t[caller]? with
          | none => exact ha
          | some p =>
              dsimp only
              cases hq : (allocproc pol ticks tf pt nextpid t).proc[k]? with
              | none => exact ha
              | some q =>
                  dsimp only
                  by_cases hcopy : copyOk = false
                  · rw [if_pos hcopy]
                    exact chanInv_set _ k _ ha (fun hs => by cases hs)
                  · rw [if_neg hcopy]
                    exact chanInv_set _ k _ ha (fun hs => by cases hs)
  | dispatch ticks i =>
      unfold dispatch
      cases hp : t[i]? with
      | none => exact h
      | some p =>
          by_cases hst : p.state = procstate.RUNNABLE
          · simp only [hst, if_true]
            exact chanInv_set t i _ h (fun hs => by cases hs)
          · simp only [hst, if_false]
            exact h
  | yield caller =>
      unfold yield
      cases hp : t[caller]? with
      | none => exact h
      | some p => exact chanInv_set t caller _ h (fun hs => by cases hs)
  | sleep ticks caller chan _ hchan => exact chanInv_sleep pol ticks caller chan t hchan h
  | sleepResume caller _ hrun =>
      obtain ⟨p, hp, hst⟩ := hrun
      unfold sleepResume
      rw [hp]
      apply chanInv_set t caller _ h
      intro hs
      have hs1 : p.state = procstate.SLEEPING := hs
      rw [hst] at hs1
      cases hs1
  | wakeup ticks me chan => exact chanInv_wakeup pol ticks me chan t h
  | kill pid =>
      rcases kill_proc_cases pid t with hk | ⟨k, p, hk, hkill⟩
      · rw [hk]; exact h
      · rw [hkill]
        apply chanInv_set t k _ h
        intro hs
        have hs1 : (if p.state = procstate.SLEEPING then procstate.RUNNABLE else p.state) =
            procstate.SLEEPING := hs
        by_cases hp : p.state = procstate.SLEEPING
        · rw [if_pos hp] at hs1; cases hs1
        · rw [if_neg hp] at hs1; exact absurd hs1 hp
  | exit ticks initproc caller status _ _ hexit =>
      unfold exit at hexit
      by_cases hinit : Ptr.slot caller = initproc
      · rw [if_pos hinit] at hexit; cases hexit
      · rw [if_neg hinit] at hexit
        simp only [Option.some.injEq] at hexit
        subst hexit
        have h2 := chanInv_wakeup pol ticks (Ptr.slot caller)
          (parentOf caller (reparent pol ticks (Ptr.slot caller) initproc (Ptr.slot caller) t))
          _ (chanInv_reparent pol ticks (Ptr.slot caller) initproc (Ptr.slot caller) t h)
        unfold exitMark
        split
        · exact chanInv_set _ caller _ h2 (fun hs => by cases hs)
        · exact h2
  | wait ticks copyok p addr out =>
      exact chanInv_wait_cases pol ticks p t _ h (wait_proc_cases pol ticks copyok p addr t out)
  | waitx ticks copyok p addr out rt wt =>
      exact chanInv_wait_cases pol ticks p t _ h
        (waitx_proc_cases pol ticks copyok p addr t out rt wt)

theorem asleepTable_reachable :
    Relation.ReflTransGen (KernelStep Policy.DEFAULT) (initTable 2) asleepTable := by
  have hu : ∃ r, userinit Policy.DEFAULT 0 1 1 1 (initTable 2) = some r :=
    Option.isSome_iff_exists.mp (by decide)
  obtain ⟨r, hr⟩ := hu
  have heq : asleepTable =
      sleep Policy.DEFAULT 3 0 (Ptr.addr 99) (dispatch Policy.DEFAULT 1 0 r.proc) := by
    unfold asleepTable; rw [hr]
  rw [heq]
  exact ((Relation.ReflTransGen.single (KernelStep.userinit 0 1 1 1 (initTable 2) r hr)).tail
    (KernelStep.dispatch 1 0 r.proc)).tail
    (KernelStep.sleep 3 0 (Ptr.addr 99) _ (by intro hn; cases hn))

/-- C15 (as the code has it): the table `wokenTable` is reached from the initial
two-slot table by `userinit`, the dispatch of slot 0, `sleep` on a channel and
`wakeup` on that channel; its slot 0 is RUNNABLE and still carries the channel, so
"SLEEPING if and only if chan != 0" fails there. -/
theorem channel_iff_counterexample :
    Relation.ReflTransGen (KernelStep Policy.DEFAULT) (initTable 2) wokenTable ∧
    wokenTable.map (fun q => (q.state, q.chan)) =
      [(procstate.RUNNABLE, Ptr.addr 99), (procstate.UNUSED, Ptr.null)] ∧
    ¬ ChanIff wokenTable := by
  refine ⟨asleepTable_reachable.tail (KernelStep.wakeup 5 Ptr.null (Ptr.addr 99) asleepTable),
    by decide, ?_⟩
  intro hiff
  have h0 : wokenTable[0]? = some
      { Proc.zero with
        state := procstate.RUNNABLE, chan := Ptr.addr 99, pid := 1, sz := 4096,
        pagetable := 1, trapframe := 1, name := [105, 110, 105, 116, 99, 111, 100, 101, 0],
        noOfTimesGotCpu := 1 } := by decide
  have := (hiff _ (List.getElem?_mem h0)).2 (by decide)
  cases this

/-- C15 (amended): in every table reached from the initial table (all slots UNUSED)
by process creation, dispatch, `yield`, `sleep` on a non-null channel, the sleeper's
resumption, `wakeup`, `kill`, `exit` and passes of `wait` and `waitx`, every SLEEPING
slot has a non-null channel. -/
theorem sleeping_slot_has_channel (pol : Policy) (n : Nat) (t : Table)
    (h : Relation.ReflTransGen (KernelStep pol) (initTable n) t) : ChanInv t := by
  induction h with
  | refl =>
      intro q hq hs
      have : q = Proc.zero := List.eq_of_mem_replicate hq
      rw [this] at hs
      cases hs
  | tail _ hstep ih => exact chanInv_step pol _ _ hstep ih

/-- C15 (amended) on `asleepTable`: slot 0 is SLEEPING on the channel at address 99. -/
theorem sleeping_slot_has_channel_witness :
    Relation.ReflTransGen (KernelStep Policy.DEFAULT) (initTable 2) asleepTable ∧
    asleepTable.map (fun q => (q.state, q.chan)) =
      [(procstate.SLEEPING, Ptr.addr 99), (procstate.UNUSED, Ptr.null)] ∧
    ChanInv asleepTable :=
  ⟨asleepTable_reachable, by decide,
    sleeping_slot_has_channel Policy.DEFAULT 2 asleepTable asleepTable_reachable⟩

/-! ## The range of the static priority -/

theorem toInt32_toU64_of_range (x : Int) (h : 0 ≤ x ∧ x ≤ 100) : toInt32 (toU64 x) = x := by
  have hu : toU64 x = x.toNat := by
    unfold toU64
    congr 1
    omega
  rw [hu]
  unfold toInt32
  have hm : x.toNat % 4294967296 = x.toNat := Nat.mod_eq_of_lt (by omega)
  rw [hm, if_pos (by omega)]
  omega

theorem mem_yield (caller : Nat) (t : Table) (q : Proc) (h : q ∈ yield caller t) :
    q ∈ t ∨ ∃ p ∈ t, q = { p with state := procstate.RUNNABLE } := by
  unfold yield at h
  cases hp : t[caller]? with
  | none => rw [hp] at h; exact Or.inl h
  | some p =>
      rw [hp] at h
      rcases List.mem_or_eq_of_mem_set h with h1 | h1
      · exact Or.inl h1
      · exact Or.inr ⟨p, List.getElem?_mem hp, h1⟩

theorem prioRange_step (t t1 : Table)
    (hstep : PrioStep (fun x => 0 ≤ x ∧ x ≤ 100) t t1)
    (h : ∀ q ∈ t, 0 ≤ q.staticPriority ∧ q.staticPriority ≤ 100) :
    ∀ q ∈ t1, 0 ≤ q.staticPriority ∧ q.staticPriority ≤ 100 := by
  cases hstep with
  | alloc ticks tf pt nextpid =>
      rcases allocproc_cases Policy.PBS ticks tf pt nextpid t with
        ⟨_, _, h3⟩ | ⟨k, p, hk, _, _, hrest⟩
      · rw [h3]; exact h
      · have hp := h p (List.getElem?_mem hk)
        rcases hrest with ⟨q, hq, _, hproc⟩ | ⟨_, hproc⟩
        · rw [hproc]
          intro a ha
          rcases List.mem_or_eq_of_mem_set ha with h1 | h1
          · exact h a h1
          · rw [h1, (allocAttach_spec Policy.PBS ticks tf pt _ q hq).2.2]
            simp only [if_true, DEFAULT_STATIC_PRIORITY]
            omega
        · rw [hproc]
          intro a ha
          rcases List.mem_or_eq_of_mem_set ha with h1 | h1
          · exact h a h1
          · rw [h1]; exact hp
  | setPriority caller priority pid _ hok =>
      have hstore : toInt32 (toU64 priority) = priority := toInt32_toU64_of_range priority hok
      unfold sys_set_priority
      rcases set_priority_proc_cases Policy.PBS caller (toU64 priority) (toU64 pid) t with
        hc | ⟨k, p, hk, hc | hc⟩
      · rw [hc]; exact h
      · rw [hc]
        intro a ha
        rcases List.mem_or_eq_of_mem_set ha with h1 | h1
        · exact h a h1
        · rw [h1]
          show 0 ≤ toInt32 (toU64 priority) ∧ toInt32 (toU64 priority) ≤ 100
          rw [hstore]; exact hok
      · rw [hc]
        have hin : ∀ b ∈ t.set k
            { p with staticPriority := toInt32 (toU64 priority), cpuRunTime := 0, sleepTime := 0 },
            0 ≤ b.staticPriority ∧ b.staticPriority ≤ 100 := by
          intro b hb
          rcases List.mem_or_eq_of_mem_set hb with h1 | h1
          · exact h b h1
          · rw [h1]
            show 0 ≤ toInt32 (toU64 priority) ∧ toInt32 (toU64 priority) ≤ 100
            rw [hstore]; exact hok
        intro a ha
        rcases mem_yield caller _ a ha with h1 | ⟨b, hb, h1⟩
        · exact hin a h1
        · rw [h1]; exact hin b hb

/-- C17 (as the code has it): after one `allocproc` under PBS and the system call
`set_priority(150, 1)` the in-use slot 0 holds static priority 150, and after
`set_priority(-5, 1)` it holds -5: the stored value is the argument, unclamped. -/
theorem static_priority_range_counterexample :
    Relation.ReflTransGen (PrioStep (fun _ => True)) (initTable 2) (prioTable 150) ∧
    (prioTable 150).map (fun q => (q.state, q.pid, q.staticPriority)) =
      [(procstate.USED, 1, 150), (procstate.UNUSED, 0, 0)] ∧
    ¬ PrioInv (prioTable 150) ∧
    Relation.ReflTransGen (PrioStep (fun _ => True)) (initTable 2) (prioTable (-5)) ∧
    (prioTable (-5)).map (fun q => (q.state, q.pid, q.staticPriority)) =
      [(procstate.USED, 1, -5), (procstate.UNUSED, 0, 0)] ∧
    ¬ PrioInv (prioTable (-5)) := by
  have hreach : ∀ x : Int,
      Relation.ReflTransGen (PrioStep (fun _ => True)) (initTable 2) (prioTable x) := fun x =>
    (Relation.ReflTransGen.single (PrioStep.alloc 0 1 1 1 (initTable 2))).tail
      (PrioStep.setPriority 0 x 1 _ trivial)
  have hmem : ∀ (x : Int) (q : Proc), (prioTable x)[0]? = some q → q ∈ prioTable x :=
    fun x q hq => List.getElem?_mem hq
  refine ⟨hreach 150, by decide, ?_, hreach (-5), by decide, ?_⟩
  · intro hinv
    have h0 : ((prioTable 150)[0]?).map (fun q => (q.state, q.staticPriority)) =
        some (procstate.USED, 150) := by decide
    cases hq : (prioTable 150)[0]? with
    | none => rw [hq] at h0; cases h0
    | some q =>
        rw [hq] at h0
        simp only [Option.map, Option.some.injEq, Prod.mk.injEq] at h0
        have := hinv q (hmem 150 q hq) (by rw [h0.1]; decide)
        rw [h0.2] at this
        omega
  · intro hinv
    have h0 : ((prioTable (-5))[0]?).map (fun q => (q.state, q.staticPriority)) =
        some (procstate.USED, -5) := by decide
    cases hq : (prioTable (-5))[0]? with
    | none => rw [hq] at h0; cases h0
    | some q =>
        rw [hq] at h0
        simp only [Option.map, Option.some.injEq, Prod.mk.injEq] at h0
        have := hinv q (hmem (-5) q hq) (by rw [h0.1]; decide)
        rw [h0.2] at this
        omega

/-- C17 (amended): under PBS, in every table reached from the initial table by
`allocproc` and by `set_priority` system calls whose priority argument lies in
0..100, every in-use slot (indeed every slot) has `staticPriority` within 0..100;
and a slot that `allocproc` returns holds the default 60. -/
theorem static_priority_range (n : Nat) (t : Table)
    (h : Relation.ReflTransGen (PrioStep (fun x => 0 ≤ x ∧ x ≤ 100)) (initTable n) t) :
    PrioInv t ∧ (∀ q ∈ t, 0 ≤ q.staticPriority ∧ q.staticPriority ≤ 100) ∧
    (∀ (ticks : Int) (tf pt : Nat) (nextpid : Int) (k : Nat),
      (allocproc Policy.PBS ticks tf pt nextpid t).slot = some k →
      ∃ q, (allocproc Policy.PBS ticks tf pt nextpid t).proc[k]? = some q ∧
        q.staticPriority = 60) := by
  have hall : ∀ q ∈ t, 0 ≤ q.staticPriority ∧ q.staticPriority ≤ 100 := by
    induction h with
    | refl =>
        intro q hq
        have : q = Proc.zero := List.eq_of_mem_replicate hq
        rw [this]
        decide
    | tail _ hstep ih => exact prioRange_step _ _ hstep ih
  refine ⟨fun q hq _ => hall q hq, hall, ?_⟩
  intro ticks tf pt nextpid k hslot
  rcases allocproc_cases Policy.PBS ticks tf pt nextpid t with
    ⟨h1, _, _⟩ | ⟨k1, p, hk, _, _, hrest⟩
  · rw [h1] at hslot; cases hslot
  · rcases hrest with ⟨q, hq, hs, hproc⟩ | ⟨hs, _⟩
    · rw [hs] at hslot
      cases hslot
      rw [hproc]
      refine ⟨q, by simp [List.getElem?_set, getElem?_lt_length t _ p hk], ?_⟩
      rw [(allocAttach_spec Policy.PBS ticks tf pt _ q hq).2.2]
      rfl
    · rw [hs] at hslot; cases hslot

/-- C17 (amended) on the table reached by one `allocproc` and `set_priority(70, 1)`. -/
theorem static_priority_range_witness :
    (prioTable 70).map (fun q => (q.state, q.pid, q.staticPriority)) =
      [(procstate.USED, 1, 70), (procstate.UNUSED, 0, 0)] ∧
    PrioInv (prioTable 70) :=
  ⟨by decide,
    (static_priority_range 2 (prioTable 70)
      ((Relation.ReflTransGen.single (PrioStep.alloc 0 1 1 1 (initTable 2))).tail
        (PrioStep.setPriority 0 70 1 _ (by decide)))).1⟩

/-! ## sleep followed by wakeup, as sequential steps -/

/-- In the sequential model, a `wakeup(c)` issued by anyone but the sleeper after the
sleeper's `sleep(c, lk)` has reached its hand-off finds the slot SLEEPING on `c` and
makes it RUNNABLE.  (The interleavings of the two calls on different CPUs are the
subject of the next section.) -/
theorem wakeup_after_sleep (pol : Policy) (t1 t2 : Int) (a : Nat) (c me : Ptr) (tbl : Table)
    (p : Proc) (hp : tbl[a]? = some p) (hme : Ptr.slot a ≠ me) :
    ∃ q, (sleep pol t1 a c tbl)[a]? = some q ∧ q.state = procstate.SLEEPING ∧ q.chan = c ∧
      (wakeup pol t2 me c (sleep pol t1 a c tbl))[a]? =
        some (wakeSlot pol t2 me c a q) ∧
      (wakeSlot pol t2 me c a q).state = procstate.RUNNABLE := by
  have hlt : a < tbl.length := getElem?_lt_length tbl a p hp
  have hs : (sleep pol t1 a c tbl)[a]? =
      some { p with
        chan := c
        state := procstate.SLEEPING
        sleepStartTime := if pol = Policy.PBS then t1 else p.sleepStartTime } := by
    unfold sleep
    rw [hp]
    simp [List.getElem?_set, hlt]
  refine ⟨_, hs, rfl, rfl, by rw [wakeup_getElem?, hs]; rfl, ?_⟩
  unfold wakeSlot
  rw [if_pos hme, if_pos ⟨rfl, rfl⟩]

/-! ## sleep and wakeup interleaved on two CPUs -/

theorem run_append (k : SleepWakeup) (o1 o2 : List Cpu) (s : TwoCpu) :
    run k (o1 ++ o2) s = run k o2 (run k o1 s) := by
  induction o1 generalizing s with
  | nil => rfl
  | cons c o1 ih => exact ih _

theorem serialState_succ_A (k : SleepWakeup) (p : Proc) (i : Nat) :
    turn k Cpu.A (serialState k p i 0) = serialState k p (i + 1) 0 := by
  simp only [serialState, List.replicate_zero, List.append_nil]
  rw [List.replicate_succ', run_append]
  rfl

theorem serialState_succ_B (k : SleepWakeup) (p : Proc) (i j : Nat) :
    turn k Cpu.B (serialState k p i j) = serialState k p i (j + 1) := by
  simp only [serialState]
  rw [List.replicate_succ', ← List.append_assoc, run_append _ _ [Cpu.B]]
  rfl

/-- While CPU A has lines left, a turn of CPU B makes no step: `lk` is still held, or
`p->lock` is held by CPU A. -/
theorem serialState_B_blocked (k : SleepWakeup) (p : Proc) (h : Ptr.slot k.a ≠ k.me)
    (i : Nat) (hi : i < 7) :
    turn k Cpu.B (serialState k p i 0) = serialState k p i 0 := by
  interval_cases i <;>
    simp [serialState, run, turn, execLine, sleepWakeupStart, sleepLines, wakeupLines, h]

theorem serialState_restA (k : SleepWakeup) (p : Proc) (i : Nat) (hi : i ≤ 7) :
    (serialState k p i 0).restA = sleepLines.drop i ∧
    (serialState k p i 0).restB = wakeupLines k.me k.a ∧
    (serialState k p i 0).seen = none := by
  interval_cases i <;> exact ⟨rfl, rfl, rfl⟩

theorem serialState_after_A (k : SleepWakeup) (p : Proc) (h : Ptr.slot k.a ≠ k.me)
    (j : Nat) (hj : j ≤ 3) :
    (serialState k p 7 j).restA = [] ∧
    (serialState k p 7 j).guardHeld = false ∧
    (serialState k p 7 j).restB =
      [Line.acquireSlotLock, Line.wakeTest, Line.releaseSlotLock].drop j ∧
    (2 ≤ j → (serialState k p 7 j).seen = some (procstate.SLEEPING, k.chan) ∧
      (serialState k p 7 j).slot.state = procstate.RUNNABLE ∧
      (serialState k p 7 j).slot.chan = k.chan) ∧
    (j < 2 → (serialState k p 7 j).seen = none ∧
      (serialState k p 7 j).slot.state = procstate.SLEEPING ∧
      (serialState k p 7 j).slot.chan = k.chan) := by
  interval_cases j <;>
    simp [serialState, run, turn, execLine, sleepWakeupStart, sleepLines, wakeupLines, h,
      wakeSlot]

/-- Every schedule of the two CPUs leads to a state that the serial schedule "CPU A
for `i` turns, then CPU B for `j` turns" leads to, and CPU B has made a step only if
CPU A has executed all seven of its lines. -/
theorem run_serial (k : SleepWakeup) (p : Proc) (h : Ptr.slot k.a ≠ k.me) (order : List Cpu) :
    ∀ i j, i ≤ 7 → j ≤ 3 → (j = 0 ∨ i = 7) →
      ∃ i1 j1, i1 ≤ 7 ∧ j1 ≤ 3 ∧ (j1 = 0 ∨ i1 = 7) ∧
        run k order (serialState k p i j) = serialState k p i1 j1 := by
  induction order with
  | nil => intro i j hi hj hij; exact ⟨i, j, hi, hj, hij, rfl⟩
  | cons c order ih =>
      intro i j hi hj hij
      have hstep : ∃ i1 j1, i1 ≤ 7 ∧ j1 ≤ 3 ∧ (j1 = 0 ∨ i1 = 7) ∧
          turn k c (serialState k p i j) = serialState k p i1 j1 := by
        cases c with
        | A =>
            by_cases h7 : i = 7
            · subst h7
              refine ⟨7, j, hi, hj, Or.inr rfl, ?_⟩
              have hA := (serialState_after_A k p h j hj).1
              simp only [turn, hA]
            · have hj0 : j = 0 := by omega
              subst hj0
              exact ⟨i + 1, 0, by omega, hj, Or.inl rfl, serialState_succ_A k p i⟩
        | B =>
            by_cases h7 : i = 7
            · subst h7
              by_cases h3 : j = 3
              · subst h3
                refine ⟨7, 3, hi, hj, Or.inr rfl, ?_⟩
                have hB := (serialState_after_A k p h 3 hj).2.2.1
                have hg := (serialState_after_A k p h 3 hj).2.1
                simp only [turn, hB, hg, List.drop_succ_cons, List.drop_nil, List.drop_zero]
                simp
              · exact ⟨7, j + 1, hi, by omega, Or.inr rfl, serialState_succ_B k p 7 j⟩
            · have hj0 : j = 0 := by omega
              subst hj0
              exact ⟨i, 0, hi, hj, Or.inl rfl, serialState_B_blocked k p h i (by omega)⟩
      obtain ⟨i1, j1, hi1, hj1, hij1, hturn⟩ := hstep
      simp only [run]
      rw [hturn]
      exact ih i1 j1 hi1 hj1 hij1

theorem run_A_turns (k : SleepWakeup) (p : Proc) (h : Ptr.slot k.a ≠ k.me) (n : Nat) :
    ∀ i j, i ≤ 7 → j ≤ 3 → (j = 0 ∨ i = 7) →
      ∃ i1, i ≤ i1 ∧ i1 ≤ 7 ∧ (7 ≤ i + n → i1 = 7) ∧
        run k (List.replicate n Cpu.A) (serialState k p i j) = serialState k p i1 j := by
  induction n with
  | zero => intro i j hi _ _; exact ⟨i, le_refl _, hi, fun h7 => by omega, rfl⟩
  | succ n ih =>
      intro i j hi hj hij
      by_cases h7 : i = 7
      · subst h7
        have hA := (serialState_after_A k p h j hj).1
        have hturn : turn k Cpu.A (serialState k p 7 j) = serialState k p 7 j := by
          simp only [turn, hA]
        obtain ⟨i1, h1, h2, _, h4⟩ := ih 7 j hi hj hij
        refine ⟨i1, h1, h2, fun _ => by omega, ?_⟩
        simp only [List.replicate_succ, run]
        rw [hturn]
        exact h4
      · have hj0 : j = 0 := by omega
        subst hj0
        obtain ⟨i1, h1, h2, h3, h4⟩ := ih (i + 1) 0 (by omega) hj (Or.inl rfl)
        refine ⟨i1, by omega, h2, fun _ => h3 (by omega), ?_⟩
        simp only [List.replicate_succ, run]
        rw [serialState_succ_A]
        exact h4

theorem run_B_turns (k : SleepWakeup) (p : Proc) (h : Ptr.slot k.a ≠ k.me) (n : Nat) :
    ∀ j, j ≤ 3 →
      ∃ j1, j ≤ j1 ∧ j1 ≤ 3 ∧ (3 ≤ j + n → j1 = 3) ∧
        run k (List.replicate n Cpu.B) (serialState k p 7 j) = serialState k p 7 j1 := by
  induction n with
  | zero => intro j hj; exact ⟨j, le_refl _, hj, fun h3 => by omega, rfl⟩
  | succ n ih =>
      intro j hj
      by_cases h3 : j = 3
      · subst h3
        have hB := (serialState_after_A k p h 3 hj).2.2.1
        have hg := (serialState_after_A k p h 3 hj).2.1
        have hturn : turn k Cpu.B (serialState k p 7 3) = serialState k p 7 3 := by
          simp only [turn, hB, hg, List.drop_succ_cons, List.drop_nil, List.drop_zero]
          simp
        obtain ⟨j1, h1, h2, _, h4⟩ := ih 3 hj
        refine ⟨j1, h1, h2, fun _ => by omega, ?_⟩
        simp only [List.replicate_succ, run]
        rw [hturn]
        exact h4
      · obtain ⟨j1, h1, h2, h3, h4⟩ := ih (j + 1) (by omega)
        refine ⟨j1, by omega, h2, fun _ => h3 (by omega), ?_⟩
        simp only [List.replicate_succ, run]
        rw [serialState_succ_B]
        exact h4

theorem run_completion (k : SleepWakeup) (p : Proc) (h : Ptr.slot k.a ≠ k.me) (i j : Nat)
    (hi : i ≤ 7) (hj : j ≤ 3) (hij : j = 0 ∨ i = 7) :
    (run k (List.replicate 7 Cpu.A ++ List.replicate 3 Cpu.B) (serialState k p i j)).restA = [] ∧
    (run k (List.replicate 7 Cpu.A ++ List.replicate 3 Cpu.B) (serialState k p i j)).restB = [] ∧
    (run k (List.replicate 7 Cpu.A ++ List.replicate 3 Cpu.B)
      (serialState k p i j)).slot.state = procstate.RUNNABLE := by
  obtain ⟨i1, _, _, hi1, hA⟩ := run_A_turns k p h 7 i j hi hj hij
  obtain rfl : i1 = 7 := hi1 (by omega)
  obtain ⟨j1, _, _, hj1, hB⟩ := run_B_turns k p h 3 j hj
  obtain rfl : j1 = 3 := hj1 (by omega)
  rw [run_append, hA, hB]
  obtain ⟨h1, _, h2, h3, _⟩ := serialState_after_A k p h 3 (le_refl _)
  exact ⟨h1, by simpa using h2, (h3 (by omega)).2.1⟩

/-- C13: no lost wakeup.  Two CPUs interleave, in any order, the lines of
`sleep(chan, lk)` executed by the process of slot `a` (with the release of `p->lock`
by the scheduler it switches to) and the lines `wakeup(chan)` executes for that
slot, the waker being another process and starting after the sleeper has released
`lk`.  In the state `s` any schedule leads to: while CPU A has a line left, a turn of
CPU B makes no step and `wakeup` has not started on the slot; the test of `wakeup`
has not been made or has read the slot SLEEPING on `chan`; once the test is made the
slot is RUNNABLE; a turn of CPU A executes a line as long as it has one, and a turn
of CPU B does once CPU A has none; and seven more turns of CPU A followed by three of
CPU B end with both CPUs done and the slot RUNNABLE. -/
theorem no_lost_wakeup (k : SleepWakeup) (p : Proc) (h : Ptr.slot k.a ≠ k.me)
    (order : List Cpu) :
    ∃ s, run k order (sleepWakeupStart k p) = s ∧
      (s.restA ≠ [] →
        turn k Cpu.B s = s ∧ s.restB = wakeupLines k.me k.a ∧ s.seen = none) ∧
      (s.seen = none ∨ s.seen = some (procstate.SLEEPING, k.chan)) ∧
      (s.restB.length ≤ 1 →
        s.seen = some (procstate.SLEEPING, k.chan) ∧ s.slot.state = procstate.RUNNABLE) ∧
      (s.restA ≠ [] → (turn k Cpu.A s).restA.length + 1 = s.restA.length) ∧
      (s.restA = [] → s.restB ≠ [] → (turn k Cpu.B s).restB.length + 1 = s.restB.length) ∧
      (run k (order ++ (List.replicate 7 Cpu.A ++ List.replicate 3 Cpu.B))
          (sleepWakeupStart k p)).restA = [] ∧
      (run k (order ++ (List.replicate 7 Cpu.A ++ List.replicate 3 Cpu.B))
          (sleepWakeupStart k p)).restB = [] ∧
      (run k (order ++ (List.replicate 7 Cpu.A ++ List.replicate 3 Cpu.B))
          (sleepWakeupStart k p)).slot.state = procstate.RUNNABLE := by
  obtain ⟨i, j, hi, hj, hij, hrun⟩ :=
    run_serial k p h order 0 0 (by omega) (by omega) (Or.inl rfl)
  have hstart : serialState k p 0 0 = sleepWakeupStart k p := rfl
  rw [hstart] at hrun
  have hdone := run_completion k p h i j hi hj hij
  refine ⟨serialState k p i j, hrun, ?_, ?_, ?_, ?_, ?_, by rw [run_append, hrun]; exact hdone⟩
  · intro hA
    rcases hij with rfl | rfl
    · obtain ⟨hrA, hrB, hseen⟩ := serialState_restA k p i hi
      have hi7 : i < 7 := by
        rcases Nat.lt_or_ge i 7 with h7 | h7
        · exact h7
        · have : i = 7 := by omega
          subst this
          exact absurd hrA hA
      exact ⟨serialState_B_blocked k p h i hi7, hrB, hseen⟩
    · exact absurd (serialState_after_A k p h j hj).1 hA
  · rcases hij with rfl | rfl
    · exact Or.inl (serialState_restA k p i hi).2.2
    · obtain ⟨_, _, _, h2, h01⟩ := serialState_after_A k p h j hj
      rcases Nat.lt_or_ge j 2 with hlt | hge
      · exact Or.inl (h01 hlt).1
      · exact Or.inr (h2 hge).1
  · intro hlen
    rcases hij with rfl | rfl
    · rw [(serialState_restA k p i hi).2.1] at hlen
      simp [wakeupLines, h] at hlen
    · obtain ⟨_, _, hB, h2, _⟩ := serialState_after_A k p h j hj
      rw [hB] at hlen
      have hge : 2 ≤ j := by
        simp only [List.length_drop, List.length_cons, List.length_nil] at hlen
        omega
      exact ⟨(h2 hge).1, (h2 hge).2.1⟩
  · intro hA
    rcases hij with rfl | rfl
    · rw [serialState_succ_A]
      have hi7 : i < 7 := by
        rcases Nat.lt_or_ge i 7 with h7 | h7
        · exact h7
        · have : i = 7 := by omega
          subst this
          exact absurd (serialState_restA k p 7 hi).1 hA
      rw [(serialState_restA k p i hi).1, (serialState_restA k p (i + 1) (by omega)).1]
      simp only [List.length_drop, sleepLines, List.length_cons, List.length_nil]
      omega
    · exact absurd (serialState_after_A k p h j hj).1 hA
  · intro hA hB
    have hi7 : i = 7 := by
      rcases hij with rfl | rfl
      · rw [(serialState_restA k p i hi).1] at hA
        have := congrArg List.length hA
        simp only [List.length_drop, sleepLines, List.length_cons, List.length_nil] at this
        omega
      · rfl
    subst hi7
    rw [serialState_succ_B]
    have hj3 : j < 3 := by
      rcases Nat.lt_or_ge j 3 with h3 | h3
      · exact h3
      · have : j = 3 := by omega
        subst this
        exact absurd (serialState_after_A k p h 3 hj).2.2.1 hB
    rw [(serialState_after_A k p h j hj).2.2.1,
      (serialState_after_A k p h (j + 1) (by omega)).2.2.1]
    simp only [List.length_drop, List.length_cons, List.length_nil]
    omega

/-- C13 on a concrete schedule: the sleeper is the process of slot 1, the waker the
process of slot 0, and CPU B is given turns from the start; its `wakeup` still reads
the slot SLEEPING on the channel and leaves it RUNNABLE. -/
theorem no_lost_wakeup_witness :
    Ptr.slot rendezvous.a ≠ rendezvous.me ∧
    (run rendezvous interleavedOrder
      (sleepWakeupStart rendezvous sleeperSlot)).restB.length ≤ 1 ∧
    (run rendezvous interleavedOrder (sleepWakeupStart rendezvous sleeperSlot)).seen =
      some (procstate.SLEEPING, rendezvous.chan) ∧
    (run rendezvous interleavedOrder
      (sleepWakeupStart rendezvous sleeperSlot)).slot.state = procstate.RUNNABLE := by
  obtain ⟨s, hs, _, _, h3, _⟩ :=
    no_lost_wakeup rendezvous sleeperSlot (by decide) interleavedOrder
  subst hs
  exact ⟨by decide, by decide, h3 (by decide)⟩

/-- The interleaving model and the sequential embedding write the same slot: after
the seven lines of CPU A the slot is the one `sleep` writes, and the three lines of
CPU B then apply the body of the loop of `wakeup` to it. -/
theorem interleaving_agrees_with_sequential (k : SleepWakeup) (p : Proc) (tbl : Table)
    (h : Ptr.slot k.a ≠ k.me) (hp : tbl[k.a]? = some p) :
    sleep k.pol k.sleepTicks k.a k.chan tbl = tbl.set k.a (serialState k p 7 0).slot ∧
    (serialState k p 7 3).slot =
      wakeSlot k.pol k.wakeTicks k.me k.chan k.a (serialState k p 7 0).slot := by
  constructor
  · simp only [sleep, hp]
    rfl
  · simp [serialState, run, turn, execLine, sleepWakeupStart, sleepLines, wakeupLines, h]

/-- The order of the first two lines of `sleep` matters in the model: had `sleep`
released `lk` before taking `p->lock`, the schedule that runs `wakeup` between those
two lines would let its test read the slot still RUNNING, and the slot would end
SLEEPING with both CPUs done. -/
theorem guard_released_first_loses_wakeup :
    (run rendezvous
      [Cpu.A, Cpu.B, Cpu.B, Cpu.B, Cpu.A, Cpu.A, Cpu.A, Cpu.A, Cpu.A, Cpu.A]
      { sleepWakeupStart rendezvous sleeperSlot with
        restA := [Line.releaseGuard, Line.acquireSlotLock, Line.setChan, Line.setSleeping,
                  Line.noteSleepStart, Line.sched, Line.releaseSlotLock] }) =
      { restA := []
        restB := []
        guardHeld := false
        slotLock := none
        slot := { sleeperSlot with
                  chan := rendezvous.chan, state := procstate.SLEEPING, sleepStartTime := 5 }
        seen := some (procstate.RUNNING, Ptr.null) } := by
  decide

end XV6
